import Mathlib

/-!
# Remote debugger wire protocol (`src/osd/modules/debugger/debug_remote.cpp`)

A shallow embedding of the `debug_remote` module and proofs about its wire
behaviour.

Modelling conventions

* A byte is a `Nat`; values of C type `u8` / `unsigned char` that enter
  arithmetic are reduced `% 256`.  A C `int` is the `Nat` below `2 ^ 32` that
  has the same two's complement bits, a signed 32 bit value that is compared
  with `<` is an `Int`.
* The socket (`emu_file m_socket`) is a record of the bytes the peer will
  deliver (`inp`), the bytes already put on the wire (`out`), the bytes that
  crossed it in either direction (`traffic`) and two schedules.  The k-th call
  of `read` / `write` may transfer at most the k-th entry of its schedule (an
  entry `0` is a zero-byte transfer); once a schedule is used up every call
  transfers all that was asked for (reads: all that is left of `inp`).  Every
  finite prefix of every pattern of short and zero-byte transfers is such a
  schedule.
* A `while` loop that polls the socket is a function with a fuel argument; it
  answers `Fault.spin` when the fuel is gone.
* The collaborators of the module (memory translator, console, view
  renderer) are the fields of `Host`; every call made on them is appended to
  `debug_remote.calls`.  An address space is a function from offsets to bytes
  that stores what is written.
* `sscanf` is modelled for the two formats in use as the C library converts
  them: the digits are collected as the standard says (7.21.6.2) and handed to
  `strtoul` / `strtol`, which saturate when the value does not fit; a prefix
  `0x` without a digit after it is read as 0; the `int` target of `%d` keeps
  the low 32 bits of the `long`.  The string scanned ends at its first NUL: a
  scan that finds none inside `buffer` leaves the array (`Fault.oob`).
-/

namespace osd

/-- Ways in which a routine does not return normally. -/
inductive Fault where
  /-- a polling loop that does not come to an end -/
  | spin
  /-- an access outside an array, or through a null pointer -/
  | oob
  /-- the call of fatalerror after a failed open -/
  | fatal
  deriving DecidableEq, Repr

/-- The constants device_memory_interface::TR_READ and TR_WRITE. -/
inductive Intent where
  | TR_READ
  | TR_WRITE
  deriving DecidableEq, Repr

/-- The two views allocated in wait_for_debugger. -/
inductive ViewKind where
  | DVT_DISASSEMBLY
  | DVT_STATE
  deriving DecidableEq, Repr

/-- One rendered cell, with the field order of the host structure. -/
structure debug_view_char where
  byte : Nat
  attrib : Nat
  deriving DecidableEq, Repr

/-- The part of a debug view this module sets. -/
structure debug_view where
  expression : String
  visible_size : Int × Int
  visible_position : Int × Int
  deriving DecidableEq, Repr

/-- A call made on a collaborator. -/
inductive Call where
  | text_buffer_clear
  | execute_command (command : List Nat)
  | translate (spacenum : Nat) (intention : Intent) (address : Nat)
  | read_byte (space : Nat) (offset : Nat)
  | write_byte (space : Nat) (offset : Nat) (data : Nat)
  | set_expression (view : ViewKind) (expression : String)
  | set_visible_size (view : ViewKind) (w h : Int)
  | set_visible_position (view : ViewKind) (x y : Int)
  | viewdata (view : ViewKind)
  deriving DecidableEq, Repr

/-- The collaborators of the module: the memory translator of the main cpu
(space number, intention, address to target space and translated offset), the
console (the lines a command prints) and the view renderer. -/
structure Host where
  translate : Nat → Intent → Nat → Option (Nat × Nat)
  execute_command : List Nat → List (List Nat)
  viewdata : ViewKind → debug_view → List debug_view_char

/-- One byte crossing the socket: received from the peer or sent to it. -/
inductive Transfer where
  | rx (b : Nat)
  | tx (b : Nat)
  deriving DecidableEq, Repr

/-- The socket resource. -/
structure emu_file where
  is_open : Bool
  inp : List Nat
  rsched : List Nat
  wsched : List Nat
  out : List Nat
  /-- every byte read or written so far, in the order of the transfers -/
  traffic : List Transfer
  /-- whether the listening port can be bound -/
  listen_ok : Bool
  /-- the port of the last successful open -/
  port : Option Nat
  opens : Nat
  closes : Nat
  deriving DecidableEq, Repr

/-- The state of the module together with the memory spaces, the console
transcript and the log of collaborator calls. -/
structure debug_remote where
  m_debugger_port : Nat
  m_socket : emu_file
  buffer : Nat → Nat
  memory : Nat → Nat → Nat
  textbuf : List (List Nat)
  m_disasm_view : debug_view
  m_register_view : debug_view
  calls : List Call

/-- Size of the member `char buffer[65536]`. -/
def BUFFER_SIZE : Nat := 65536

/-- The address space number AS_PROGRAM. -/
def AS_PROGRAM : Nat := 0

/-- Non-blocking read of at most `length` bytes. -/
def emu_file.read (s : emu_file) (length : Nat) : List Nat × emu_file :=
  let avail := min length s.inp.length
  let n := match s.rsched with
    | [] => avail
    | k :: _ => min k avail
  (s.inp.take n, { s with
    inp := s.inp.drop n, rsched := s.rsched.tail
    traffic := s.traffic ++ (s.inp.take n).map Transfer.rx })

/-- Write of at most `length` bytes of `data`; answers the count transferred. -/
def emu_file.write (s : emu_file) (data : List Nat) (length : Nat) : Nat × emu_file :=
  let n := match s.wsched with
    | [] => length
    | k :: _ => min k length
  (n, { s with
    out := s.out ++ data.take n, wsched := s.wsched.tail
    traffic := s.traffic ++ (data.take n).map Transfer.tx })

/-- The call `m_socket.close()`. -/
def emu_file.close (s : emu_file) : emu_file :=
  { s with is_open := false, closes := s.closes + 1 }

/-- The call `m_socket.open("socket.localhost:<port>")`; the flag is the error
condition. -/
def emu_file.open (s : emu_file) (port : Nat) : Bool × emu_file :=
  if s.listen_ok then
    (false, { s with is_open := true, port := some port, opens := s.opens + 1 })
  else
    (true, s)

/-- Bytes stored from index `offs` on. -/
def buffer_write (buf : Nat → Nat) (offs : Nat) (bytes : List Nat) : Nat → Nat :=
  fun i => if offs ≤ i ∧ i < offs + bytes.length then bytes.getD (i - offs) 0 else buf i

/-- A store into `buffer`, checked against its size. -/
def buffer_store (buf : Nat → Nat) (offs : Nat) (bytes : List Nat) : Except Fault (Nat → Nat) :=
  if offs + bytes.length ≤ BUFFER_SIZE then .ok (buffer_write buf offs bytes) else .error .oob

/-- The bytes `buf[start .. start + len)`. -/
def buffer_slice (buf : Nat → Nat) (start len : Nat) : List Nat :=
  (List.range len).map (fun i => buf (start + i))

/-- The string that starts at `buf + i` when `n` bytes of the array are left
from there: the bytes before the first NUL.  A scan that meets no NUL in these
`n` bytes runs past the end of the array. -/
def c_str_aux (buf : Nat → Nat) : Nat → Nat → Except Fault (List Nat)
  | 0, _ => .error .oob
  | n + 1, i =>
    if buf i = 0 then .ok []
    else
      match c_str_aux buf n (i + 1) with
      | .error e => .error e
      | .ok text => .ok (buf i :: text)

/-- The C string at `buffer + start`, as a routine that reads up to the first
NUL sees it (`sscanf`, `strlen`); `Fault.oob` when there is no NUL between
`start` and the end of the array. -/
def c_str (buf : Nat → Nat) (start : Nat) : Except Fault (List Nat) :=
  c_str_aux buf (BUFFER_SIZE - start) start

/-- The length `strlen` finds in the bytes of a line. -/
def strlen (line : List Nat) : Nat :=
  (line.takeWhile (fun c => c != 0)).length

/-! ## The conversions of `sscanf` used by the module -/

/-- White space in the "C" locale. -/
def isspace (c : Nat) : Bool :=
  c == 32 || (9 ≤ c && c ≤ 13)

/-- Value of a hexadecimal digit. -/
def hex_digit (c : Nat) : Option Nat :=
  if 48 ≤ c ∧ c ≤ 57 then some (c - 48)
  else if 97 ≤ c ∧ c ≤ 102 then some (c - 87)
  else if 65 ≤ c ∧ c ≤ 70 then some (c - 55)
  else none

/-- Value of a decimal digit. -/
def dec_digit (c : Nat) : Option Nat :=
  if 48 ≤ c ∧ c ≤ 57 then some (c - 48) else none

/-- The longest run of digits: value, number of digits, rest of the input. -/
def scan_digits (digit : Nat → Option Nat) (base : Nat) :
    List Nat → Nat → Nat → Nat × Nat × List Nat
  | [], acc, n => (acc, n, [])
  | c :: cs, acc, n =>
    match digit c with
    | some v => scan_digits digit base cs (acc * base + v) (n + 1)
    | none => (acc, n, c :: cs)

/-- An optional sign; the flag says that it was a minus. -/
def scan_sign : List Nat → Bool × List Nat
  | [] => (false, [])
  | c :: cs => if c = 45 then (true, cs) else if c = 43 then (false, cs) else (false, c :: cs)

/-- An optional prefix 0x or 0X; the flag says that it was there.  The 0 of
the prefix is a digit the conversion has read, the x is dropped. -/
def scan_hex_lead : List Nat → Bool × List Nat
  | c0 :: c1 :: cs =>
    if c0 = 48 ∧ (c1 = 120 ∨ c1 = 88) then (true, cs) else (false, c0 :: c1 :: cs)
  | cs => (false, cs)

/-- What `strtoul` answers for a sign and the value of the digits:
`ULONG_MAX` when the digits do not fit 64 bits, else the value, negated in 64
bits after a minus. -/
def strtoul (neg : Bool) (v : Nat) : Nat :=
  if 2 ^ 64 ≤ v then 2 ^ 64 - 1 else if neg then (2 ^ 64 - v) % 2 ^ 64 else v

/-- What `strtol` answers for a sign and the value of the digits: the value
with its sign, held at `LONG_MIN` and `LONG_MAX`. -/
def strtol (neg : Bool) (v : Nat) : Int :=
  if neg then (if 2 ^ 63 ≤ v then -(2 ^ 63 : Int) else -(v : Int))
  else (if 2 ^ 63 ≤ v then (2 ^ 63 - 1 : Int) else (v : Int))

/-- The conversion `%lx` (PRIx64) into an `int64_t`: white space, sign,
prefix, hexadecimal digits; there must be a digit, which the 0 of a prefix is.
The collected text is converted by `strtoul`; the answer is the 64 bit
pattern stored.  `none` is a matching failure or the end of the input. -/
def scan_x (s : List Nat) : Option (Nat × List Nat) :=
  let (neg, s1) := scan_sign (s.dropWhile isspace)
  let (lead, s2) := scan_hex_lead s1
  let (v, n, rest) := scan_digits hex_digit 16 s2 0 0
  if n = 0 ∧ lead = false then none
  else some (strtoul neg v, rest)

/-- Reduction of an integer to the range of a 32 bit `int`. -/
def wrap32 (v : Int) : Int :=
  (v + 2 ^ 31) % 2 ^ 32 - 2 ^ 31

/-- The conversion `%d` into an `s32`: white space, sign, at least one
decimal digit.  The collected text is converted by `strtol` and the `long` is
stored into the `int`, which keeps its low 32 bits. -/
def scan_d (s : List Nat) : Option (Int × List Nat) :=
  let (neg, s1) := scan_sign (s.dropWhile isspace)
  let (v, n, rest) := scan_digits dec_digit 10 s1 0 0
  if n = 0 then none
  else some (wrap32 (strtol neg v), rest)

/-- A literal comma of the format. -/
def scan_comma : List Nat → Option (List Nat)
  | [] => none
  | c :: cs => if c = 44 then some cs else none

/-- The call `sscanf(s, "%" PRIx64 ",%" PRIx64, &address, &length)`: the two
values when it answers 2, `none` otherwise. -/
def sscanf_x_x (s : List Nat) : Option (Nat × Nat) :=
  match scan_x s with
  | none => none
  | some (address, s1) =>
    match scan_comma s1 with
    | none => none
    | some s2 =>
      match scan_x s2 with
      | none => none
      | some (length, _) => some (address, length)

/-- The call `sscanf(s, "%d,%d,%d,%d", &x, &y, &w, &h)`: the four values when
it answers 4, `none` otherwise. -/
def sscanf_d_d_d_d (s : List Nat) : Option (Int × Int × Int × Int) :=
  match scan_d s with
  | none => none
  | some (x, s1) =>
    match scan_comma s1 with
    | none => none
    | some s2 =>
      match scan_d s2 with
      | none => none
      | some (y, s3) =>
        match scan_comma s3 with
        | none => none
        | some s4 =>
          match scan_d s4 with
          | none => none
          | some (w, s5) =>
            match scan_comma s5 with
            | none => none
            | some s6 =>
              match scan_d s6 with
              | none => none
              | some (h, _) => some (x, y, w, h)

/-! ## The routines of `debug_remote` -/

/-- The routine `get_byte`: polls until one byte has been read into
`buffer[0]` and answers it as an `unsigned char`. -/
def get_byte : Nat → debug_remote → Except Fault (Nat × debug_remote)
  | 0, _ => .error .spin
  | fuel + 1, d =>
    let (bytes, s1) := d.m_socket.read 1
    match buffer_store d.buffer 0 bytes with
    | .error e => .error e
    | .ok buf =>
      let d1 := { d with m_socket := s1, buffer := buf }
      if bytes.length = 0 then get_byte fuel d1 else .ok (d1.buffer 0 % 256, d1)

/-- The routine `send_byte`. -/
def send_byte : Nat → emu_file → Nat → Except Fault emu_file
  | 0, _, _ => .error .spin
  | fuel + 1, s, b =>
    let (len, s1) := s.write [b % 256] 1
    if len = 0 then send_byte fuel s1 b else .ok s1

/-- The routine `send_size`. -/
def send_size (fuel : Nat) (s : emu_file) (size : Nat) : Except Fault emu_file :=
  match send_byte fuel s ((size >>> 8) &&& 0xff) with
  | .error e => .error e
  | .ok s1 => send_byte fuel s1 (size &&& 0xff)

/-- The loop of `send_data`: `data` is what the pointer points to. -/
def send_data_loop : Nat → emu_file → List Nat → Nat → Except Fault emu_file
  | 0, _, _, _ => .error .spin
  | fuel + 1, s, data, size =>
    if size = 0 then .ok s
    else
      let (len, s1) := s.write data size
      if len = 0 then send_data_loop fuel s1 data size
      else send_data_loop fuel s1 (data.drop len) (size - len)

/-- The routine `send_data`. -/
def send_data (fuel : Nat) (s : emu_file) (data : List Nat) (size : Nat) : Except Fault emu_file :=
  match send_size fuel s size with
  | .error e => .error e
  | .ok s1 => send_data_loop fuel s1 data size

/-- The call `data->read_byte(offset)`; the parameter is an `offs_t`. -/
def read_byte (d : debug_remote) (space offset : Nat) : Nat × debug_remote :=
  (d.memory space (offset % 2 ^ 32),
    { d with calls := d.calls ++ [Call.read_byte space (offset % 2 ^ 32)] })

/-- The call `data->write_byte(offset, b)` on a space that stores what is
written. -/
def write_byte (d : debug_remote) (space offset b : Nat) : debug_remote :=
  { d with
    memory := fun sp o => if sp = space ∧ o = offset % 2 ^ 32 then b else d.memory sp o
    calls := d.calls ++ [Call.write_byte space (offset % 2 ^ 32) b] }

/-- The loop of `send_space`: the byte is fetched and the offset advanced
before the write is tried. -/
def send_space_loop : Nat → debug_remote → Nat → Nat → Nat → Except Fault debug_remote
  | 0, _, _, _, _ => .error .spin
  | fuel + 1, d, space, offset, size =>
    if size = 0 then .ok d
    else
      let (b, d1) := read_byte d space offset
      let (len, s1) := d1.m_socket.write [b] 1
      let d2 := { d1 with m_socket := s1 }
      if len = 0 then send_space_loop fuel d2 space (offset + 1) size
      else send_space_loop fuel d2 space (offset + 1) (size - len)

/-- The routine `send_space`. -/
def send_space (fuel : Nat) (d : debug_remote) (space offset size : Nat) :
    Except Fault debug_remote :=
  match send_size fuel d.m_socket size with
  | .error e => .error e
  | .ok s1 => send_space_loop fuel { d with m_socket := s1 } space offset size

/-- The routine `recv_space`. -/
def recv_space : Nat → debug_remote → Nat → Nat → Nat → Except Fault debug_remote
  | 0, _, _, _, _ => .error .spin
  | fuel + 1, d, space, offset, size =>
    if size = 0 then .ok d
    else
      let (bytes, s1) := d.m_socket.read 1
      let d1 := { d with m_socket := s1 }
      match bytes with
      | [] => recv_space fuel d1 space offset size
      | b :: _ => recv_space fuel (write_byte d1 space offset b) space (offset + 1) (size - bytes.length)

/-- The loop of `recv`. -/
def recv_loop : Nat → debug_remote → Nat → Nat → Except Fault debug_remote
  | 0, _, _, _ => .error .spin
  | fuel + 1, d, offs, toRead =>
    if toRead = 0 then .ok d
    else
      let (bytes, s1) := d.m_socket.read toRead
      match buffer_store d.buffer offs bytes with
      | .error e => .error e
      | .ok buf =>
        let d1 := { d with m_socket := s1, buffer := buf }
        if bytes.length = 0 then recv_loop fuel d1 offs toRead
        else recv_loop fuel d1 (offs + bytes.length) (toRead - bytes.length)

/-- The routine `recv`. -/
def recv (fuel : Nat) (d : debug_remote) (first : Nat) : Except Fault (Nat × debug_remote) :=
  match get_byte fuel d with
  | .error e => .error e
  | .ok (second, d1) =>
    let length := ((first % 256) <<< 8) ||| second
    match buffer_store d1.buffer length [0] with
    | .error e => .error e
    | .ok buf =>
      match recv_loop fuel { d1 with buffer := buf } 0 length with
      | .error e => .error e
      | .ok d2 => .ok (length, d2)

/-- The view a `debug_view*` of this module points to. -/
def debug_remote.view (d : debug_remote) : ViewKind → debug_view
  | .DVT_DISASSEMBLY => d.m_disasm_view
  | .DVT_STATE => d.m_register_view

/-- Assignment through a `debug_view*`. -/
def debug_remote.set_view (d : debug_remote) (k : ViewKind) (v : debug_view) : debug_remote :=
  match k with
  | .DVT_DISASSEMBLY => { d with m_disasm_view := v }
  | .DVT_STATE => { d with m_register_view := v }

/-- The loop of `send_view`: `n` cells, two unchecked writes each. -/
def send_view_loop : Nat → emu_file → List debug_view_char → Except Fault emu_file
  | 0, s, _ => .ok s
  | _ + 1, _, [] => .error .oob
  | n + 1, s, c :: cs =>
    let (_, s1) := s.write [c.attrib] 1
    let (_, s2) := s1.write [c.byte] 1
    send_view_loop n s2 cs

/-- The routine `send_view`. -/
def send_view (host : Host) (fuel : Nat) (d : debug_remote) (k : ViewKind) (x y w h : Int) :
    Except Fault debug_remote :=
  let v1 := { d.view k with visible_size := (w, h) }
  let v2 := { v1 with visible_position := (x, y) }
  let d1 := { d.set_view k v2 with
    calls := d.calls ++ [Call.set_visible_size k w h, Call.set_visible_position k x y,
      Call.viewdata k] }
  let viewdata := host.viewdata k v2
  match send_size fuel d1.m_socket ((wrap32 (wrap32 (w * h) * 2) % 2 ^ 32).toNat) with
  | .error e => .error e
  | .ok s1 =>
    match send_view_loop (wrap32 (w * h)).toNat s1 viewdata with
    | .error e => .error e
    | .ok s2 => .ok { d1 with m_socket := s2 }

/-- The loop over the transcript in the case 'x' of `update_socket`: `n`
lines from sequence number `i` on. -/
def send_lines : Nat → Nat → Nat → debug_remote → Except Fault debug_remote
  | _, 0, _, d => .ok d
  | fuel, n + 1, i, d =>
    match d.textbuf.get? i with
    | none => .error .oob
    | some line =>
      match send_data fuel d.m_socket line (strlen line % 2 ^ 32) with
      | .error e => .error e
      | .ok s1 => send_lines fuel n (i + 1) { d with m_socket := s1 }

/-- Answer with an empty frame. -/
def reply_empty (fuel : Nat) (d : debug_remote) : Except Fault debug_remote :=
  match send_size fuel d.m_socket 0 with
  | .error e => .error e
  | .ok s1 => .ok { d with m_socket := s1 }

/-- The case '?' of the switch in `update_socket`. -/
def case_status (fuel : Nat) (running : Bool) (d : debug_remote) : Except Fault debug_remote :=
  match send_data fuel d.m_socket (if running then [89, 0] else [78, 0]) 1 with
  | .error e => .error e
  | .ok s1 => .ok { d with m_socket := s1 }

/-- The case 'x' of the switch in `update_socket`. -/
def case_x (host : Host) (fuel : Nat) (d : debug_remote) (clength : Nat) :
    Except Fault debug_remote :=
  let command := buffer_slice d.buffer 1 (clength - 1)
  let d1 := { d with textbuf := [], calls := d.calls ++ [Call.text_buffer_clear] }
  let d2 := { d1 with
    textbuf := d1.textbuf ++ host.execute_command command
    calls := d1.calls ++ [Call.execute_command command] }
  let nlines := d2.textbuf.length % 2 ^ 32
  if nlines ≠ 0 then
    match send_size fuel d2.m_socket nlines with
    | .error e => .error e
    | .ok s1 => send_lines fuel nlines 0 { d2 with m_socket := s1 }
  else reply_empty fuel d2

/-- The case 'm' of the switch in `update_socket`. -/
def case_m (host : Host) (fuel : Nat) (d : debug_remote) : Except Fault debug_remote :=
  match c_str d.buffer 1 with
  | .error e => .error e
  | .ok text =>
    match sscanf_x_x text with
    | none => reply_empty fuel d
    | some (address, length) =>
      let offset := address % 2 ^ 32
      let d1 := { d with calls := d.calls ++ [Call.translate AS_PROGRAM Intent.TR_READ offset] }
      match host.translate AS_PROGRAM Intent.TR_READ offset with
      | none => reply_empty fuel d1
      | some (tspace, offset1) => send_space fuel d1 tspace offset1 (length % 2 ^ 32)

/-- The case 'p' of the switch in `update_socket`. -/
def case_p (host : Host) (fuel : Nat) (d : debug_remote) : Except Fault debug_remote :=
  match c_str d.buffer 1 with
  | .error e => .error e
  | .ok text =>
    match sscanf_x_x text with
    | none => reply_empty fuel d
    | some (address, length) =>
      let offset := address % 2 ^ 32
      let d1 := { d with calls := d.calls ++ [Call.translate AS_PROGRAM Intent.TR_READ offset] }
      match host.translate AS_PROGRAM Intent.TR_READ offset with
      | none => reply_empty fuel d1
      | some (tspace, offset1) =>
        match send_size fuel d1.m_socket (length % 2 ^ 32) with
        | .error e => .error e
        | .ok s1 =>
          match recv_space fuel { d1 with m_socket := s1 } tspace offset1 (length % 2 ^ 32) with
          | .error e => .error e
          | .ok d2 => reply_empty fuel d2

/-- The case 'v' of the switch in `update_socket`. -/
def case_v (host : Host) (fuel : Nat) (d : debug_remote) : Except Fault debug_remote :=
  match c_str d.buffer 2 with
  | .error e => .error e
  | .ok text =>
    match sscanf_d_d_d_d text with
    | none => reply_empty fuel d
    | some (x, y, w, h) =>
      let kind := d.buffer 1
      if kind = 100 then
        let d1 := { d with
          m_disasm_view := { d.m_disasm_view with expression := "curpc" }
          calls := d.calls ++ [Call.set_expression ViewKind.DVT_DISASSEMBLY "curpc"] }
        send_view host fuel d1 ViewKind.DVT_DISASSEMBLY x y w h
      else if kind = 115 then
        send_view host fuel d ViewKind.DVT_STATE x y w h
      else reply_empty fuel d

/-- The `switch (buffer[0])` of `update_socket`. -/
def update_socket_switch (host : Host) (fuel : Nat) (running : Bool) (d : debug_remote)
    (clength : Nat) : Except Fault debug_remote :=
  let op := d.buffer 0
  if op = 63 then case_status fuel running d
  else if op = 120 then case_x host fuel d clength
  else if op = 109 then case_m host fuel d
  else if op = 112 then case_p host fuel d
  else if op = 118 then case_v host fuel d
  else reply_empty fuel d

/-- The routine `update_socket`. -/
def update_socket (host : Host) (fuel : Nat) (running : Bool) (d : debug_remote) :
    Except Fault debug_remote :=
  if d.m_socket.is_open = false then .ok d
  else
    let (bytes, s1) := d.m_socket.read 1
    let d1 := { d with m_socket := s1 }
    match bytes with
    | [] => .ok d1
    | first :: _ =>
      match recv fuel d1 first with
      | .error e => .error e
      | .ok (clength, d2) =>
        if clength = 0 then
          let (filerrr, s2) := d2.m_socket.close.open d2.m_debugger_port
          if filerrr then .error .fatal else .ok { d2 with m_socket := s2 }
        else update_socket_switch host fuel running d2 clength

/-- The routine `debugger_update`. -/
def debugger_update (host : Host) (fuel : Nat) (d : debug_remote) : Except Fault debug_remote :=
  update_socket host fuel true d

/-! ## Vocabulary of the specification -/

/-- The two bytes `u16(n)`, big endian. -/
def u16 (n : Nat) : List Nat :=
  [n / 256 % 256, n % 256]

/-- A frame: the length of the payload, then the payload. -/
def frame (payload : List Nat) : List Nat :=
  u16 payload.length ++ payload

/-- The bytes of rendered cells, attribute first. -/
def cell_bytes (cells : List debug_view_char) : List Nat :=
  cells.flatMap (fun c => [c.attrib, c.byte])

/-- The socket after `bytes` went out and `k` entries of the write schedule
were used. -/
def emu_file.after_write (s : emu_file) (bytes : List Nat) (k : Nat) : emu_file :=
  { s with
    out := s.out ++ bytes, wsched := s.wsched.drop k
    traffic := s.traffic ++ bytes.map Transfer.tx }

/-- The socket after `n` bytes came in and `k` entries of the read schedule
were used. -/
def emu_file.after_read (s : emu_file) (n k : Nat) : emu_file :=
  { s with
    inp := s.inp.drop n, rsched := s.rsched.drop k
    traffic := s.traffic ++ (s.inp.take n).map Transfer.rx }

/-- The contents of `buffer` after `recv` took a frame whose second length
byte is `second` and whose payload is `payload`. -/
def recv_buffer (buf : Nat → Nat) (second : Nat) (payload : List Nat) : Nat → Nat :=
  buffer_write (buffer_write (buffer_write buf 0 [second]) payload.length [0]) 0 payload

/-- The text a handler hands to `sscanf` for a frame with this payload: what
follows the first `k` bytes, up to the first NUL. -/
def request_text (payload : List Nat) (k : Nat) : List Nat :=
  (payload.drop k).takeWhile (fun c => c != 0)

/-- A request frame with this payload is the next input of an open socket,
followed by `rest`, and the first non-blocking read delivers its first byte. -/
def receives (d : debug_remote) (payload rest : List Nat) : Prop :=
  d.m_socket.is_open = true ∧ d.m_socket.rsched.head? ≠ some 0 ∧
    payload.length ≤ 65535 ∧ d.m_socket.inp = frame payload ++ rest

/-- The module after `recv` has taken a frame, `k` reads later. -/
def after_recv (d : debug_remote) (payload : List Nat) (k : Nat) : debug_remote :=
  { d with m_socket := d.m_socket.after_read (2 + payload.length) k,
           buffer := recv_buffer d.buffer (payload.length % 256) payload }

/-- The bytes of a space at `offset`, `offset + 1`, ..., `offset + n - 1`
(offsets are of type `offs_t`). -/
def space_bytes (mem : Nat → Nat → Nat) (space offset n : Nat) : List Nat :=
  (List.range n).map (fun i => mem space ((offset + i) % 2 ^ 32))

/-- The memory after the bytes were stored at `offset`, `offset + 1`, ... of
a space, one after the other. -/
def store_bytes (mem : Nat → Nat → Nat) (space : Nat) : Nat → List Nat → Nat → Nat → Nat
  | _, [] => mem
  | offset, b :: bs =>
    store_bytes (fun sp o => if sp = space ∧ o = offset % 2 ^ 32 then b else mem sp o) space
      (offset + 1) bs

/-- The `read_byte` calls of a memory read, in order. -/
def read_calls (space offset n : Nat) : List Call :=
  (List.range n).map (fun i => Call.read_byte space ((offset + i) % 2 ^ 32))

/-- The `write_byte` calls of a memory write, in order. -/
def write_calls (space : Nat) : Nat → List Nat → List Call
  | _, [] => []
  | offset, b :: bs => Call.write_byte space (offset % 2 ^ 32) b :: write_calls space (offset + 1) bs

/-- Every write of one byte transfers it. -/
def writes_transfer (s : emu_file) : Prop :=
  ∀ g ∈ s.wsched, 1 ≤ g

/-! ## Sample data -/

/-- An open socket with the given input and schedules, nothing written yet. -/
def sample_socket (inp rsched wsched : List Nat) : emu_file where
  is_open := true
  inp := inp
  rsched := rsched
  wsched := wsched
  out := []
  traffic := []
  listen_ok := true
  port := some 23946
  opens := 1
  closes := 0

/-- A view before any request. -/
def sample_view : debug_view where
  expression := ""
  visible_size := (0, 0)
  visible_position := (0, 0)

/-- A module state around `sample_socket`; the buffer holds bytes of an
earlier request. -/
def sample_state (inp rsched wsched : List Nat) : debug_remote where
  m_debugger_port := 23946
  m_socket := sample_socket inp rsched wsched
  buffer := fun _ => 170
  memory := fun sp o => (sp + o) % 256
  textbuf := []
  m_disasm_view := sample_view
  m_register_view := sample_view
  calls := []

/-- A host whose program space maps the addresses below 0x8000 to space 1 for
both intentions, whose console prints the lines "A", "BB", "CCC" for every
command and whose views render the cells (1,'A'), (2,'B'), ... -/
def sample_host : Host where
  translate := fun spacenum _ address =>
    if spacenum = 0 ∧ address < 32768 then some (1, address) else none
  execute_command := fun _ => [[65], [66, 66], [67, 67, 67]]
  viewdata := fun _ v =>
    (List.range (v.visible_size.1 * v.visible_size.2).toNat).map (fun i => ⟨65 + i, 1 + i⟩)

/-- A host whose address 0x1000 is mapped for writing only. -/
def host_write_only : Host where
  translate := fun _ intention address =>
    if intention = Intent.TR_WRITE ∧ address = 4096 then some (1, 4096) else none
  execute_command := fun _ => []
  viewdata := fun _ _ => []

/-- A host whose address 0x1000 is mapped for reading only. -/
def host_read_only : Host where
  translate := fun _ intention address =>
    if intention = Intent.TR_READ ∧ address = 4096 then some (1, 4096) else none
  execute_command := fun _ => []
  viewdata := fun _ _ => []

/-- What a run shows from outside: the bytes written, the input left, the
collaborator calls; `none` when it did not return. -/
def observe (r : Except Fault debug_remote) : Option (List Nat × List Nat × List Call) :=
  match r with
  | .ok d => some (d.m_socket.out, d.m_socket.inp, d.calls)
  | .error _ => none

/-- The read schedule a run leaves behind; `none` when it did not return. -/
def reads_left (r : Except Fault debug_remote) : Option (List Nat) :=
  match r with
  | .ok d => some d.m_socket.rsched
  | .error _ => none

/-- The part of the socket that only `close` and `open` change. -/
def emu_file.link (s : emu_file) : Bool × Bool × Option Nat × Nat × Nat :=
  (s.is_open, s.listen_ok, s.port, s.opens, s.closes)

/-- A call of `update_socket` with this fuel finds a first byte and `recv`
decodes the frame length 0. -/
def zero_frame (fuel : Nat) (d : debug_remote) : Prop :=
  ∃ first s1 d2, d.m_socket.read 1 = ([first], s1) ∧
    recv fuel { d with m_socket := s1 } first = .ok (0, d2)

/-- The reply to a status request in the words of the specification: one
frame whose payload is the single byte 'Y' if running, else 'N'. -/
def status_reply_spec (running : Bool) : List Nat :=
  frame [if running then 89 else 78]

/-- The module with another content of the receive buffer. -/
def debug_remote.set_buffer (d : debug_remote) (buf : Nat → Nat) : debug_remote :=
  { d with buffer := buf }

/-- The array holds a NUL at or after index `start`: a string that starts at
`buffer + start` ends inside the array. -/
def nul_from (buf : Nat → Nat) (start : Nat) : Prop :=
  ∃ j, start ≤ j ∧ j < BUFFER_SIZE ∧ buf j = 0

/-! # Theorems -/

/-! ## The socket primitives -/

theorem after_write_zero (s : emu_file) : s.after_write [] 0 = s := by
  cases s; simp [emu_file.after_write]

theorem after_write_after_write (s : emu_file) (a b : List Nat) (j k : Nat) :
    (s.after_write a j).after_write b k = s.after_write (a ++ b) (j + k) := by
  cases s; simp [emu_file.after_write, List.drop_drop, Nat.add_comm]

theorem after_read_zero (s : emu_file) : s.after_read 0 0 = s := by
  cases s; simp [emu_file.after_read]

theorem after_read_after_read (s : emu_file) (m n j k : Nat) :
    (s.after_read m j).after_read n k = s.after_read (m + n) (j + k) := by
  cases s
  simp [emu_file.after_read, List.drop_drop, Nat.add_comm, List.take_add]

theorem write_snd (s : emu_file) (data : List Nat) (n : Nat) :
    (s.write data n).2 = s.after_write (data.take (s.write data n).1) 1 := by
  cases s; simp [emu_file.write, emu_file.after_write]

theorem write_fst_le (s : emu_file) (data : List Nat) (n : Nat) : (s.write data n).1 ≤ n := by
  unfold emu_file.write
  cases s.wsched <;> simp

theorem write_fst_nil (s : emu_file) (data : List Nat) (n : Nat) (h : s.wsched = []) :
    (s.write data n).1 = n := by
  simp [emu_file.write, h]

theorem write_fst_one (s : emu_file) (data : List Nat) (h : ∀ g ∈ s.wsched, 1 ≤ g) :
    (s.write data 1).1 = 1 := by
  unfold emu_file.write
  cases hw : s.wsched with
  | nil => simp
  | cons g gs =>
    have := h g (by simp [hw])
    simp [Nat.min_eq_right this]

theorem read_snd (s : emu_file) (n : Nat) :
    (s.read n).2 = s.after_read (s.read n).1.length 1 := by
  cases s with
  | mk op inp rs ws out tr lo p o c =>
    cases rs <;> simp [emu_file.read, emu_file.after_read, List.length_take]

theorem read_fst (s : emu_file) (n : Nat) :
    (s.read n).1 = s.inp.take (s.read n).1.length := by
  cases s with
  | mk op inp rs ws out tr lo p o c =>
    cases rs <;> simp [emu_file.read, List.length_take, List.take_take]

theorem read_length_le (s : emu_file) (n : Nat) : (s.read n).1.length ≤ n := by
  cases s with
  | mk op inp rs ws out tr lo p o c =>
    cases rs <;> simp [emu_file.read, List.length_take]

theorem read_length_nil (s : emu_file) (n : Nat) (h : s.rsched = []) :
    (s.read n).1.length = min n s.inp.length := by
  simp [emu_file.read, h, List.length_take]

/-! ## The send routines -/

theorem after_write_wsched_length (s : emu_file) (bytes : List Nat) (k : Nat) :
    (s.after_write bytes k).wsched.length = s.wsched.length - k := by
  simp [emu_file.after_write]

theorem write_zero_sched (s : emu_file) (data : List Nat) (n : Nat) (hn : n ≠ 0)
    (h : (s.write data n).1 = 0) : 1 ≤ s.wsched.length := by
  cases hw : s.wsched with
  | nil => exact absurd ((write_fst_nil s data n hw).symm.trans h) hn
  | cons g gs => simp

theorem send_byte_ok (fuel : Nat) (s : emu_file) (b : Nat) (h : s.wsched.length < fuel) :
    ∃ k, send_byte fuel s b = .ok (s.after_write [b % 256] k) := by
  induction fuel generalizing s with
  | zero => omega
  | succ n ih =>
    rw [send_byte]
    have h1 := write_fst_le s [b % 256] 1
    have h2 := write_snd s [b % 256] 1
    have h3 := write_zero_sched s [b % 256] 1 (by omega)
    rcases hw : s.write [b % 256] 1 with ⟨len, s1⟩
    rw [hw] at h1 h2 h3
    simp only at h1 h2 h3 ⊢
    subst h2
    by_cases hl : len = 0
    · subst hl
      have := h3 rfl
      obtain ⟨k, hk⟩ := ih (s.after_write [] 1) (by rw [after_write_wsched_length]; omega)
      refine ⟨1 + k, ?_⟩
      simp only [List.take_zero, if_true, hk, after_write_after_write, List.nil_append]
    · have hl1 : len = 1 := by omega
      subst hl1
      exact ⟨1, by simp⟩

theorem and_255 (n : Nat) : n &&& 0xff = n % 256 :=
  Nat.and_pow_two_sub_one_eq_mod n 8

theorem send_size_ok (fuel : Nat) (s : emu_file) (size : Nat) (h : s.wsched.length < fuel) :
    ∃ k, send_size fuel s size = .ok (s.after_write (u16 size) k) := by
  have e1 : (size >>> 8) &&& 0xff = size / 256 % 256 := by
    rw [and_255, Nat.shiftRight_eq_div_pow]
  have e2 : size &&& 0xff = size % 256 := and_255 size
  unfold send_size
  rw [e1, e2]
  obtain ⟨k1, h1⟩ := send_byte_ok fuel s (size / 256 % 256) h
  obtain ⟨k2, h2⟩ := send_byte_ok fuel (s.after_write [size / 256 % 256 % 256] k1)
    (size % 256) (by rw [after_write_wsched_length]; omega)
  refine ⟨k1 + k2, ?_⟩
  rw [h1]
  simp only
  rw [h2, after_write_after_write]
  simp [u16, Nat.mod_mod]

theorem send_data_loop_ok (fuel : Nat) (s : emu_file) (data : List Nat) (size : Nat)
    (h : s.wsched.length + 2 ≤ fuel) :
    ∃ k, send_data_loop fuel s data size = .ok (s.after_write (data.take size) k) := by
  induction fuel generalizing s data size with
  | zero => omega
  | succ n ih =>
    rw [send_data_loop]
    by_cases hs : size = 0
    · subst hs
      exact ⟨0, by simp [after_write_zero]⟩
    · simp only [hs, if_false]
      have h1 := write_fst_le s data size
      have h2 := write_snd s data size
      have h3 := write_zero_sched s data size hs
      have h4 := write_fst_nil s data size
      rcases hw : s.write data size with ⟨len, s1⟩
      rw [hw] at h1 h2 h3 h4
      simp only at h1 h2 h3 h4 ⊢
      subst h2
      by_cases hl : len = 0
      · subst hl
        have := h3 rfl
        obtain ⟨k, hk⟩ := ih (s.after_write [] 1) data size
          (by rw [after_write_wsched_length]; omega)
        refine ⟨1 + k, ?_⟩
        simp only [List.take_zero, if_true, hk, after_write_after_write, List.nil_append]
      · simp only [hl, if_false]
        by_cases hws : s.wsched = []
        · have hlen := h4 hws
          subst hlen
          cases n with
          | zero => simp [hws] at h
          | succ m =>
            refine ⟨1, ?_⟩
            rw [send_data_loop]
            simp [after_write_zero]
        · have hpos : 1 ≤ s.wsched.length := by
            cases hw2 : s.wsched with
            | nil => exact absurd hw2 hws
            | cons g gs => simp
          obtain ⟨k, hk⟩ := ih (s.after_write (data.take len) 1) (data.drop len) (size - len)
            (by rw [after_write_wsched_length]; omega)
          refine ⟨1 + k, ?_⟩
          rw [hk, after_write_after_write]
          congr 2
          rw [← List.take_add]
          congr 1
          omega

theorem send_data_ok (fuel : Nat) (s : emu_file) (data : List Nat) (size : Nat)
    (h : s.wsched.length + 2 ≤ fuel) :
    ∃ k, send_data fuel s data size = .ok (s.after_write (u16 size ++ data.take size) k) := by
  obtain ⟨k1, h1⟩ := send_size_ok fuel s size (by omega)
  obtain ⟨k2, h2⟩ := send_data_loop_ok fuel (s.after_write (u16 size) k1) data size
    (by rw [after_write_wsched_length]; omega)
  exact ⟨k1 + k2, by simp only [send_data, h1, h2, after_write_after_write]⟩

/-! ## The receive routines -/

theorem buffer_write_nil (buf : Nat → Nat) (offs : Nat) : buffer_write buf offs [] = buf := by
  funext i
  simp [buffer_write]

theorem buffer_write_append (buf : Nat → Nat) (offs : Nat) (a b : List Nat) :
    buffer_write (buffer_write buf offs a) (offs + a.length) b = buffer_write buf offs (a ++ b) := by
  funext i
  simp only [buffer_write, List.length_append]
  by_cases h1 : offs + a.length ≤ i ∧ i < offs + a.length + b.length
  · have h2 : offs ≤ i ∧ i < offs + (a.length + b.length) := by omega
    rw [if_pos h1, if_pos h2, List.getD_append_right _ _ _ _ (by omega)]
    congr 1
    omega
  · rw [if_neg h1]
    by_cases h3 : offs ≤ i ∧ i < offs + a.length
    · have h2 : offs ≤ i ∧ i < offs + (a.length + b.length) := by omega
      rw [if_pos h3, if_pos h2, List.getD_append _ _ _ _ (by omega)]
    · have h2 : ¬ (offs ≤ i ∧ i < offs + (a.length + b.length)) := by omega
      rw [if_neg h3, if_neg h2]

theorem debug_remote_eta (d : debug_remote) :
    { d with m_socket := d.m_socket.after_read 0 0, buffer := d.buffer } = d := by
  cases d; simp [after_read_zero]

theorem read_zero_sched (s : emu_file) (n : Nat) (hn : n ≠ 0) (hi : s.inp ≠ [])
    (h : (s.read n).1.length = 0) : 1 ≤ s.rsched.length := by
  cases hr : s.rsched with
  | nil =>
    have := read_length_nil s n hr
    have : 0 < s.inp.length := List.length_pos.mpr hi
    omega
  | cons g gs => simp

theorem after_read_rsched_length (s : emu_file) (n k : Nat) :
    (s.after_read n k).rsched.length = s.rsched.length - k := by
  simp [emu_file.after_read]

theorem after_read_inp (s : emu_file) (n k : Nat) : (s.after_read n k).inp = s.inp.drop n := rfl

theorem get_byte_ok (fuel : Nat) (d : debug_remote) (b : Nat) (rest : List Nat)
    (hin : d.m_socket.inp = b :: rest) (h : d.m_socket.rsched.length < fuel) :
    ∃ k, get_byte fuel d = .ok (b % 256,
      { d with m_socket := d.m_socket.after_read 1 k, buffer := buffer_write d.buffer 0 [b] }) := by
  induction fuel generalizing d with
  | zero => omega
  | succ n ih =>
    rw [get_byte]
    have h1 := read_length_le d.m_socket 1
    have h2 := read_snd d.m_socket 1
    have h3 := read_fst d.m_socket 1
    have h4 := read_zero_sched d.m_socket 1 (by omega) (by simp [hin])
    rcases hr : d.m_socket.read 1 with ⟨bytes, s1⟩
    rw [hr] at h1 h2 h3 h4
    simp only at h1 h2 h3 h4 ⊢
    subst h2
    by_cases hl : bytes.length = 0
    · have hb : bytes = [] := List.length_eq_zero.mp hl
      subst hb
      have := h4 rfl
      simp only [buffer_store, BUFFER_SIZE, List.length_nil, buffer_write_nil]
      simp only [Nat.add_zero, Nat.zero_le, if_true]
      obtain ⟨k, hk⟩ := ih { d with m_socket := d.m_socket.after_read 0 1, buffer := d.buffer }
        (by simpa [after_read_inp] using hin) (by simp only [after_read_rsched_length]; omega)
      refine ⟨1 + k, ?_⟩
      rw [hk]
      simp only [after_read_after_read]
    · have hl1 : bytes.length = 1 := by omega
      rw [hl1, hin] at h3
      simp only [List.take_succ_cons, List.take_zero] at h3
      subst h3
      refine ⟨1, ?_⟩
      simp [buffer_store, BUFFER_SIZE, buffer_write]

theorem recv_loop_ok (fuel : Nat) (d : debug_remote) (offs : Nat) (payload rest : List Nat)
    (hin : d.m_socket.inp = payload ++ rest) (hb : offs + payload.length ≤ BUFFER_SIZE)
    (h : d.m_socket.rsched.length + 2 ≤ fuel) :
    ∃ k, recv_loop fuel d offs payload.length = .ok
      { d with m_socket := d.m_socket.after_read payload.length k,
               buffer := buffer_write d.buffer offs payload } := by
  induction fuel generalizing d offs payload with
  | zero => omega
  | succ n ih =>
    rw [recv_loop]
    by_cases hs : payload.length = 0
    · have hp : payload = [] := List.length_eq_zero.mp hs
      subst hp
      exact ⟨0, by simp [buffer_write_nil, debug_remote_eta]⟩
    · simp only [hs, if_false]
      have hne : d.m_socket.inp ≠ [] := by
        rw [hin]; intro hc
        have := congrArg List.length hc
        rw [List.length_append, List.length_nil] at this
        omega
      have h1 := read_length_le d.m_socket payload.length
      have h2 := read_snd d.m_socket payload.length
      have h3 := read_fst d.m_socket payload.length
      have h4 := read_zero_sched d.m_socket payload.length hs hne
      have h5 := read_length_nil d.m_socket payload.length
      rcases hr : d.m_socket.read payload.length with ⟨bytes, s1⟩
      rw [hr] at h1 h2 h3 h4 h5
      simp only at h1 h2 h3 h4 h5 ⊢
      subst h2
      have hbytes : bytes = payload.take bytes.length := by
        rw [h3, hin, List.take_append_of_le_length h1]
        simp [List.take_take]
      have hst : buffer_store d.buffer offs bytes = .ok (buffer_write d.buffer offs bytes) := by
        simp only [buffer_store]
        rw [if_pos (by omega)]
      rw [hst]
      simp only
      by_cases hl : bytes.length = 0
      · have hb0 : bytes = [] := List.length_eq_zero.mp hl
        subst hb0
        have := h4 rfl
        simp only [List.length_nil, if_true, buffer_write_nil]
        obtain ⟨k, hk⟩ := ih { d with m_socket := d.m_socket.after_read 0 1, buffer := d.buffer }
          offs payload (by simpa [after_read_inp] using hin) hb
          (by simp only [after_read_rsched_length]; omega)
        refine ⟨1 + k, ?_⟩
        rw [hk]
        simp only [after_read_after_read, Nat.zero_add]
      · simp only [hl, if_false]
        have hrest : (payload.drop bytes.length).length = payload.length - bytes.length := by
          simp
        have hin2 : (d.m_socket.after_read bytes.length 1).inp
            = payload.drop bytes.length ++ rest := by
          rw [after_read_inp, hin, List.drop_append_of_le_length h1]
        have hw : buffer_write (buffer_write d.buffer offs bytes) (offs + bytes.length)
            (payload.drop bytes.length) = buffer_write d.buffer offs payload := by
          have := buffer_write_append d.buffer offs (payload.take bytes.length)
            (payload.drop bytes.length)
          rw [List.take_append_drop, ← hbytes] at this
          exact this
        by_cases hrs : d.m_socket.rsched = []
        · have hlen := h5 hrs
          have hil : payload.length ≤ d.m_socket.inp.length := by simp [hin]
          have hfull : bytes.length = payload.length := by omega
          cases n with
          | zero => simp [hrs] at h
          | succ m =>
            refine ⟨1, ?_⟩
            rw [hfull, recv_loop]
            simp only [Nat.sub_self, if_true]
            rw [hfull, List.drop_length, buffer_write_nil] at hw
            rw [← hfull, hw]
        · have hpos : 1 ≤ d.m_socket.rsched.length := by
            cases hr2 : d.m_socket.rsched with
            | nil => exact absurd hr2 hrs
            | cons g gs => simp
          obtain ⟨k, hk⟩ := ih
            { d with m_socket := d.m_socket.after_read bytes.length 1,
                     buffer := buffer_write d.buffer offs bytes }
            (offs + bytes.length) (payload.drop bytes.length) hin2
            (by rw [hrest]; omega)
            (by simp only [after_read_rsched_length]; omega)
          refine ⟨1 + k, ?_⟩
          rw [hrest] at hk
          rw [hk]
          simp only [after_read_after_read, hw, hrest]
          have : bytes.length + (payload.length - bytes.length) = payload.length := by omega
          rw [this]

theorem length_bytes (hi lo : Nat) (hlo : lo < 256) :
    ((hi % 256) <<< 8) ||| (lo % 256) = hi % 256 * 256 + lo := by
  rw [Nat.mod_eq_of_lt hlo, Nat.shiftLeft_eq, Nat.mul_comm]
  exact (Nat.mul_add_lt_is_or (by simpa using hlo) _).symm

theorem recv_ok (fuel : Nat) (d : debug_remote) (hi lo : Nat) (payload rest : List Nat)
    (hin : d.m_socket.inp = lo :: (payload ++ rest)) (hlo : lo < 256)
    (hlen : payload.length = hi % 256 * 256 + lo)
    (h : d.m_socket.rsched.length + 2 ≤ fuel) :
    ∃ k, recv fuel d hi = .ok (payload.length,
      { d with m_socket := d.m_socket.after_read (1 + payload.length) k,
               buffer := recv_buffer d.buffer lo payload }) := by
  obtain ⟨k1, h1⟩ := get_byte_ok fuel d lo (payload ++ rest) hin (by omega)
  have hN : payload.length < BUFFER_SIZE := by
    have := Nat.mod_lt hi (show 256 > 0 by omega)
    simp only [BUFFER_SIZE]; omega
  obtain ⟨k2, h2⟩ := recv_loop_ok fuel
    { d with m_socket := d.m_socket.after_read 1 k1,
             buffer := buffer_write (buffer_write d.buffer 0 [lo]) payload.length [0] }
    0 payload rest (by simp [after_read_inp, hin]) (by omega)
    (by simp only [after_read_rsched_length]; omega)
  refine ⟨k1 + k2, ?_⟩
  unfold recv
  rw [h1]
  simp only
  rw [Nat.mod_eq_of_lt hlo] at *
  have hl : ((hi % 256) <<< 8) ||| lo = payload.length := by
    have := length_bytes hi lo hlo
    rw [Nat.mod_eq_of_lt hlo] at this
    rw [this, hlen]
  rw [hl]
  have hst : buffer_store (buffer_write d.buffer 0 [lo]) payload.length [0]
      = .ok (buffer_write (buffer_write d.buffer 0 [lo]) payload.length [0]) := by
    simp only [buffer_store, List.length_singleton]
    rw [if_pos (by omega)]
  rw [hst]
  simp only
  rw [h2]
  simp only [after_read_after_read, recv_buffer]

/-! ## The buffer after a frame was received -/

theorem recv_buffer_lt (buf : Nat → Nat) (lo : Nat) (payload : List Nat) (i : Nat)
    (h : i < payload.length) : recv_buffer buf lo payload i = payload.getD i 0 := by
  simp [recv_buffer, buffer_write, h]

theorem recv_buffer_length (buf : Nat → Nat) (lo : Nat) (payload : List Nat) :
    recv_buffer buf lo payload payload.length = 0 := by
  simp [recv_buffer, buffer_write]

theorem recv_buffer_zero (buf : Nat → Nat) (lo : Nat) (payload : List Nat) :
    recv_buffer buf lo payload 0 = payload.headD 0 := by
  cases payload with
  | nil => exact recv_buffer_length buf lo []
  | cons a as => rw [recv_buffer_lt _ _ _ _ (by simp)]; rfl

theorem recv_buffer_gt (buf : Nat → Nat) (lo : Nat) (payload : List Nat) (i : Nat)
    (h : payload.length < i) : recv_buffer buf lo payload i = buf i := by
  have h1 : ¬ i < payload.length := by omega
  have h2 : ¬ (payload.length ≤ i ∧ i < payload.length + 1) := by omega
  have h3 : ¬ i < 1 := by omega
  simp [recv_buffer, buffer_write, h1, h2, h3]

theorem c_str_aux_recv (buf : Nat → Nat) (lo : Nat) (payload : List Nat) (n i : Nat)
    (hi : i ≤ payload.length) (hn : payload.length < i + n) :
    c_str_aux (recv_buffer buf lo payload) n i = .ok (request_text payload i) := by
  induction n generalizing i with
  | zero => omega
  | succ m ih =>
    rw [c_str_aux, request_text]
    by_cases he : i = payload.length
    · subst he
      simp [recv_buffer_length]
    · have hlt : i < payload.length := by omega
      rw [recv_buffer_lt _ _ _ _ hlt, List.getD_eq_getElem _ _ hlt,
        List.drop_eq_getElem_cons hlt, List.takeWhile_cons]
      by_cases hz : payload[i] = 0
      · simp [hz]
      · have := ih (i + 1) (by omega) (by omega)
        rw [request_text] at this
        simp [hz, this]

theorem c_str_recv (buf : Nat → Nat) (lo : Nat) (payload : List Nat) (k : Nat)
    (hk : k ≤ payload.length) (hN : payload.length ≤ 65535) :
    c_str (recv_buffer buf lo payload) k = .ok (request_text payload k) :=
  c_str_aux_recv buf lo payload _ k hk (by simp only [BUFFER_SIZE]; omega)

theorem buffer_slice_recv (buf : Nat → Nat) (lo : Nat) (payload : List Nat) :
    buffer_slice (recv_buffer buf lo payload) 1 (payload.length - 1) = payload.drop 1 := by
  apply List.ext_getElem
  · simp [buffer_slice]
  · intro i h1 h2
    simp only [buffer_slice, List.length_map, List.length_range] at h1
    simp only [buffer_slice, List.getElem_map, List.getElem_range, List.getElem_drop]
    rw [recv_buffer_lt _ _ _ _ (by omega), List.getD_eq_getElem _ _ (by omega)]

theorem buffer_slice_recv_all (buf : Nat → Nat) (lo : Nat) (payload : List Nat) :
    buffer_slice (recv_buffer buf lo payload) 0 payload.length = payload := by
  apply List.ext_getElem
  · simp [buffer_slice]
  · intro i h1 h2
    simp only [buffer_slice, List.getElem_map, List.getElem_range, Nat.zero_add]
    rw [recv_buffer_lt _ _ _ _ h2, List.getD_eq_getElem _ _ h2]

/-! ## From the wire to the dispatch -/

theorem read_first (s : emu_file) (b : Nat) (rest : List Nat) (hin : s.inp = b :: rest)
    (hs : s.rsched.head? ≠ some 0) : s.read 1 = ([b], s.after_read 1 1) := by
  cases s with
  | mk op inp rs ws out tr lo p o c =>
    simp only at hin hs
    subst hin
    cases rs with
    | nil => simp [emu_file.read, emu_file.after_read]
    | cons g gs =>
      have hg : g ≠ 0 := by simpa using hs
      have : min g 1 = 1 := by omega
      simp [emu_file.read, emu_file.after_read, this]

theorem u16_length_bytes (n : Nat) (h : n ≤ 65535) :
    (n / 256 % 256) % 256 * 256 + n % 256 = n := by omega

theorem update_socket_frame (host : Host) (fuel : Nat) (running : Bool) (d : debug_remote)
    (payload rest : List Nat) (hr : receives d payload rest) (hne : payload ≠ [])
    (hf : d.m_socket.rsched.length + 2 ≤ fuel) :
    ∃ k, update_socket host fuel running d
      = update_socket_switch host fuel running (after_recv d payload k) payload.length := by
  obtain ⟨hopen, hsched, hlen, hin⟩ := hr
  have hin1 : d.m_socket.inp
      = (payload.length / 256 % 256) :: (payload.length % 256) :: (payload ++ rest) := by
    rw [hin]; simp [frame, u16]
  have h1 := read_first d.m_socket _ _ hin1 hsched
  obtain ⟨k, hk⟩ := recv_ok fuel { d with m_socket := d.m_socket.after_read 1 1 }
    (payload.length / 256 % 256) (payload.length % 256) payload rest
    (by simp [after_read_inp, hin1]) (Nat.mod_lt _ (by omega))
    (u16_length_bytes _ hlen).symm
    (by simp only [after_read_rsched_length]; omega)
  refine ⟨1 + k, ?_⟩
  have hpos : payload.length ≠ 0 := fun h => hne (List.length_eq_zero.mp h)
  unfold update_socket
  rw [h1]
  simp only [hopen, Bool.true_eq_false, if_false]
  rw [hk]
  simp only [hpos, if_false, after_read_after_read, after_recv]
  have h2 : 1 + (1 + payload.length) = 2 + payload.length := by omega
  rw [h2]

theorem after_recv_buffer_zero (d : debug_remote) (payload : List Nat) (k : Nat) (op : Nat)
    (h : payload.head? = some op) : (after_recv d payload k).buffer 0 = op := by
  cases payload with
  | nil => simp at h
  | cons a as =>
    simp only [List.head?_cons, Option.some.injEq] at h
    subst h
    simp only [after_recv]
    rw [recv_buffer_zero]
    rfl

theorem after_recv_wsched (d : debug_remote) (payload : List Nat) (k : Nat) :
    (after_recv d payload k).m_socket.wsched = d.m_socket.wsched := rfl

theorem drop_cons_cons (a b : Nat) (l rest : List Nat) (n : Nat) (h : n = l.length) :
    List.drop (2 + n) (a :: b :: (l ++ rest)) = rest := by
  subst h
  rw [Nat.add_comm]
  simp [List.drop_succ_cons]

theorem drop_cons (b : Nat) (l rest : List Nat) (n : Nat) (h : n = l.length) :
    List.drop (1 + n) (b :: (l ++ rest)) = rest := by
  subst h
  rw [Nat.add_comm]
  simp [List.drop_succ_cons]

theorem after_recv_inp (d : debug_remote) (payload rest : List Nat) (k : Nat)
    (hr : receives d payload rest) : (after_recv d payload k).m_socket.inp = rest := by
  obtain ⟨_, _, _, hin⟩ := hr
  simp only [after_recv, emu_file.after_read, hin, frame, u16, List.cons_append,
    List.nil_append]
  exact drop_cons_cons _ _ _ _ _ rfl

theorem after_recv_out (d : debug_remote) (payload : List Nat) (k : Nat) :
    (after_recv d payload k).m_socket.out = d.m_socket.out := rfl

theorem ne_nil_of_head (payload : List Nat) (op : Nat) (h : payload.head? = some op) :
    payload ≠ [] := by
  intro hc; subst hc; simp at h

theorem switch_status (host : Host) (fuel : Nat) (running : Bool) (d : debug_remote) (n : Nat)
    (h : d.buffer 0 = 63) : update_socket_switch host fuel running d n
      = case_status fuel running d := by
  simp [update_socket_switch, h]

theorem switch_x (host : Host) (fuel : Nat) (running : Bool) (d : debug_remote) (n : Nat)
    (h : d.buffer 0 = 120) : update_socket_switch host fuel running d n
      = case_x host fuel d n := by
  simp [update_socket_switch, h]

theorem switch_m (host : Host) (fuel : Nat) (running : Bool) (d : debug_remote) (n : Nat)
    (h : d.buffer 0 = 109) : update_socket_switch host fuel running d n
      = case_m host fuel d := by
  simp [update_socket_switch, h]

theorem switch_p (host : Host) (fuel : Nat) (running : Bool) (d : debug_remote) (n : Nat)
    (h : d.buffer 0 = 112) : update_socket_switch host fuel running d n
      = case_p host fuel d := by
  simp [update_socket_switch, h]

theorem switch_v (host : Host) (fuel : Nat) (running : Bool) (d : debug_remote) (n : Nat)
    (h : d.buffer 0 = 118) : update_socket_switch host fuel running d n
      = case_v host fuel d := by
  simp [update_socket_switch, h]

/-- C1 (frame round trip): for every byte sequence `D` of length `N ≤ 65535`
and every pattern of short and zero-byte writes, `send_data(D, N)` returns and
has put some bytes `wire` on the wire; when these bytes are the input of the
receive path (one read of the first byte, then `recv(first)`), then under every
pattern of short and zero-byte reads `recv` returns `N` and `buffer[0..N)`
equals `D`, and exactly the frame has been taken from the input. -/
theorem C1_frame_round_trip (D : List Nat) (s : emu_file) (fuel : Nat)
    (hN : D.length ≤ 65535) (hf : s.wsched.length + 2 ≤ fuel) :
    ∃ s1 wire, send_data fuel s D D.length = .ok s1 ∧ s1.out = s.out ++ wire ∧
      ∀ (d : debug_remote) (rest : List Nat) (fuel2 : Nat),
        d.m_socket.inp = wire ++ rest → d.m_socket.rsched.head? ≠ some 0 →
        d.m_socket.rsched.length + 2 ≤ fuel2 →
        ∃ first s2 d2, d.m_socket.read 1 = ([first], s2) ∧
          recv fuel2 { d with m_socket := s2 } first = .ok (D.length, d2) ∧
          buffer_slice d2.buffer 0 D.length = D ∧ d2.m_socket.inp = rest := by
  obtain ⟨k, hk⟩ := send_data_ok fuel s D D.length hf
  refine ⟨_, frame D, hk, ?_, ?_⟩
  · simp [emu_file.after_write, frame]
  · intro d rest fuel2 hin hs hf2
    have hin1 : d.m_socket.inp
        = (D.length / 256 % 256) :: (D.length % 256) :: (D ++ rest) := by
      rw [hin]; simp [frame, u16]
    obtain ⟨k2, hk2⟩ := recv_ok fuel2 { d with m_socket := d.m_socket.after_read 1 1 }
      (D.length / 256 % 256) (D.length % 256) D rest
      (by simp [after_read_inp, hin1]) (Nat.mod_lt _ (by omega))
      (u16_length_bytes _ hN).symm
      (by simp only [after_read_rsched_length]; omega)
    refine ⟨_, _, _, read_first d.m_socket _ _ hin1 hs, hk2, ?_, ?_⟩
    · exact buffer_slice_recv_all _ _ _
    · simp only [emu_file.after_read, hin1]
      exact drop_cons _ _ _ _ rfl

/-- C2 (status): when a frame whose first payload byte is '?' is received,
`update_socket(running)` returns after writing exactly the three bytes
00 01 'Y' (running) or 00 01 'N' (not running); it takes nothing but the frame
from the input and calls no collaborator. -/
theorem C2_status_reply (host : Host) (fuel : Nat) (running : Bool) (d : debug_remote)
    (payload rest : List Nat) (hr : receives d payload rest)
    (hop : payload.head? = some 63)
    (hf : d.m_socket.rsched.length + d.m_socket.wsched.length + 2 ≤ fuel) :
    ∃ d1, update_socket host fuel running d = .ok d1 ∧
      d1.m_socket.out = d.m_socket.out ++ [0, 1, if running then 89 else 78] ∧
      d1.m_socket.inp = rest ∧ d1.calls = d.calls ∧ d1.memory = d.memory := by
  obtain ⟨k, hk⟩ := update_socket_frame host fuel running d payload rest hr
    (ne_nil_of_head _ _ hop) (by omega)
  have hop0 := after_recv_buffer_zero d payload k 63 hop
  obtain ⟨k2, hk2⟩ := send_data_ok fuel (after_recv d payload k).m_socket
    (if running then [89, 0] else [78, 0]) 1 (by rw [after_recv_wsched]; omega)
  rw [hk, switch_status _ _ _ _ _ hop0, case_status, hk2]
  refine ⟨_, rfl, ?_, ?_, rfl, rfl⟩
  · cases running <;> simp [emu_file.after_write, after_recv, emu_file.after_read, u16]
  · exact after_recv_inp d payload rest k hr

/-! ## Execute -/

theorem strlen_eq_length (line : List Nat) (h : 0 ∉ line) : strlen line = line.length := by
  unfold strlen
  congr 1
  rw [List.takeWhile_eq_self_iff]
  intro x hx
  have : x ≠ 0 := fun hc => h (hc ▸ hx)
  simpa using this

theorem send_lines_ok (fuel n i : Nat) (d : debug_remote)
    (hi : i + n ≤ d.textbuf.length)
    (hline : ∀ line ∈ d.textbuf, line.length ≤ 65535 ∧ 0 ∉ line)
    (hf : d.m_socket.wsched.length + 2 ≤ fuel) :
    ∃ k, send_lines fuel n i d = .ok
      { d with m_socket := d.m_socket.after_write (((d.textbuf.drop i).take n).flatMap frame) k } := by
  induction n generalizing i d with
  | zero =>
    refine ⟨0, ?_⟩
    cases d
    simp [send_lines, after_write_zero]
  | succ m ih =>
    have hlt : i < d.textbuf.length := by omega
    have hmem : d.textbuf[i] ∈ d.textbuf := List.getElem_mem hlt
    obtain ⟨hlen, hz⟩ := hline _ hmem
    obtain ⟨k1, h1⟩ := send_data_ok fuel d.m_socket d.textbuf[i] (strlen d.textbuf[i] % 2 ^ 32) hf
    rw [strlen_eq_length _ hz, Nat.mod_eq_of_lt (by omega), List.take_length] at h1
    obtain ⟨k2, h2⟩ := ih (i + 1)
      { d with m_socket := d.m_socket.after_write (u16 d.textbuf[i].length ++ d.textbuf[i]) k1 }
      (by simp only; omega) hline (by simp only [after_write_wsched_length]; omega)
    refine ⟨k1 + k2, ?_⟩
    rw [send_lines]
    simp only [List.get?_eq_getElem?, List.getElem?_eq_getElem hlt]
    rw [strlen_eq_length _ hz, Nat.mod_eq_of_lt (by omega), h1]
    simp only
    rw [h2]
    simp only [after_write_after_write]
    rw [List.drop_eq_getElem_cons hlt]
    simp only [List.take_succ_cons, List.flatMap_cons, frame]

theorem reply_empty_ok (fuel : Nat) (d : debug_remote) (hf : d.m_socket.wsched.length < fuel) :
    ∃ k, reply_empty fuel d = .ok { d with m_socket := d.m_socket.after_write [0, 0] k } := by
  obtain ⟨k, hk⟩ := send_size_ok fuel d.m_socket 0 hf
  exact ⟨k, by simp only [reply_empty, hk]; rfl⟩

/-- C3 (execute reply): when an 'x' frame is received and the transcript
holds the lines `lines` after the command has run (at most 65535 lines, each a
C string of at most 65535 bytes), `update_socket` returns and the bytes written
are `u16(L)` followed by, for each line in transcript order, `u16(len(line))`
and the bytes of the line; for no line at all this is 00 00, and for the lines
"A", "BB", "CCC" it is 00 03, 00 01 'A', 00 02 'B' 'B', 00 03 'C' 'C' 'C'. -/
theorem C3_execute_reply (host : Host) (fuel : Nat) (running : Bool) (d : debug_remote)
    (payload rest : List Nat) (lines : List (List Nat)) (hr : receives d payload rest)
    (hop : payload.head? = some 120)
    (hrun : host.execute_command (payload.drop 1) = lines)
    (hL : lines.length ≤ 65535)
    (hline : ∀ line ∈ lines, line.length ≤ 65535 ∧ 0 ∉ line)
    (hf : d.m_socket.rsched.length + d.m_socket.wsched.length + 2 ≤ fuel) :
    ∃ d1, update_socket host fuel running d = .ok d1 ∧ d1.textbuf = lines ∧
      d1.m_socket.out = d.m_socket.out ++ (u16 lines.length ++ lines.flatMap frame) ∧
      (lines = [] → d1.m_socket.out = d.m_socket.out ++ [0, 0]) ∧
      (lines = [[65], [66, 66], [67, 67, 67]] → d1.m_socket.out
        = d.m_socket.out ++ [0, 3, 0, 1, 65, 0, 2, 66, 66, 0, 3, 67, 67, 67]) := by
  obtain ⟨k, hk⟩ := update_socket_frame host fuel running d payload rest hr
    (ne_nil_of_head _ _ hop) (by omega)
  have hop0 := after_recv_buffer_zero d payload k 120 hop
  have hcmd : buffer_slice (after_recv d payload k).buffer 1 (payload.length - 1)
      = payload.drop 1 := buffer_slice_recv _ _ _
  suffices hmain : ∃ d1, update_socket host fuel running d = .ok d1 ∧ d1.textbuf = lines ∧
      d1.m_socket.out = d.m_socket.out ++ (u16 lines.length ++ lines.flatMap frame) by
    obtain ⟨d1, h1, h2, h3⟩ := hmain
    refine ⟨d1, h1, h2, h3, ?_, ?_⟩
    · intro hnil; rw [h3, hnil]; rfl
    · intro hex; rw [h3, hex]; rfl
  rw [hk, switch_x _ _ _ _ _ hop0, case_x]
  simp only [hcmd, hrun, List.nil_append]
  rw [Nat.mod_eq_of_lt (by omega)]
  by_cases hz : lines.length = 0
  · have hnil : lines = [] := List.length_eq_zero.mp hz
    subst hnil
    obtain ⟨k2, hk2⟩ := reply_empty_ok fuel
      { after_recv d payload k with
        textbuf := [],
        calls := (after_recv d payload k).calls ++ [Call.text_buffer_clear]
          ++ [Call.execute_command (payload.drop 1)] }
      (by simp only [after_recv_wsched]; omega)
    simp only [List.length_nil, ne_eq, not_true_eq_false, if_false, List.append_assoc] at hk2 ⊢
    rw [hk2]
    exact ⟨_, rfl, rfl, by simp [emu_file.after_write, after_recv_out, u16]⟩
  · rw [if_pos hz]
    obtain ⟨k1, hk1⟩ := send_size_ok fuel (after_recv d payload k).m_socket lines.length
      (by simp only [after_recv_wsched]; omega)
    rw [hk1]
    simp only
    obtain ⟨k2, hk2⟩ := send_lines_ok fuel lines.length 0
      { after_recv d payload k with
        m_socket := (after_recv d payload k).m_socket.after_write (u16 lines.length) k1,
        textbuf := lines,
        calls := (after_recv d payload k).calls ++ [Call.text_buffer_clear]
          ++ [Call.execute_command (payload.drop 1)] }
      (by simp) hline (by simp only [after_write_wsched_length, after_recv_wsched]; omega)
    simp only [List.append_assoc] at hk2 ⊢
    rw [hk2]
    refine ⟨_, rfl, rfl, ?_⟩
    simp [emu_file.after_write, after_recv_out]

/-! ## Memory read and write -/

theorem range_succ_map {α : Type} (f : Nat → α) (n : Nat) :
    (List.range (n + 1)).map f = f 0 :: (List.range n).map (fun i => f (i + 1)) := by
  rw [List.range_succ_eq_map, List.map_cons, List.map_map]
  rfl

theorem space_bytes_succ (mem : Nat → Nat → Nat) (space offset n : Nat) :
    space_bytes mem space offset (n + 1)
      = mem space (offset % 2 ^ 32) :: space_bytes mem space (offset + 1) n := by
  simp only [space_bytes, range_succ_map, Nat.add_zero]
  congr 1
  apply List.map_congr_left
  intro i _
  rw [Nat.add_assoc, Nat.add_comm 1 i]

theorem read_calls_succ (space offset n : Nat) :
    read_calls space offset (n + 1)
      = Call.read_byte space (offset % 2 ^ 32) :: read_calls space (offset + 1) n := by
  simp only [read_calls, range_succ_map, Nat.add_zero]
  congr 1
  apply List.map_congr_left
  intro i _
  rw [Nat.add_assoc, Nat.add_comm 1 i]

theorem writes_transfer_after_write (s : emu_file) (bytes : List Nat) (k : Nat)
    (h : writes_transfer s) : writes_transfer (s.after_write bytes k) := by
  intro g hg
  exact h g (List.mem_of_mem_drop hg)

theorem send_space_loop_ok (fuel : Nat) (d : debug_remote) (space offset size : Nat)
    (hw : writes_transfer d.m_socket) (hf : size + 1 ≤ fuel) :
    ∃ k, send_space_loop fuel d space offset size = .ok
      { d with m_socket := d.m_socket.after_write (space_bytes d.memory space offset size) k,
               calls := d.calls ++ read_calls space offset size } := by
  induction fuel generalizing d offset size with
  | zero => omega
  | succ n ih =>
    rw [send_space_loop]
    cases size with
    | zero =>
      refine ⟨0, ?_⟩
      cases d
      simp [space_bytes, read_calls, after_write_zero]
    | succ m =>
      rw [if_neg (by omega)]
      simp only [read_byte]
      have h1 := write_fst_one d.m_socket [d.memory space (offset % 2 ^ 32)] hw
      have h2 := write_snd d.m_socket [d.memory space (offset % 2 ^ 32)] 1
      rcases hwr : d.m_socket.write [d.memory space (offset % 2 ^ 32)] 1 with ⟨len, s1⟩
      rw [hwr] at h1 h2
      simp only at h1 h2 ⊢
      subst h1 h2
      rw [if_neg (by omega)]
      obtain ⟨k, hk⟩ := ih
        { d with m_socket := d.m_socket.after_write [d.memory space (offset % 2 ^ 32)] 1,
                 calls := d.calls ++ [Call.read_byte space (offset % 2 ^ 32)] }
        (offset + 1) m (writes_transfer_after_write _ _ _ hw) (by omega)
      refine ⟨1 + k, ?_⟩
      simp only [Nat.add_sub_cancel, List.take_succ_cons, List.take_zero] at hk ⊢
      rw [hk]
      simp only [after_write_after_write, space_bytes_succ, read_calls_succ, List.append_assoc,
        List.singleton_append]

theorem send_space_ok (fuel : Nat) (d : debug_remote) (space offset size : Nat)
    (hw : writes_transfer d.m_socket) (hf : d.m_socket.wsched.length + size + 1 ≤ fuel) :
    ∃ k, send_space fuel d space offset size = .ok
      { d with m_socket := d.m_socket.after_write
                 (u16 size ++ space_bytes d.memory space offset size) k,
               calls := d.calls ++ read_calls space offset size } := by
  obtain ⟨k1, h1⟩ := send_size_ok fuel d.m_socket size (by omega)
  obtain ⟨k2, h2⟩ := send_space_loop_ok fuel
    { d with m_socket := d.m_socket.after_write (u16 size) k1 } space offset size
    (writes_transfer_after_write _ _ _ hw) (by omega)
  refine ⟨k1 + k2, ?_⟩
  rw [send_space, h1]
  simp only
  rw [h2]
  simp only [after_write_after_write]

theorem recv_space_ok (fuel : Nat) (d : debug_remote) (space offset : Nat) (B rest : List Nat)
    (hin : d.m_socket.inp = B ++ rest)
    (hf : d.m_socket.rsched.length + B.length + 1 ≤ fuel) :
    ∃ k, recv_space fuel d space offset B.length = .ok
      { d with m_socket := d.m_socket.after_read B.length k,
               memory := store_bytes d.memory space offset B,
               calls := d.calls ++ write_calls space offset B } := by
  induction fuel generalizing d offset B with
  | zero => omega
  | succ n ih =>
    rw [recv_space]
    cases B with
    | nil =>
      refine ⟨0, ?_⟩
      cases d
      simp [store_bytes, write_calls, after_read_zero]
    | cons b bs =>
      rw [if_neg (by simp)]
      have h1 := read_length_le d.m_socket 1
      have h2 := read_snd d.m_socket 1
      have h3 := read_fst d.m_socket 1
      have h4 := read_zero_sched d.m_socket 1 (by omega) (by simp [hin])
      rcases hr : d.m_socket.read 1 with ⟨bytes, s1⟩
      rw [hr] at h1 h2 h3 h4
      simp only at h1 h2 h3 h4 ⊢
      subst h2
      cases bytes with
      | nil =>
        have := h4 rfl
        simp only [List.length_nil]
        obtain ⟨k, hk⟩ := ih { d with m_socket := d.m_socket.after_read 0 1 } offset (b :: bs)
          (by simpa [after_read_inp] using hin)
          (by simp only [after_read_rsched_length]; omega)
        refine ⟨1 + k, ?_⟩
        rw [hk]
        simp only [after_read_after_read, Nat.zero_add]
      | cons c cs =>
        have hl1 : (c :: cs).length = 1 := by
          have : 1 ≤ (c :: cs).length := by simp
          omega
        rw [hl1, hin] at h3
        simp only [List.cons_append, List.take_succ_cons, List.take_zero, List.cons.injEq] at h3
        obtain ⟨hc, hcs⟩ := h3
        subst hc hcs
        simp only [List.length_singleton, List.length_cons, List.length_nil, Nat.zero_add,
          Nat.add_sub_cancel, write_byte]
        obtain ⟨k, hk⟩ := ih
          { d with m_socket := d.m_socket.after_read 1 1,
                   memory := fun sp o => if sp = space ∧ o = offset % 2 ^ 32 then c
                     else d.memory sp o,
                   calls := d.calls ++ [Call.write_byte space (offset % 2 ^ 32) c] }
          (offset + 1) bs (by simp [after_read_inp, hin])
          (by simp only [after_read_rsched_length, List.length_cons] at hf ⊢; omega)
        refine ⟨1 + k, ?_⟩
        rw [hk]
        simp only [after_read_after_read, store_bytes, write_calls, List.append_assoc,
          List.singleton_append, Nat.add_comm 1 bs.length]

theorem store_bytes_other (mem : Nat → Nat → Nat) (space offset : Nat) (B : List Nat)
    (sp o : Nat) (h : ¬ (sp = space ∧ ∃ i, i < B.length ∧ o = (offset + i) % 2 ^ 32)) :
    store_bytes mem space offset B sp o = mem sp o := by
  induction B generalizing mem offset with
  | nil => rfl
  | cons b bs ih =>
    rw [store_bytes, ih]
    · rw [if_neg]
      intro hc
      exact h ⟨hc.1, 0, by simp, by simpa using hc.2⟩
    · intro hc
      obtain ⟨hsp, i, hi, ho⟩ := hc
      exact h ⟨hsp, i + 1, by simpa using hi, by rw [ho]; congr 1; omega⟩

theorem store_bytes_get (mem : Nat → Nat → Nat) (space offset : Nat) (B : List Nat)
    (hB : B.length ≤ 2 ^ 32) (i : Nat) (hi : i < B.length) :
    store_bytes mem space offset B space ((offset + i) % 2 ^ 32) = B.getD i 0 := by
  induction B generalizing mem offset i with
  | nil => simp at hi
  | cons b bs ih =>
    rw [store_bytes]
    simp only [List.length_cons] at hB hi
    cases i with
    | zero =>
      rw [store_bytes_other]
      · simp
      · intro hc
        obtain ⟨_, j, hj, ho⟩ := hc
        omega
    | succ j =>
      have := ih (fun sp o => if sp = space ∧ o = offset % 2 ^ 32 then b else mem sp o)
        (offset + 1) (by omega) j (by omega)
      rw [show offset + (j + 1) = offset + 1 + j by omega, this]
      simp

theorem space_bytes_store_bytes (mem : Nat → Nat → Nat) (space offset : Nat) (B : List Nat)
    (hB : B.length ≤ 2 ^ 32) :
    space_bytes (store_bytes mem space offset B) space offset B.length = B := by
  apply List.ext_getElem
  · simp [space_bytes]
  · intro i h1 h2
    simp only [space_bytes, List.getElem_map, List.getElem_range]
    rw [store_bytes_get _ _ _ _ hB _ h2, List.getD_eq_getElem _ _ h2]

theorem after_recv_c_str (d : debug_remote) (payload : List Nat) (k j : Nat)
    (hj : j ≤ payload.length) (hN : payload.length ≤ 65535) :
    c_str (after_recv d payload k).buffer j = .ok (request_text payload j) :=
  c_str_recv _ _ _ _ hj hN

theorem length_pos_of_head (payload : List Nat) (op : Nat) (h : payload.head? = some op) :
    1 ≤ payload.length := by
  cases payload with
  | nil => simp at h
  | cons a as => simp

theorem after_recv_traffic (d : debug_remote) (payload rest : List Nat) (k : Nat)
    (hr : receives d payload rest) : (after_recv d payload k).m_socket.traffic
      = d.m_socket.traffic ++ (frame payload).map Transfer.rx := by
  obtain ⟨_, _, _, hin⟩ := hr
  simp only [after_recv, emu_file.after_read, hin]
  congr 2
  have h2 : (frame payload).length = 2 + payload.length := by
    simp [frame, u16]; omega
  rw [← h2, List.take_left]

theorem after_recv_rsched_length (d : debug_remote) (payload : List Nat) (k : Nat) :
    (after_recv d payload k).m_socket.rsched.length ≤ d.m_socket.rsched.length := by
  simp [after_recv, emu_file.after_read]

/-- The whole effect of an 'm' request that parses and translates. -/
theorem update_socket_m_ok (host : Host) (fuel : Nat) (running : Bool) (d : debug_remote)
    (payload rest : List Nat) (address length space offset : Nat)
    (hr : receives d payload rest) (hop : payload.head? = some 109)
    (hparse : sscanf_x_x (request_text payload 1) = some (address, length))
    (hlen : length ≤ 65535)
    (htr : host.translate AS_PROGRAM Intent.TR_READ (address % 2 ^ 32) = some (space, offset))
    (hw : writes_transfer d.m_socket)
    (hf : d.m_socket.rsched.length + d.m_socket.wsched.length + length + 2 ≤ fuel) :
    ∃ k k1, update_socket host fuel running d = .ok
      { after_recv d payload k with
        m_socket := (after_recv d payload k).m_socket.after_write
          (u16 length ++ space_bytes d.memory space offset length) k1,
        calls := d.calls ++ [Call.translate AS_PROGRAM Intent.TR_READ (address % 2 ^ 32)]
          ++ read_calls space offset length } := by
  obtain ⟨k, hk⟩ := update_socket_frame host fuel running d payload rest hr
    (ne_nil_of_head _ _ hop) (by omega)
  have hop0 := after_recv_buffer_zero d payload k 109 hop
  have hcs := after_recv_c_str d payload k 1 (length_pos_of_head _ _ hop) hr.2.2.1
  obtain ⟨k1, hk1⟩ := send_space_ok fuel
    { after_recv d payload k with
      calls := (after_recv d payload k).calls
        ++ [Call.translate AS_PROGRAM Intent.TR_READ (address % 2 ^ 32)] }
    space offset length hw (by simp only [after_recv_wsched]; omega)
  refine ⟨k, k1, ?_⟩
  rw [hk, switch_m _ _ _ _ _ hop0, case_m, hcs]
  simp only
  rw [hparse]
  simp only
  rw [htr]
  simp only
  rw [Nat.mod_eq_of_lt (show length < 2 ^ 32 by omega)]
  exact hk1

/-- The whole effect of a 'p' request that parses and translates. -/
theorem update_socket_p_ok (host : Host) (fuel : Nat) (running : Bool) (d : debug_remote)
    (payload B rest : List Nat) (address space offset : Nat)
    (hr : receives d payload (B ++ rest)) (hop : payload.head? = some 112)
    (hparse : sscanf_x_x (request_text payload 1) = some (address, B.length))
    (hlen : B.length ≤ 65535)
    (htr : host.translate AS_PROGRAM Intent.TR_READ (address % 2 ^ 32) = some (space, offset))
    (hf : d.m_socket.rsched.length + d.m_socket.wsched.length + B.length + 2 ≤ fuel) :
    ∃ k k1 k2 k3, update_socket host fuel running d = .ok
      { after_recv d payload k with
        m_socket := ((((after_recv d payload k).m_socket.after_write (u16 B.length) k1).after_read
          B.length k2).after_write [0, 0] k3),
        memory := store_bytes d.memory space offset B,
        calls := d.calls ++ [Call.translate AS_PROGRAM Intent.TR_READ (address % 2 ^ 32)]
          ++ write_calls space offset B } := by
  obtain ⟨k, hk⟩ := update_socket_frame host fuel running d payload (B ++ rest) hr
    (ne_nil_of_head _ _ hop) (by omega)
  have hop0 := after_recv_buffer_zero d payload k 112 hop
  have hcs := after_recv_c_str d payload k 1 (length_pos_of_head _ _ hop) hr.2.2.1
  have hrl := after_recv_rsched_length d payload k
  obtain ⟨k1, hk1⟩ := send_size_ok fuel (after_recv d payload k).m_socket B.length
    (by simp only [after_recv_wsched]; omega)
  obtain ⟨k2, hk2⟩ := recv_space_ok fuel
    { after_recv d payload k with
      m_socket := (after_recv d payload k).m_socket.after_write (u16 B.length) k1,
      calls := (after_recv d payload k).calls
        ++ [Call.translate AS_PROGRAM Intent.TR_READ (address % 2 ^ 32)] }
    space offset B rest (after_recv_inp d payload (B ++ rest) k hr)
    (by
      show (after_recv d payload k).m_socket.rsched.length + B.length + 1 ≤ fuel
      omega)
  obtain ⟨k3, hk3⟩ := reply_empty_ok fuel
    { after_recv d payload k with
      m_socket := ((after_recv d payload k).m_socket.after_write (u16 B.length) k1).after_read
        B.length k2,
      memory := store_bytes d.memory space offset B,
      calls := d.calls ++ [Call.translate AS_PROGRAM Intent.TR_READ (address % 2 ^ 32)]
        ++ write_calls space offset B }
    (by
      show ((after_recv d payload k).m_socket.wsched.drop k1).length < fuel
      rw [List.length_drop, after_recv_wsched]
      omega)
  refine ⟨k, k1, k2, k3, ?_⟩
  rw [hk, switch_p _ _ _ _ _ hop0, case_p, hcs]
  simp only
  rw [hparse]
  simp only
  rw [htr]
  simp only
  rw [Nat.mod_eq_of_lt (show B.length < 2 ^ 32 by omega), hk1]
  simp only
  simp only at hk2
  rw [hk2]
  exact hk3

theorem space_bytes_length (mem : Nat → Nat → Nat) (space offset n : Nat) :
    (space_bytes mem space offset n).length = n := by
  simp [space_bytes]

theorem space_bytes_getD (mem : Nat → Nat → Nat) (space offset n i : Nat) (h : i < n) :
    (space_bytes mem space offset n).getD i 0 = mem space ((offset + i) % 2 ^ 32) := by
  rw [List.getD_eq_getElem _ _ (by simpa [space_bytes] using h)]
  simp [space_bytes]

/-- C4 (memory read, success): when an 'm' frame is received whose text
parses to an address and a length of at most 65535, the address translates to
`(space, offset)` and every write transfers its byte, `update_socket` returns
and the bytes written are `u16(length)` followed by exactly `length` bytes, the
i-th of which is the byte of the space at `offset + i`; the bytes are fetched
with `read_byte` in this order and no byte of memory is modified. -/
theorem C4_memory_read_reply (host : Host) (fuel : Nat) (running : Bool) (d : debug_remote)
    (payload rest : List Nat) (address length space offset : Nat)
    (hr : receives d payload rest) (hop : payload.head? = some 109)
    (hparse : sscanf_x_x (request_text payload 1) = some (address, length))
    (hlen : length ≤ 65535)
    (htr : host.translate AS_PROGRAM Intent.TR_READ (address % 2 ^ 32) = some (space, offset))
    (hw : writes_transfer d.m_socket)
    (hf : d.m_socket.rsched.length + d.m_socket.wsched.length + length + 2 ≤ fuel) :
    ∃ d1 data, update_socket host fuel running d = .ok d1 ∧
      d1.m_socket.out = d.m_socket.out ++ (u16 length ++ data) ∧
      data.length = length ∧
      (∀ i, i < length → data.getD i 0 = d.memory space ((offset + i) % 2 ^ 32)) ∧
      d1.calls = d.calls ++ [Call.translate AS_PROGRAM Intent.TR_READ (address % 2 ^ 32)]
        ++ read_calls space offset length ∧
      d1.memory = d.memory := by
  obtain ⟨k, k1, h1⟩ := update_socket_m_ok host fuel running d payload rest address length
    space offset hr hop hparse hlen htr hw hf
  exact ⟨_, space_bytes d.memory space offset length, h1, rfl, space_bytes_length _ _ _ _,
    fun i hi => space_bytes_getD _ _ _ _ i hi, rfl, rfl⟩

/-- A memory write that the handler accepts: when a 'p' frame is received
whose text parses to an address and a length of at most 65535, the translation
the handler asks for (with intention TR_READ) gives `(space, offset)` and the
peer then sends the bytes `B` (`length` of them), then under every pattern of
zero-byte reads `update_socket` returns; after the request frame the socket
carried `u16(length)` out, then the bytes of `B` in, then 00 00 out; the bytes
of `B` were stored with `write_byte` at `offset`, `offset + 1`, ... in arrival
order; no other location of any space changed and no input after `B` was
taken. -/
theorem memory_write_transfer (host : Host) (fuel : Nat) (running : Bool) (d : debug_remote)
    (payload B rest : List Nat) (address space offset : Nat)
    (hr : receives d payload (B ++ rest)) (hop : payload.head? = some 112)
    (hparse : sscanf_x_x (request_text payload 1) = some (address, B.length))
    (hlen : B.length ≤ 65535)
    (htr : host.translate AS_PROGRAM Intent.TR_READ (address % 2 ^ 32) = some (space, offset))
    (hf : d.m_socket.rsched.length + d.m_socket.wsched.length + B.length + 2 ≤ fuel) :
    ∃ d1, update_socket host fuel running d = .ok d1 ∧
      d1.m_socket.traffic = d.m_socket.traffic ++ (frame payload).map Transfer.rx
        ++ (u16 B.length).map Transfer.tx ++ B.map Transfer.rx ++ [Transfer.tx 0, Transfer.tx 0] ∧
      d1.m_socket.out = d.m_socket.out ++ (u16 B.length ++ [0, 0]) ∧
      d1.m_socket.inp = rest ∧
      d1.calls = d.calls ++ [Call.translate AS_PROGRAM Intent.TR_READ (address % 2 ^ 32)]
        ++ write_calls space offset B ∧
      (∀ i, i < B.length → d1.memory space ((offset + i) % 2 ^ 32) = B.getD i 0) ∧
      (∀ sp o, ¬ (sp = space ∧ ∃ i, i < B.length ∧ o = (offset + i) % 2 ^ 32) →
        d1.memory sp o = d.memory sp o) := by
  obtain ⟨k, k1, k2, k3, h1⟩ := update_socket_p_ok host fuel running d payload B rest address
    space offset hr hop hparse hlen htr hf
  have hinp := after_recv_inp d payload (B ++ rest) k hr
  have htraffic := after_recv_traffic d payload (B ++ rest) k hr
  refine ⟨_, h1, ?_, ?_, ?_, rfl, ?_, ?_⟩
  · simp only [emu_file.after_write, emu_file.after_read, htraffic, hinp, List.take_left]
    simp
  · simp [emu_file.after_write, emu_file.after_read, after_recv_out]
  · simp [emu_file.after_write, emu_file.after_read, hinp]
  · intro i hi
    exact store_bytes_get _ _ _ _ (by omega) i hi
  · intro sp o hno
    exact store_bytes_other _ _ _ _ _ _ hno

/-- C6 (write then read): on a space that stores what is written, when a 'p'
request for `(address, K)` with data `B` (`K` bytes, `K ≤ 65535`) is followed
by an 'm' request for the same `(address, K)`, the address translates, every
write transfers its byte and the call after the 'p' request finds the first
byte of the 'm' frame, then both calls of `update_socket` return and the reply
of the second is `u16(K)` followed by exactly `B`. -/
theorem C6_write_read_round_trip (host : Host) (fuel : Nat) (r1 r2 : Bool) (d : debug_remote)
    (p_payload m_payload B rest : List Nat) (address space offset : Nat)
    (hr : receives d p_payload (B ++ (frame m_payload ++ rest)))
    (hop_p : p_payload.head? = some 112)
    (hparse_p : sscanf_x_x (request_text p_payload 1) = some (address, B.length))
    (hop_m : m_payload.head? = some 109) (hm : m_payload.length ≤ 65535)
    (hparse_m : sscanf_x_x (request_text m_payload 1) = some (address, B.length))
    (hlen : B.length ≤ 65535)
    (htr : host.translate AS_PROGRAM Intent.TR_READ (address % 2 ^ 32) = some (space, offset))
    (hw : writes_transfer d.m_socket)
    (hnext : ∀ d1, update_socket host fuel r1 d = .ok d1 → d1.m_socket.rsched.head? ≠ some 0)
    (hf : d.m_socket.rsched.length + d.m_socket.wsched.length + B.length + 2 ≤ fuel) :
    ∃ d1 d2, update_socket host fuel r1 d = .ok d1 ∧ update_socket host fuel r2 d1 = .ok d2 ∧
      d1.m_socket.out = d.m_socket.out ++ (u16 B.length ++ [0, 0]) ∧
      d2.m_socket.out = d1.m_socket.out ++ (u16 B.length ++ B) := by
  obtain ⟨k, k1, k2, k3, h1⟩ := update_socket_p_ok host fuel r1 d p_payload B
    (frame m_payload ++ rest) address space offset hr hop_p hparse_p hlen htr hf
  have hhead := hnext _ h1
  have hinp := after_recv_inp d p_payload (B ++ (frame m_payload ++ rest)) k hr
  generalize hd1 : ({ after_recv d p_payload k with
        m_socket := ((((after_recv d p_payload k).m_socket.after_write (u16 B.length) k1).after_read
          B.length k2).after_write [0, 0] k3),
        memory := store_bytes d.memory space offset B,
        calls := d.calls ++ [Call.translate AS_PROGRAM Intent.TR_READ (address % 2 ^ 32)]
          ++ write_calls space offset B } : debug_remote) = d1 at h1 hhead
  have hmem : d1.memory = store_bytes d.memory space offset B := by rw [← hd1]
  have hsock : d1.m_socket = ((((after_recv d p_payload k).m_socket.after_write
      (u16 B.length) k1).after_read B.length k2).after_write [0, 0] k3) := by rw [← hd1]
  have hr1 : receives d1 m_payload rest := by
    refine ⟨?_, hhead, hm, ?_⟩
    · rw [hsock]
      exact hr.1
    · rw [hsock]
      simp [emu_file.after_write, emu_file.after_read, hinp]
  have hw1 : writes_transfer d1.m_socket := by
    rw [hsock]
    intro g hg
    simp only [emu_file.after_write, emu_file.after_read, after_recv, List.drop_drop] at hg
    exact hw g (List.mem_of_mem_drop hg)
  have hf1 : d1.m_socket.rsched.length + d1.m_socket.wsched.length + B.length + 2 ≤ fuel := by
    have h3 : d1.m_socket.rsched.length ≤ d.m_socket.rsched.length := by
      rw [hsock]
      simp [emu_file.after_write, emu_file.after_read, after_recv]
    have h4 : d1.m_socket.wsched.length ≤ d.m_socket.wsched.length := by
      rw [hsock]
      simp [emu_file.after_write, emu_file.after_read, after_recv]
    omega
  obtain ⟨j, j1, h2⟩ := update_socket_m_ok host fuel r2 d1 m_payload rest address B.length
    space offset hr1 hop_m hparse_m hlen htr hw1 hf1
  refine ⟨d1, _, h1, h2, ?_, ?_⟩
  · rw [hsock]
    simp [emu_file.after_write, emu_file.after_read, after_recv_out]
  · rw [hmem, space_bytes_store_bytes _ _ _ _ (by omega)]
    simp [emu_file.after_write, after_recv_out]

/-- C8 (memory read, failure): when an 'm' frame is received whose text does
not parse, or parses to an address whose translation fails (whatever the
length), `update_socket` returns, the bytes written are exactly 00 00, and
among the collaborator calls made there is no `read_byte` (nor `write_byte`);
memory is unchanged. -/
theorem C8_memory_read_failure (host : Host) (fuel : Nat) (running : Bool) (d : debug_remote)
    (payload rest : List Nat)
    (hr : receives d payload rest) (hop : payload.head? = some 109)
    (hfail : sscanf_x_x (request_text payload 1) = none ∨
      ∃ address length, sscanf_x_x (request_text payload 1) = some (address, length) ∧
        host.translate AS_PROGRAM Intent.TR_READ (address % 2 ^ 32) = none)
    (hf : d.m_socket.rsched.length + d.m_socket.wsched.length + 2 ≤ fuel) :
    ∃ d1 cs, update_socket host fuel running d = .ok d1 ∧
      d1.m_socket.out = d.m_socket.out ++ [0, 0] ∧
      d1.calls = d.calls ++ cs ∧
      (∀ sp o, Call.read_byte sp o ∉ cs) ∧ (∀ sp o b, Call.write_byte sp o b ∉ cs) ∧
      d1.memory = d.memory := by
  obtain ⟨k, hk⟩ := update_socket_frame host fuel running d payload rest hr
    (ne_nil_of_head _ _ hop) (by omega)
  have hop0 := after_recv_buffer_zero d payload k 109 hop
  have hcs := after_recv_c_str d payload k 1 (length_pos_of_head _ _ hop) hr.2.2.1
  rw [hk, switch_m _ _ _ _ _ hop0, case_m, hcs]
  simp only
  rcases hfail with hnone | ⟨address, length, hsome, htr⟩
  · obtain ⟨k1, hk1⟩ := reply_empty_ok fuel (after_recv d payload k)
      (by simp only [after_recv_wsched]; omega)
    rw [hnone]
    simp only
    rw [hk1]
    refine ⟨_, [], rfl, ?_, ?_, ?_, ?_, rfl⟩
    · simp [emu_file.after_write, after_recv_out]
    · simp [after_recv]
    · simp
    · simp
  · obtain ⟨k1, hk1⟩ := reply_empty_ok fuel
      { after_recv d payload k with
        calls := (after_recv d payload k).calls
          ++ [Call.translate AS_PROGRAM Intent.TR_READ (address % 2 ^ 32)] }
      (by simp only [after_recv_wsched]; omega)
    rw [hsome]
    simp only
    rw [htr]
    simp only at hk1 ⊢
    rw [hk1]
    refine ⟨_, [Call.translate AS_PROGRAM Intent.TR_READ (address % 2 ^ 32)], rfl, ?_, ?_, ?_,
      ?_, rfl⟩
    · simp [emu_file.after_write, after_recv_out]
    · simp [after_recv]
    · simp
    · simp

/-- A memory write that the handler refuses: when a 'p' frame is received
whose text does not parse, or parses to an address for which the translation
the handler asks for (with intention TR_READ) fails, `update_socket` returns,
the bytes written are exactly 00 00, no input after the frame is taken, and no
`write_byte` call is made: memory is unchanged. -/
theorem memory_write_refused (host : Host) (fuel : Nat) (running : Bool) (d : debug_remote)
    (payload rest : List Nat)
    (hr : receives d payload rest) (hop : payload.head? = some 112)
    (hfail : sscanf_x_x (request_text payload 1) = none ∨
      ∃ address length, sscanf_x_x (request_text payload 1) = some (address, length) ∧
        host.translate AS_PROGRAM Intent.TR_READ (address % 2 ^ 32) = none)
    (hf : d.m_socket.rsched.length + d.m_socket.wsched.length + 2 ≤ fuel) :
    ∃ d1 cs, update_socket host fuel running d = .ok d1 ∧
      d1.m_socket.out = d.m_socket.out ++ [0, 0] ∧
      d1.m_socket.inp = rest ∧
      d1.m_socket.traffic = d.m_socket.traffic ++ (frame payload).map Transfer.rx
        ++ [Transfer.tx 0, Transfer.tx 0] ∧
      d1.calls = d.calls ++ cs ∧ (∀ sp o b, Call.write_byte sp o b ∉ cs) ∧
      d1.memory = d.memory := by
  obtain ⟨k, hk⟩ := update_socket_frame host fuel running d payload rest hr
    (ne_nil_of_head _ _ hop) (by omega)
  have hop0 := after_recv_buffer_zero d payload k 112 hop
  have hcs := after_recv_c_str d payload k 1 (length_pos_of_head _ _ hop) hr.2.2.1
  have hinp := after_recv_inp d payload rest k hr
  have htraffic := after_recv_traffic d payload rest k hr
  rw [hk, switch_p _ _ _ _ _ hop0, case_p, hcs]
  simp only
  rcases hfail with hnone | ⟨address, length, hsome, htr⟩
  · obtain ⟨k1, hk1⟩ := reply_empty_ok fuel (after_recv d payload k)
      (by simp only [after_recv_wsched]; omega)
    rw [hnone]
    simp only
    rw [hk1]
    refine ⟨_, [], rfl, ?_, ?_, ?_, ?_, ?_, rfl⟩
    · simp [emu_file.after_write, after_recv_out]
    · simp [emu_file.after_write, hinp]
    · simp [emu_file.after_write, htraffic]
    · simp [after_recv]
    · simp
  · obtain ⟨k1, hk1⟩ := reply_empty_ok fuel
      { after_recv d payload k with
        calls := (after_recv d payload k).calls
          ++ [Call.translate AS_PROGRAM Intent.TR_READ (address % 2 ^ 32)] }
      (by simp only [after_recv_wsched]; omega)
    rw [hsome]
    simp only
    rw [htr]
    simp only at hk1 ⊢
    rw [hk1]
    refine ⟨_, [Call.translate AS_PROGRAM Intent.TR_READ (address % 2 ^ 32)], rfl, ?_, ?_, ?_,
      ?_, ?_, rfl⟩
    · simp [emu_file.after_write, after_recv_out]
    · simp [emu_file.after_write, hinp]
    · simp [emu_file.after_write, htraffic]
    · simp [after_recv]
    · simp

/-! ## View snapshot -/

theorem wrap32_small (v : Int) (h0 : 0 ≤ v) (h1 : v < 2 ^ 31) : wrap32 v = v := by
  unfold wrap32
  omega

theorem cell_bytes_cons (c : debug_view_char) (cs : List debug_view_char) :
    cell_bytes (c :: cs) = c.attrib :: c.byte :: cell_bytes cs := by
  simp [cell_bytes]

theorem send_view_loop_ok (n : Nat) (s : emu_file) (cells : List debug_view_char)
    (hw : writes_transfer s) (hn : n ≤ cells.length) :
    ∃ k, send_view_loop n s cells = .ok (s.after_write (cell_bytes (cells.take n)) k) := by
  induction n generalizing s cells with
  | zero => exact ⟨0, by simp [send_view_loop, cell_bytes, after_write_zero]⟩
  | succ m ih =>
    cases cells with
    | nil => simp at hn
    | cons c cs =>
      rw [send_view_loop]
      have h1 := write_fst_one s [c.attrib] hw
      have h2 := write_snd s [c.attrib] 1
      rcases hwr : s.write [c.attrib] 1 with ⟨len, s1⟩
      rw [hwr] at h1 h2
      simp only at h1 h2 ⊢
      subst h1 h2
      have hw1 := writes_transfer_after_write s ([c.attrib].take 1) 1 hw
      have h3 := write_fst_one (s.after_write ([c.attrib].take 1) 1) [c.byte] hw1
      have h4 := write_snd (s.after_write ([c.attrib].take 1) 1) [c.byte] 1
      rcases hwr2 : (s.after_write ([c.attrib].take 1) 1).write [c.byte] 1 with ⟨len2, s2⟩
      rw [hwr2] at h3 h4
      simp only at h3 h4 ⊢
      subst h3 h4
      obtain ⟨k, hk⟩ := ih (((s.after_write ([c.attrib].take 1) 1)).after_write ([c.byte].take 1) 1)
        cs (writes_transfer_after_write _ _ _ hw1) (by simpa using hn)
      refine ⟨1 + 1 + k, ?_⟩
      rw [hk]
      simp [after_write_after_write, cell_bytes_cons]

theorem set_view_m_socket (d : debug_remote) (k : ViewKind) (v : debug_view) :
    (d.set_view k v).m_socket = d.m_socket := by
  cases k <;> rfl

theorem view_set_view (d : debug_remote) (k : ViewKind) (v : debug_view) :
    (d.set_view k v).view k = v := by
  cases k <;> rfl

theorem send_view_ok (host : Host) (fuel : Nat) (d : debug_remote) (k : ViewKind)
    (x y w h : Int) (hw0 : 0 ≤ w) (hh0 : 0 ≤ h) (hsz : 2 * w * h ≤ 65535)
    (hwt : writes_transfer d.m_socket)
    (hn : (w * h).toNat ≤ (host.viewdata k
      { d.view k with visible_size := (w, h), visible_position := (x, y) }).length)
    (hf : d.m_socket.wsched.length < fuel) :
    ∃ j, send_view host fuel d k x y w h = .ok
      { d.set_view k { d.view k with visible_size := (w, h), visible_position := (x, y) } with
        calls := d.calls ++ [Call.set_visible_size k w h, Call.set_visible_position k x y,
          Call.viewdata k],
        m_socket := d.m_socket.after_write (u16 (2 * w * h).toNat ++ cell_bytes
          ((host.viewdata k { d.view k with visible_size := (w, h), visible_position := (x, y) }).take
            (w * h).toNat)) j } := by
  have hp0 : 0 ≤ w * h := Int.mul_nonneg hw0 hh0
  have hp : 2 * w * h = 2 * (w * h) := by ring
  have e1 : wrap32 (w * h) = w * h := wrap32_small _ hp0 (by omega)
  have e2 : wrap32 (w * h * 2) = w * h * 2 := wrap32_small _ (by omega) (by omega)
  have e3 : (w * h * 2 % 2 ^ 32).toNat = (2 * w * h).toNat := by
    rw [hp]
    congr 1
    omega
  obtain ⟨j1, h1⟩ := send_size_ok fuel d.m_socket (2 * w * h).toNat hf
  obtain ⟨j2, h2⟩ := send_view_loop_ok (w * h).toNat
    (d.m_socket.after_write (u16 (2 * w * h).toNat) j1)
    (host.viewdata k { d.view k with visible_size := (w, h), visible_position := (x, y) })
    (writes_transfer_after_write _ _ _ hwt) hn
  refine ⟨j1 + j2, ?_⟩
  unfold send_view
  simp only [e1, e2, e3, set_view_m_socket, h1, h2, after_write_after_write]

theorem after_recv_buffer_one (d : debug_remote) (op kind : Nat) (text : List Nat) (k : Nat) :
    (after_recv d (op :: kind :: text) k).buffer 1 = kind := by
  simp only [after_recv]
  rw [recv_buffer_lt _ _ _ _ (by simp)]
  rfl

/-- C10 (view snapshot): when a 'v' frame with kind 'd' (disassembly view) or
's' (state view) is received whose rectangle text parses to `x,y,w,h` with
`w ≥ 0`, `h ≥ 0` and `2*w*h ≤ 65535`, every write transfers its byte and the
view renders at least `w*h` cells, then `update_socket` returns, the selected
view has visible size `(w, h)` and visible position `(x, y)` (and, for 'd',
the expression "curpc", set before the size), and the bytes written are `u16(2*w*h)` followed by,
for the first `w*h` rendered cells in order, the attribute byte and then the
character byte; for the rectangle 0,0,2,1 over the cells (1,'A'), (2,'B')
these are 00 04 01 41 02 42. -/
theorem C10_view_snapshot (host : Host) (fuel : Nat) (running : Bool) (d : debug_remote)
    (kind : Nat) (text rest : List Nat) (vk : ViewKind) (x y w h : Int)
    (cells : List debug_view_char)
    (hr : receives d (118 :: kind :: text) rest)
    (hkind : (kind = 100 ∧ vk = ViewKind.DVT_DISASSEMBLY) ∨ (kind = 115 ∧ vk = ViewKind.DVT_STATE))
    (hparse : sscanf_d_d_d_d (request_text (118 :: kind :: text) 2) = some (x, y, w, h))
    (hw0 : 0 ≤ w) (hh0 : 0 ≤ h) (hsz : 2 * w * h ≤ 65535)
    (hwt : writes_transfer d.m_socket)
    (hcells : host.viewdata vk
      { expression := if kind = 100 then "curpc" else (d.view vk).expression,
        visible_size := (w, h), visible_position := (x, y) } = cells)
    (hn : (w * h).toNat ≤ cells.length)
    (hf : d.m_socket.rsched.length + d.m_socket.wsched.length + 2 ≤ fuel) :
    ∃ d1, update_socket host fuel running d = .ok d1 ∧
      d1.view vk = { expression := if kind = 100 then "curpc" else (d.view vk).expression,
                     visible_size := (w, h), visible_position := (x, y) } ∧
      d1.calls = d.calls
        ++ (if kind = 100 then [Call.set_expression ViewKind.DVT_DISASSEMBLY "curpc"] else [])
        ++ [Call.set_visible_size vk w h, Call.set_visible_position vk x y, Call.viewdata vk] ∧
      d1.m_socket.out = d.m_socket.out
        ++ (u16 (2 * w * h).toNat ++ cell_bytes (cells.take (w * h).toNat)) ∧
      ((x, y, w, h) = (0, 0, 2, 1) → cells = [⟨65, 1⟩, ⟨66, 2⟩] →
        d1.m_socket.out = d.m_socket.out ++ [0, 4, 1, 65, 2, 66]) := by
  suffices hmain : ∃ d1, update_socket host fuel running d = .ok d1 ∧
      d1.view vk = { expression := if kind = 100 then "curpc" else (d.view vk).expression,
                     visible_size := (w, h), visible_position := (x, y) } ∧
      d1.calls = d.calls
        ++ (if kind = 100 then [Call.set_expression ViewKind.DVT_DISASSEMBLY "curpc"] else [])
        ++ [Call.set_visible_size vk w h, Call.set_visible_position vk x y, Call.viewdata vk] ∧
      d1.m_socket.out = d.m_socket.out
        ++ (u16 (2 * w * h).toNat ++ cell_bytes (cells.take (w * h).toNat)) by
    obtain ⟨d1, h1, h2, hc, h3⟩ := hmain
    refine ⟨d1, h1, h2, hc, h3, ?_⟩
    intro hrect hc
    simp only [Prod.mk.injEq] at hrect
    obtain ⟨_, _, hw2, hh1⟩ := hrect
    rw [h3, hc, hw2, hh1]
    rfl
  obtain ⟨k, hk⟩ := update_socket_frame host fuel running d (118 :: kind :: text) rest hr
    (by simp) (by omega)
  have hop0 := after_recv_buffer_zero d (118 :: kind :: text) k 118 rfl
  have hcs := after_recv_c_str d (118 :: kind :: text) k 2 (by simp) hr.2.2.1
  have hb1 := after_recv_buffer_one d 118 kind text k
  rw [hk, switch_v _ _ _ _ _ hop0, case_v, hcs]
  simp only
  rw [hparse]
  simp only [hb1]
  rcases hkind with ⟨hk100, hvk⟩ | ⟨hk115, hvk⟩
  · subst hk100 hvk
    simp only [if_true] at hcells ⊢
    obtain ⟨j, hj⟩ := send_view_ok host fuel
      { after_recv d (118 :: 100 :: text) k with
        m_disasm_view := { (after_recv d (118 :: 100 :: text) k).m_disasm_view with
          expression := "curpc" },
        calls := (after_recv d (118 :: 100 :: text) k).calls
          ++ [Call.set_expression ViewKind.DVT_DISASSEMBLY "curpc"] }
      ViewKind.DVT_DISASSEMBLY x y w h hw0 hh0 hsz hwt
      (by rw [← hcells] at hn; exact hn)
      (by simp only [after_recv_wsched]; omega)
    rw [hj]
    refine ⟨_, rfl, rfl, ?_, ?_⟩
    · simp [after_recv]
    rw [← hcells]
    simp [emu_file.after_write, after_recv_out, debug_remote.view]
  · subst hk115 hvk
    simp only [show (115 : Nat) ≠ 100 by decide, if_false] at hcells ⊢
    obtain ⟨j, hj⟩ := send_view_ok host fuel (after_recv d (118 :: 115 :: text) k)
      ViewKind.DVT_STATE x y w h hw0 hh0 hsz hwt
      (by rw [← hcells] at hn; exact hn)
      (by simp only [after_recv_wsched]; omega)
    rw [hj]
    refine ⟨_, rfl, rfl, ?_, ?_⟩
    · simp [after_recv]
    rw [← hcells]
    simp [emu_file.after_write, after_recv_out, debug_remote.view]
    rfl

/-- C7 (memory write asks for the wrong intention): the 'p' handler resolves
the address with intention TR_READ.  For the request "p1000,1" followed by the
data byte AB: on a host that maps 0x1000 for writing only the request is
refused with 00 00 and the data byte is left in the input; on a host that maps
0x1000 for reading only the request is accepted and the byte is written. -/
theorem C7_memory_write_asks_read_intent :
    host_write_only.translate AS_PROGRAM Intent.TR_WRITE 4096 = some (1, 4096) ∧
    observe (update_socket host_write_only 16 false
        (sample_state [0, 7, 112, 49, 48, 48, 48, 44, 49, 171] [] []))
      = some ([0, 0], [171], [Call.translate 0 Intent.TR_READ 4096]) ∧
    host_read_only.translate AS_PROGRAM Intent.TR_WRITE 4096 = none ∧
    observe (update_socket host_read_only 16 false
        (sample_state [0, 7, 112, 49, 48, 48, 48, 44, 49, 171] [] []))
      = some ([0, 1, 0, 0], [],
          [Call.translate 0 Intent.TR_READ 4096, Call.write_byte 1 4096 171]) := by
  decide

/-- C5 (memory write, success) fails on the code, through the defect of C7.
The request "p1000,2" followed by the data AB CD parses, and on a host that
maps 0x1000 for writing its address translates with the intention of a write;
the handler asks the translator with TR_READ, so it answers 00 00, leaves
AB CD in the input and makes no `write_byte` call. -/
theorem C5_write_mapped_address_refused :
    sscanf_x_x (request_text [112, 49, 48, 48, 48, 44, 50] 1) = some (4096, 2) ∧
    host_write_only.translate AS_PROGRAM Intent.TR_WRITE (4096 % 2 ^ 32) = some (1, 4096) ∧
    observe (update_socket host_write_only 16 false
        (sample_state [0, 7, 112, 49, 48, 48, 48, 44, 50, 171, 205] [1, 0, 1] []))
      = some ([0, 0], [171, 205], [Call.translate 0 Intent.TR_READ 4096]) := by
  decide

/-- C9 (memory write, failure) fails on the code, through the defect of C7.
The request "p1000,1" followed by the bytes EF 33 parses, and on a host that
maps 0x1000 for reading only its address does not translate with the
intention of a write; the handler asks the translator with TR_READ, so it
acknowledges with 00 01, takes EF from the input, stores it with `write_byte`
and answers 00 00. -/
theorem C9_read_mapped_address_written :
    sscanf_x_x (request_text [112, 49, 48, 48, 48, 44, 49] 1) = some (4096, 1) ∧
    host_read_only.translate AS_PROGRAM Intent.TR_WRITE (4096 % 2 ^ 32) = none ∧
    observe (update_socket host_read_only 16 false
        (sample_state [0, 7, 112, 49, 48, 48, 48, 44, 49, 239, 51] [] []))
      = some ([0, 1, 0, 0], [51],
          [Call.translate 0 Intent.TR_READ 4096, Call.write_byte 1 4096 239]) := by
  decide

/-- The conversions at their edges, as the C library makes them: a prefix 0x
without a digit is read as 0 and the scan goes on behind it; a value that does
not fit saturates (`strtoul` at 2 ^ 64 - 1, `strtol` at its two bounds) before
the `int` keeps the low 32 bits; a minus negates in 64 bits; a `long` within
range is cut to 32 bits. -/
theorem sscanf_edge_values :
    sscanf_x_x [48, 120, 44, 52] = some (0, 4) ∧
    sscanf_x_x [48, 88] = none ∧
    sscanf_x_x [120, 44, 52] = none ∧
    sscanf_x_x [49, 48, 48, 48, 48, 48, 48, 48, 48, 48, 48, 48, 48, 48, 48, 48, 48, 44, 49]
      = some (2 ^ 64 - 1, 1) ∧
    sscanf_x_x [45, 49, 44, 45, 48, 120] = some (2 ^ 64 - 1, 0) ∧
    sscanf_d_d_d_d [48, 44, 48, 44, 49, 56, 52, 52, 54, 55, 52, 52, 48, 55, 51, 55, 48, 57, 53, 53,
      49, 54, 49, 56, 44, 49] = some (0, 0, -1, 1) ∧
    sscanf_d_d_d_d [48, 44, 48, 44, 45, 57, 50, 50, 51, 51, 55, 50, 48, 51, 54, 56, 53, 52, 55, 55,
      53, 56, 48, 57, 44, 49] = some (0, 0, 0, 1) ∧
    sscanf_d_d_d_d [48, 44, 48, 44, 52, 50, 57, 52, 57, 54, 55, 50, 57, 56, 44, 49]
      = some (0, 0, 2, 1) ∧
    sscanf_d_d_d_d [48, 120, 49, 44, 48, 44, 50, 44, 49] = none := by
  decide

/-- Requests at these edges.  "m0x,4" is a read of 4 bytes at address 0;
"m10000000000000000,1" asks the translator for 0xFFFFFFFF, which the sample
host does not map, and is refused; "vs0,0,18446744073709551618,1" sets the
width -1 and is answered with the header FF FE and no cell. -/
theorem update_socket_edge_requests :
    observe (update_socket sample_host 16 false
        (sample_state [0, 5, 109, 48, 120, 44, 52] [] []))
      = some ([0, 4, 1, 2, 3, 4], [],
          [Call.translate 0 Intent.TR_READ 0, Call.read_byte 1 0, Call.read_byte 1 1,
            Call.read_byte 1 2, Call.read_byte 1 3]) ∧
    observe (update_socket sample_host 16 false
        (sample_state [0, 20, 109, 49, 48, 48, 48, 48, 48, 48, 48, 48, 48, 48, 48, 48, 48, 48, 48,
          48, 44, 49] [] []))
      = some ([0, 0], [], [Call.translate 0 Intent.TR_READ 4294967295]) ∧
    observe (update_socket sample_host 16 false
        (sample_state [0, 28, 118, 115, 48, 44, 48, 44, 49, 56, 52, 52, 54, 55, 52, 52, 48, 55,
          51, 55, 48, 57, 53, 53, 49, 54, 49, 56, 44, 49] [] []))
      = some ([255, 254], [],
          [Call.set_visible_size ViewKind.DVT_STATE (-1) 1,
            Call.set_visible_position ViewKind.DVT_STATE 0 0,
            Call.viewdata ViewKind.DVT_STATE]) := by
  decide

/-! ## The theorems at sample inputs -/

/-- C1 at the bytes 1 2 3, sent over a socket whose writes transfer 0, 1, 0
and then 2 bytes. -/
theorem C1_frame_round_trip_witness :
    ([1, 2, 3] : List Nat).length ≤ 65535 ∧
    (sample_socket [] [] [0, 1, 0, 2]).wsched.length + 2 ≤ 8 ∧
    ∃ s1 wire, send_data 8 (sample_socket [] [] [0, 1, 0, 2]) [1, 2, 3]
        ([1, 2, 3] : List Nat).length = .ok s1 ∧
      s1.out = (sample_socket [] [] [0, 1, 0, 2]).out ++ wire ∧
      ∀ (d : debug_remote) (rest : List Nat) (fuel2 : Nat),
        d.m_socket.inp = wire ++ rest → d.m_socket.rsched.head? ≠ some 0 →
        d.m_socket.rsched.length + 2 ≤ fuel2 →
        ∃ first s2 d2, d.m_socket.read 1 = ([first], s2) ∧
          recv fuel2 { d with m_socket := s2 } first = .ok (([1, 2, 3] : List Nat).length, d2) ∧
          buffer_slice d2.buffer 0 ([1, 2, 3] : List Nat).length = [1, 2, 3] ∧
          d2.m_socket.inp = rest :=
  ⟨by decide, by decide,
    C1_frame_round_trip [1, 2, 3] (sample_socket [] [] [0, 1, 0, 2]) 8 (by decide) (by decide)⟩

/-- C2 at a '?' frame read in pieces, with a zero-byte write. -/
theorem C2_status_reply_witness :
    receives (sample_state [0, 1, 63] [1, 0, 1] [0, 1]) [63] [] ∧
    ∃ d1, update_socket sample_host 8 true (sample_state [0, 1, 63] [1, 0, 1] [0, 1]) = .ok d1 ∧
      d1.m_socket.out = (sample_state [0, 1, 63] [1, 0, 1] [0, 1]).m_socket.out
        ++ [0, 1, if true = true then 89 else 78] ∧
      d1.m_socket.inp = [] ∧
      d1.calls = (sample_state [0, 1, 63] [1, 0, 1] [0, 1]).calls ∧
      d1.memory = (sample_state [0, 1, 63] [1, 0, 1] [0, 1]).memory :=
  have h : receives (sample_state [0, 1, 63] [1, 0, 1] [0, 1]) [63] [] := by
    unfold receives; decide
  ⟨h, C2_status_reply sample_host 8 true _ [63] [] h rfl (by decide)⟩

/-- C3 at the command "go" on the sample console. -/
theorem C3_execute_reply_witness :
    receives (sample_state [0, 3, 120, 103, 111] [] []) [120, 103, 111] [] ∧
    (∀ line ∈ [[65], [66, 66], [67, 67, 67]], line.length ≤ 65535 ∧ (0 : Nat) ∉ line) ∧
    ∃ d1, update_socket sample_host 8 false (sample_state [0, 3, 120, 103, 111] [] []) = .ok d1 ∧
      d1.textbuf = [[65], [66, 66], [67, 67, 67]] ∧
      d1.m_socket.out = (sample_state [0, 3, 120, 103, 111] [] []).m_socket.out
        ++ (u16 ([[65], [66, 66], [67, 67, 67]] : List (List Nat)).length
          ++ ([[65], [66, 66], [67, 67, 67]] : List (List Nat)).flatMap frame) ∧
      (([[65], [66, 66], [67, 67, 67]] : List (List Nat)) = [] →
        d1.m_socket.out = (sample_state [0, 3, 120, 103, 111] [] []).m_socket.out ++ [0, 0]) ∧
      (([[65], [66, 66], [67, 67, 67]] : List (List Nat)) = [[65], [66, 66], [67, 67, 67]] →
        d1.m_socket.out = (sample_state [0, 3, 120, 103, 111] [] []).m_socket.out
          ++ [0, 3, 0, 1, 65, 0, 2, 66, 66, 0, 3, 67, 67, 67]) :=
  have h : receives (sample_state [0, 3, 120, 103, 111] [] []) [120, 103, 111] [] := by
    unfold receives; decide
  have hl : ∀ line ∈ [[65], [66, 66], [67, 67, 67]], line.length ≤ 65535 ∧ (0 : Nat) ∉ line := by
    decide
  ⟨h, hl, C3_execute_reply sample_host 8 false _ [120, 103, 111] [] _ h rfl rfl (by decide) hl
    (by decide)⟩

/-- C4 at the request "m10,4". -/
theorem C4_memory_read_reply_witness :
    receives (sample_state [0, 5, 109, 49, 48, 44, 52] [] [1, 2]) [109, 49, 48, 44, 52] [] ∧
    sscanf_x_x (request_text [109, 49, 48, 44, 52] 1) = some (16, 4) ∧
    sample_host.translate AS_PROGRAM Intent.TR_READ (16 % 2 ^ 32) = some (1, 16) ∧
    writes_transfer (sample_state [0, 5, 109, 49, 48, 44, 52] [] [1, 2]).m_socket ∧
    ∃ d1 data, update_socket sample_host 12 false
        (sample_state [0, 5, 109, 49, 48, 44, 52] [] [1, 2]) = .ok d1 ∧
      d1.m_socket.out = (sample_state [0, 5, 109, 49, 48, 44, 52] [] [1, 2]).m_socket.out
        ++ (u16 4 ++ data) ∧
      data.length = 4 ∧
      (∀ i, i < 4 → data.getD i 0
        = (sample_state [0, 5, 109, 49, 48, 44, 52] [] [1, 2]).memory 1 ((16 + i) % 2 ^ 32)) ∧
      d1.calls = (sample_state [0, 5, 109, 49, 48, 44, 52] [] [1, 2]).calls
        ++ [Call.translate AS_PROGRAM Intent.TR_READ (16 % 2 ^ 32)] ++ read_calls 1 16 4 ∧
      d1.memory = (sample_state [0, 5, 109, 49, 48, 44, 52] [] [1, 2]).memory :=
  have h : receives (sample_state [0, 5, 109, 49, 48, 44, 52] [] [1, 2])
      [109, 49, 48, 44, 52] [] := by
    unfold receives; decide
  have hp : sscanf_x_x (request_text [109, 49, 48, 44, 52] 1) = some (16, 4) := by decide
  have ht : sample_host.translate AS_PROGRAM Intent.TR_READ (16 % 2 ^ 32) = some (1, 16) := by
    decide
  have hw : writes_transfer (sample_state [0, 5, 109, 49, 48, 44, 52] [] [1, 2]).m_socket := by
    unfold writes_transfer; decide
  ⟨h, hp, ht, hw, C4_memory_read_reply sample_host 12 false _ [109, 49, 48, 44, 52] [] 16 4 1 16
    h rfl hp (by decide) ht hw (by decide)⟩

/-- C6 at the requests "p10,2" with the data 7 9 and "m10,2", read in pieces
and with zero-byte reads. -/
theorem C6_write_read_round_trip_witness :
    receives
      (sample_state [0, 5, 112, 49, 48, 44, 50, 7, 9, 0, 5, 109, 49, 48, 44, 50]
        [1, 0, 2, 0, 1, 0, 1, 0, 0, 1, 3, 0, 4, 1, 2, 0, 1] [])
      [112, 49, 48, 44, 50] ([7, 9] ++ (frame [109, 49, 48, 44, 50] ++ [])) ∧
    sscanf_x_x (request_text [112, 49, 48, 44, 50] 1) = some (16, ([7, 9] : List Nat).length) ∧
    sscanf_x_x (request_text [109, 49, 48, 44, 50] 1) = some (16, ([7, 9] : List Nat).length) ∧
    sample_host.translate AS_PROGRAM Intent.TR_READ (16 % 2 ^ 32) = some (1, 16) ∧
    (∀ d1, update_socket sample_host 32 false
        (sample_state [0, 5, 112, 49, 48, 44, 50, 7, 9, 0, 5, 109, 49, 48, 44, 50]
        [1, 0, 2, 0, 1, 0, 1, 0, 0, 1, 3, 0, 4, 1, 2, 0, 1] []) = .ok d1 →
      d1.m_socket.rsched.head? ≠ some 0) ∧
    ∃ d1 d2, update_socket sample_host 32 false
        (sample_state [0, 5, 112, 49, 48, 44, 50, 7, 9, 0, 5, 109, 49, 48, 44, 50]
        [1, 0, 2, 0, 1, 0, 1, 0, 0, 1, 3, 0, 4, 1, 2, 0, 1] []) = .ok d1 ∧
      update_socket sample_host 32 true d1 = .ok d2 ∧
      d1.m_socket.out
        = (sample_state [0, 5, 112, 49, 48, 44, 50, 7, 9, 0, 5, 109, 49, 48, 44, 50]
        [1, 0, 2, 0, 1, 0, 1, 0, 0, 1, 3, 0, 4, 1, 2, 0, 1] []).m_socket.out
          ++ (u16 ([7, 9] : List Nat).length ++ [0, 0]) ∧
      d2.m_socket.out = d1.m_socket.out ++ (u16 ([7, 9] : List Nat).length ++ [7, 9]) :=
  have h : receives
      (sample_state [0, 5, 112, 49, 48, 44, 50, 7, 9, 0, 5, 109, 49, 48, 44, 50]
        [1, 0, 2, 0, 1, 0, 1, 0, 0, 1, 3, 0, 4, 1, 2, 0, 1] [])
      [112, 49, 48, 44, 50] ([7, 9] ++ (frame [109, 49, 48, 44, 50] ++ [])) := by
    unfold receives; decide
  have hp : sscanf_x_x (request_text [112, 49, 48, 44, 50] 1)
      = some (16, ([7, 9] : List Nat).length) := by decide
  have hm : sscanf_x_x (request_text [109, 49, 48, 44, 50] 1)
      = some (16, ([7, 9] : List Nat).length) := by decide
  have ht : sample_host.translate AS_PROGRAM Intent.TR_READ (16 % 2 ^ 32) = some (1, 16) := by
    decide
  have hleft : reads_left (update_socket sample_host 32 false
      (sample_state [0, 5, 112, 49, 48, 44, 50, 7, 9, 0, 5, 109, 49, 48, 44, 50]
        [1, 0, 2, 0, 1, 0, 1, 0, 0, 1, 3, 0, 4, 1, 2, 0, 1] [])) = some [2, 0, 1] := by
    decide
  have hn : ∀ d1, update_socket sample_host 32 false
      (sample_state [0, 5, 112, 49, 48, 44, 50, 7, 9, 0, 5, 109, 49, 48, 44, 50]
        [1, 0, 2, 0, 1, 0, 1, 0, 0, 1, 3, 0, 4, 1, 2, 0, 1] []) = .ok d1 →
      d1.m_socket.rsched.head? ≠ some 0 := by
    intro d1 h1
    rw [h1] at hleft
    simp only [reads_left, Option.some.injEq] at hleft
    rw [hleft]
    decide
  ⟨h, hp, hm, ht, hn, C6_write_read_round_trip sample_host 32 false true _ [112, 49, 48, 44, 50]
    [109, 49, 48, 44, 50] [7, 9] [] 16 1 16 h rfl hp rfl (by decide) hm (by decide) ht
    (by unfold writes_transfer; decide) hn (by decide)⟩

/-- C8 at the request "mzz", whose text does not parse. -/
theorem C8_memory_read_failure_witness :
    receives (sample_state [0, 3, 109, 122, 122] [] []) [109, 122, 122] [] ∧
    sscanf_x_x (request_text [109, 122, 122] 1) = none ∧
    ∃ d1 cs, update_socket sample_host 8 false (sample_state [0, 3, 109, 122, 122] [] [])
        = .ok d1 ∧
      d1.m_socket.out = (sample_state [0, 3, 109, 122, 122] [] []).m_socket.out ++ [0, 0] ∧
      d1.calls = (sample_state [0, 3, 109, 122, 122] [] []).calls ++ cs ∧
      (∀ sp o, Call.read_byte sp o ∉ cs) ∧ (∀ sp o b, Call.write_byte sp o b ∉ cs) ∧
      d1.memory = (sample_state [0, 3, 109, 122, 122] [] []).memory :=
  have h : receives (sample_state [0, 3, 109, 122, 122] [] []) [109, 122, 122] [] := by
    unfold receives; decide
  have hp : sscanf_x_x (request_text [109, 122, 122] 1) = none := by decide
  ⟨h, hp, C8_memory_read_failure sample_host 8 false _ [109, 122, 122] [] h rfl (Or.inl hp)
    (by decide)⟩

/-- C10 at the request "vd0,0,2,1" on the sample views. -/
theorem C10_view_snapshot_witness :
    receives (sample_state [0, 9, 118, 100, 48, 44, 48, 44, 50, 44, 49] [] [])
      (118 :: 100 :: [48, 44, 48, 44, 50, 44, 49]) [] ∧
    sscanf_d_d_d_d (request_text (118 :: 100 :: [48, 44, 48, 44, 50, 44, 49]) 2)
      = some (0, 0, 2, 1) ∧
    writes_transfer (sample_state [0, 9, 118, 100, 48, 44, 48, 44, 50, 44, 49] [] []).m_socket ∧
    ∃ d1, update_socket sample_host 8 false
        (sample_state [0, 9, 118, 100, 48, 44, 48, 44, 50, 44, 49] [] []) = .ok d1 ∧
      d1.view ViewKind.DVT_DISASSEMBLY
        = { expression := if (100 : Nat) = 100 then "curpc"
              else ((sample_state [0, 9, 118, 100, 48, 44, 48, 44, 50, 44, 49] [] []).view
                ViewKind.DVT_DISASSEMBLY).expression,
            visible_size := (2, 1), visible_position := (0, 0) } ∧
      d1.calls = (sample_state [0, 9, 118, 100, 48, 44, 48, 44, 50, 44, 49] [] []).calls
        ++ (if (100 : Nat) = 100 then [Call.set_expression ViewKind.DVT_DISASSEMBLY "curpc"]
          else [])
        ++ [Call.set_visible_size ViewKind.DVT_DISASSEMBLY 2 1,
          Call.set_visible_position ViewKind.DVT_DISASSEMBLY 0 0,
          Call.viewdata ViewKind.DVT_DISASSEMBLY] ∧
      d1.m_socket.out
        = (sample_state [0, 9, 118, 100, 48, 44, 48, 44, 50, 44, 49] [] []).m_socket.out
          ++ (u16 (2 * 2 * 1 : Int).toNat
            ++ cell_bytes (([⟨65, 1⟩, ⟨66, 2⟩] : List debug_view_char).take (2 * 1 : Int).toNat)) ∧
      (((0, 0, 2, 1) : Int × Int × Int × Int) = (0, 0, 2, 1) →
        ([⟨65, 1⟩, ⟨66, 2⟩] : List debug_view_char) = [⟨65, 1⟩, ⟨66, 2⟩] →
        d1.m_socket.out
          = (sample_state [0, 9, 118, 100, 48, 44, 48, 44, 50, 44, 49] [] []).m_socket.out
            ++ [0, 4, 1, 65, 2, 66]) :=
  have h : receives (sample_state [0, 9, 118, 100, 48, 44, 48, 44, 50, 44, 49] [] [])
      (118 :: 100 :: [48, 44, 48, 44, 50, 44, 49]) [] := by
    unfold receives; decide
  have hp : sscanf_d_d_d_d (request_text (118 :: 100 :: [48, 44, 48, 44, 50, 44, 49]) 2)
      = some (0, 0, 2, 1) := by decide
  have hw : writes_transfer
      (sample_state [0, 9, 118, 100, 48, 44, 48, 44, 50, 44, 49] [] []).m_socket := by
    unfold writes_transfer; decide
  ⟨h, hp, hw, C10_view_snapshot sample_host 8 false _ 100 [48, 44, 48, 44, 50, 44, 49] []
    ViewKind.DVT_DISASSEMBLY 0 0 2 1 [⟨65, 1⟩, ⟨66, 2⟩] h (Or.inl ⟨rfl, rfl⟩) hp (by decide)
    (by decide) (by decide) hw (by decide) (by decide) (by decide)⟩

/-! ## Requests that are refused -/

theorem after_recv_link (d : debug_remote) (payload : List Nat) (k : Nat) :
    (after_recv d payload k).m_socket.is_open = d.m_socket.is_open ∧
    (after_recv d payload k).m_socket.closes = d.m_socket.closes ∧
    (after_recv d payload k).m_socket.opens = d.m_socket.opens ∧
    (after_recv d payload k).m_socket.port = d.m_socket.port :=
  ⟨rfl, rfl, rfl, rfl⟩

/-! ### Strings in the buffer -/

theorem c_str_aux_oob (buf : Nat → Nat) (n i : Nat) (h : ∀ j, i ≤ j → j < i + n → buf j ≠ 0) :
    c_str_aux buf n i = .error .oob := by
  induction n generalizing i with
  | zero => rfl
  | succ m ih =>
    rw [c_str_aux, if_neg (h i (le_refl _) (by omega)),
      ih (i + 1) (fun j h1 h2 => h j (by omega) (by omega))]

/-- Without a NUL in the array from `start` on, the scan of the string at
`buffer + start` runs past the end of the array. -/
theorem c_str_oob (buf : Nat → Nat) (start : Nat) (h : ¬ nul_from buf start) :
    c_str buf start = .error .oob :=
  c_str_aux_oob buf _ start
    (fun j h1 h2 hz => h ⟨j, h1, by simp only [BUFFER_SIZE] at h2 ⊢; omega, hz⟩)

/-- After a frame of two bytes or more the terminator is a NUL from index 2
on; a shorter frame leaves the bytes from index 2 on as they were. -/
theorem recv_buffer_nul_from (buf : Nat → Nat) (lo : Nat) (payload : List Nat)
    (hN : payload.length ≤ 65535) (h : 2 ≤ payload.length ∨ nul_from buf 2) :
    nul_from (recv_buffer buf lo payload) 2 := by
  by_cases h2 : 2 ≤ payload.length
  · exact ⟨payload.length, h2, by simp only [BUFFER_SIZE]; omega, recv_buffer_length _ _ _⟩
  · rcases h with h | ⟨j, hj, hlt, hz⟩
    · exact absurd h h2
    · exact ⟨j, hj, hlt, by rw [recv_buffer_gt _ _ _ _ (by omega)]; exact hz⟩

/-- A 'v' frame of one byte taken into a buffer that holds no NUL from index
2 on: the scan at `buffer + 2` starts behind the terminator and runs past the
end of the array. -/
theorem case_v_over_read (host : Host) (fuel : Nat) (d : debug_remote) (payload : List Nat)
    (k : Nat) (hlen : payload.length = 1) (h : ¬ nul_from d.buffer 2) :
    case_v host fuel (after_recv d payload k) = .error .oob := by
  have hno : ¬ nul_from (after_recv d payload k).buffer 2 := by
    rintro ⟨j, hj, hlt, hz⟩
    refine h ⟨j, hj, hlt, ?_⟩
    have hg : (after_recv d payload k).buffer j = d.buffer j :=
      recv_buffer_gt _ _ _ _ (by omega)
    rw [← hg]
    exact hz
  rw [case_v, c_str_oob _ _ hno]

theorem switch_default (host : Host) (fuel : Nat) (running : Bool) (d : debug_remote) (n : Nat)
    (h : d.buffer 0 ≠ 63 ∧ d.buffer 0 ≠ 120 ∧ d.buffer 0 ≠ 109 ∧ d.buffer 0 ≠ 112 ∧
      d.buffer 0 ≠ 118) :
    update_socket_switch host fuel running d n = reply_empty fuel d := by
  obtain ⟨h1, h2, h3, h4, h5⟩ := h
  simp [update_socket_switch, h1, h2, h3, h4, h5]

/-- C12 (unknown opcode): when a frame of length N ≥ 1 is received whose first
payload byte is none of '?', 'x', 'm', 'p', 'v', `update_socket` returns, the
bytes written are exactly 00 00, no collaborator is called (memory, transcript
and views are unchanged) and the socket stays open, neither closed nor
reopened. -/
theorem C12_unknown_opcode (host : Host) (fuel : Nat) (running : Bool) (d : debug_remote)
    (payload rest : List Nat) (op : Nat)
    (hr : receives d payload rest) (hop : payload.head? = some op)
    (hunknown : op ≠ 63 ∧ op ≠ 120 ∧ op ≠ 109 ∧ op ≠ 112 ∧ op ≠ 118)
    (hf : d.m_socket.rsched.length + d.m_socket.wsched.length + 2 ≤ fuel) :
    ∃ d1, update_socket host fuel running d = .ok d1 ∧
      d1.m_socket.out = d.m_socket.out ++ [0, 0] ∧
      d1.calls = d.calls ∧ d1.memory = d.memory ∧ d1.textbuf = d.textbuf ∧
      d1.m_disasm_view = d.m_disasm_view ∧ d1.m_register_view = d.m_register_view ∧
      d1.m_socket.is_open = true ∧ d1.m_socket.closes = d.m_socket.closes ∧
      d1.m_socket.opens = d.m_socket.opens := by
  obtain ⟨k, hk⟩ := update_socket_frame host fuel running d payload rest hr
    (ne_nil_of_head _ _ hop) (by omega)
  have hop0 := after_recv_buffer_zero d payload k op hop
  obtain ⟨k1, hk1⟩ := reply_empty_ok fuel (after_recv d payload k)
    (by simp only [after_recv_wsched]; omega)
  rw [hk, switch_default _ _ _ _ _ (by rw [hop0]; exact hunknown), hk1]
  refine ⟨_, rfl, ?_, rfl, rfl, rfl, rfl, rfl, hr.1, rfl, rfl⟩
  simp [emu_file.after_write, after_recv_out]

/-! ## What the routines leave alone -/

theorem read_link (s : emu_file) (n : Nat) : (s.read n).2.link = s.link := rfl

theorem read_out (s : emu_file) (n : Nat) : (s.read n).2.out = s.out := rfl

theorem write_link (s : emu_file) (data : List Nat) (n : Nat) : (s.write data n).2.link = s.link :=
  rfl

theorem send_byte_link (fuel : Nat) (s : emu_file) (b : Nat) (s' : emu_file)
    (h : send_byte fuel s b = .ok s') : s'.link = s.link := by
  induction fuel generalizing s with
  | zero => simp [send_byte] at h
  | succ n ih =>
    rw [send_byte] at h
    have hl := write_link s [b % 256] 1
    rcases hw : s.write [b % 256] 1 with ⟨len, s1⟩
    rw [hw] at h hl
    simp only at h hl
    split at h
    · exact (ih _ h).trans hl
    · cases h
      exact hl

theorem send_size_link (fuel : Nat) (s : emu_file) (size : Nat) (s' : emu_file)
    (h : send_size fuel s size = .ok s') : s'.link = s.link := by
  unfold send_size at h
  cases h1 : send_byte fuel s ((size >>> 8) &&& 0xff) with
  | error e => rw [h1] at h; cases h
  | ok s1 =>
    rw [h1] at h
    exact (send_byte_link _ _ _ _ h).trans (send_byte_link _ _ _ _ h1)

theorem send_data_loop_link (fuel : Nat) (s : emu_file) (data : List Nat) (size : Nat)
    (s' : emu_file) (h : send_data_loop fuel s data size = .ok s') : s'.link = s.link := by
  induction fuel generalizing s data size with
  | zero => simp [send_data_loop] at h
  | succ n ih =>
    rw [send_data_loop] at h
    split at h
    · cases h; rfl
    · have hl := write_link s data size
      rcases hw : s.write data size with ⟨len, s1⟩
      rw [hw] at h hl
      simp only at h hl
      split at h
      · exact (ih _ _ _ h).trans hl
      · exact (ih _ _ _ h).trans hl

theorem send_data_link (fuel : Nat) (s : emu_file) (data : List Nat) (size : Nat)
    (s' : emu_file) (h : send_data fuel s data size = .ok s') : s'.link = s.link := by
  unfold send_data at h
  cases h1 : send_size fuel s size with
  | error e => rw [h1] at h; cases h
  | ok s1 =>
    rw [h1] at h
    exact (send_data_loop_link _ _ _ _ _ h).trans (send_size_link _ _ _ _ h1)

theorem reply_empty_link (fuel : Nat) (d d' : debug_remote) (h : reply_empty fuel d = .ok d') :
    d'.m_socket.link = d.m_socket.link := by
  unfold reply_empty at h
  cases h1 : send_size fuel d.m_socket 0 with
  | error e => rw [h1] at h; cases h
  | ok s1 =>
    rw [h1] at h
    cases h
    exact send_size_link _ _ _ _ h1

theorem send_space_loop_link (fuel : Nat) (d : debug_remote) (space offset size : Nat)
    (d' : debug_remote) (h : send_space_loop fuel d space offset size = .ok d') :
    d'.m_socket.link = d.m_socket.link := by
  induction fuel generalizing d offset size with
  | zero => simp [send_space_loop] at h
  | succ n ih =>
    rw [send_space_loop] at h
    split at h
    · cases h; rfl
    · simp only [read_byte] at h
      have hl := write_link d.m_socket [d.memory space (offset % 2 ^ 32)] 1
      rcases hw : d.m_socket.write [d.memory space (offset % 2 ^ 32)] 1 with ⟨len, s1⟩
      rw [hw] at h hl
      simp only at h hl
      split at h
      · exact (ih _ _ _ h).trans hl
      · exact (ih _ _ _ h).trans hl

theorem send_space_link (fuel : Nat) (d : debug_remote) (space offset size : Nat)
    (d' : debug_remote) (h : send_space fuel d space offset size = .ok d') :
    d'.m_socket.link = d.m_socket.link := by
  unfold send_space at h
  cases h1 : send_size fuel d.m_socket size with
  | error e => rw [h1] at h; cases h
  | ok s1 =>
    rw [h1] at h
    exact (send_space_loop_link _ _ _ _ _ _ h).trans (send_size_link _ _ _ _ h1)

theorem recv_space_link (fuel : Nat) (d : debug_remote) (space offset size : Nat)
    (d' : debug_remote) (h : recv_space fuel d space offset size = .ok d') :
    d'.m_socket.link = d.m_socket.link := by
  induction fuel generalizing d offset size with
  | zero => simp [recv_space] at h
  | succ n ih =>
    rw [recv_space] at h
    split at h
    · cases h; rfl
    · have hl := read_link d.m_socket 1
      rcases hr : d.m_socket.read 1 with ⟨bytes, s1⟩
      rw [hr] at h hl
      simp only at h hl
      cases bytes with
      | nil => exact (ih _ _ _ h).trans hl
      | cons b bs => exact (ih _ _ _ h).trans hl

theorem send_view_loop_link (n : Nat) (s : emu_file) (cells : List debug_view_char)
    (s' : emu_file) (h : send_view_loop n s cells = .ok s') : s'.link = s.link := by
  induction n generalizing s cells with
  | zero => simp only [send_view_loop] at h; cases h; rfl
  | succ m ih =>
    cases cells with
    | nil => simp [send_view_loop] at h
    | cons c cs =>
      rw [send_view_loop] at h
      have hl1 := write_link s [c.attrib] 1
      rcases hw1 : s.write [c.attrib] 1 with ⟨l1, s1⟩
      rw [hw1] at h hl1
      simp only at h hl1
      have hl2 := write_link s1 [c.byte] 1
      rcases hw2 : s1.write [c.byte] 1 with ⟨l2, s2⟩
      rw [hw2] at h hl2
      simp only at h hl2
      exact ((ih _ _ h).trans hl2).trans hl1

theorem send_view_link (host : Host) (fuel : Nat) (d : debug_remote) (k : ViewKind)
    (x y w h : Int) (d' : debug_remote) (hv : send_view host fuel d k x y w h = .ok d') :
    d'.m_socket.link = d.m_socket.link := by
  unfold send_view at hv
  simp only [set_view_m_socket] at hv
  split at hv
  · cases hv
  · rename_i s1 h1
    split at hv
    · cases hv
    · rename_i s2 h2
      cases hv
      exact (send_view_loop_link _ _ _ _ h2).trans (send_size_link _ _ _ _ h1)

theorem send_lines_link (fuel n i : Nat) (d d' : debug_remote)
    (h : send_lines fuel n i d = .ok d') : d'.m_socket.link = d.m_socket.link := by
  induction n generalizing i d with
  | zero => simp only [send_lines] at h; cases h; rfl
  | succ m ih =>
    rw [send_lines] at h
    split at h
    · cases h
    · rename_i line hline
      split at h
      · cases h
      · rename_i s1 h1
        exact (ih _ _ h).trans (send_data_link _ _ _ _ _ h1)

theorem case_status_link (fuel : Nat) (running : Bool) (d d' : debug_remote)
    (h : case_status fuel running d = .ok d') : d'.m_socket.link = d.m_socket.link := by
  unfold case_status at h
  split at h
  · cases h
  · rename_i s1 h1
    cases h
    exact send_data_link _ _ _ _ _ h1

theorem case_x_link (host : Host) (fuel : Nat) (d : debug_remote) (n : Nat) (d' : debug_remote)
    (h : case_x host fuel d n = .ok d') : d'.m_socket.link = d.m_socket.link := by
  unfold case_x at h
  simp only at h
  split at h
  · split at h
    · cases h
    · rename_i s1 h1
      exact (send_lines_link _ _ _ _ _ h).trans (send_size_link _ _ _ _ h1)
  · have hh := reply_empty_link _ _ _ h
    exact hh

theorem case_m_link (host : Host) (fuel : Nat) (d d' : debug_remote)
    (h : case_m host fuel d = .ok d') : d'.m_socket.link = d.m_socket.link := by
  unfold case_m at h
  split at h
  · cases h
  · split at h
    · have hh := reply_empty_link _ _ _ h
      exact hh
    · simp only at h
      split at h
      · have hh := reply_empty_link _ _ _ h
        exact hh
      · have hh := send_space_link _ _ _ _ _ _ h
        exact hh

theorem case_p_link (host : Host) (fuel : Nat) (d d' : debug_remote)
    (h : case_p host fuel d = .ok d') : d'.m_socket.link = d.m_socket.link := by
  unfold case_p at h
  split at h
  · cases h
  · split at h
    · have hh := reply_empty_link _ _ _ h
      exact hh
    · simp only at h
      split at h
      · have hh := reply_empty_link _ _ _ h
        exact hh
      · split at h
        · cases h
        · rename_i s1 h1
          split at h
          · cases h
          · rename_i d2 h2
            exact ((reply_empty_link _ _ _ h).trans (recv_space_link _ _ _ _ _ _ h2)).trans
              (send_size_link _ _ _ _ h1)

theorem case_v_link (host : Host) (fuel : Nat) (d d' : debug_remote)
    (h : case_v host fuel d = .ok d') : d'.m_socket.link = d.m_socket.link := by
  unfold case_v at h
  split at h
  · cases h
  · split at h
    · have hh := reply_empty_link _ _ _ h
      exact hh
    · simp only at h
      split at h
      · have hh := send_view_link _ _ _ _ _ _ _ _ _ h
        exact hh
      · split at h
        · have hh := send_view_link _ _ _ _ _ _ _ _ _ h
          exact hh
        · have hh := reply_empty_link _ _ _ h
          exact hh

theorem update_socket_switch_link (host : Host) (fuel : Nat) (running : Bool)
    (d : debug_remote) (n : Nat) (d' : debug_remote)
    (h : update_socket_switch host fuel running d n = .ok d') :
    d'.m_socket.link = d.m_socket.link := by
  unfold update_socket_switch at h
  simp only at h
  split at h
  · exact case_status_link _ _ _ _ h
  · split at h
    · exact case_x_link _ _ _ _ _ h
    · split at h
      · exact case_m_link _ _ _ _ h
      · split at h
        · exact case_p_link _ _ _ _ h
        · split at h
          · exact case_v_link _ _ _ _ h
          · have hh := reply_empty_link _ _ _ h
            exact hh

/-! ## What `recv` leaves alone -/

theorem buffer_store_ok (buf : Nat → Nat) (offs : Nat) (bytes : List Nat) (buf' : Nat → Nat)
    (h : buffer_store buf offs bytes = .ok buf') : buf' = buffer_write buf offs bytes := by
  unfold buffer_store at h
  split at h
  · cases h; rfl
  · cases h

theorem get_byte_keeps (fuel : Nat) (d : debug_remote) (v : Nat) (d' : debug_remote)
    (h : get_byte fuel d = .ok (v, d')) :
    d'.m_socket.link = d.m_socket.link ∧ d'.m_socket.out = d.m_socket.out ∧
      d'.m_debugger_port = d.m_debugger_port := by
  induction fuel generalizing d with
  | zero => simp [get_byte] at h
  | succ n ih =>
    rw [get_byte] at h
    have hl := read_link d.m_socket 1
    have ho := read_out d.m_socket 1
    rcases hr : d.m_socket.read 1 with ⟨bytes, s1⟩
    rw [hr] at h hl ho
    simp only at h hl ho
    split at h
    · cases h
    · rename_i buf hbuf
      split at h
      · obtain ⟨h1, h2, h3⟩ := ih _ h
        exact ⟨h1.trans hl, h2.trans ho, h3⟩
      · cases h
        exact ⟨hl, ho, rfl⟩

theorem recv_loop_keeps (fuel : Nat) (d : debug_remote) (offs toRead : Nat) (d' : debug_remote)
    (h : recv_loop fuel d offs toRead = .ok d') :
    d'.m_socket.link = d.m_socket.link ∧ d'.m_socket.out = d.m_socket.out ∧
      d'.m_debugger_port = d.m_debugger_port := by
  induction fuel generalizing d offs toRead with
  | zero => simp [recv_loop] at h
  | succ n ih =>
    rw [recv_loop] at h
    split at h
    · cases h
      exact ⟨rfl, rfl, rfl⟩
    · have hl := read_link d.m_socket toRead
      have ho := read_out d.m_socket toRead
      rcases hr : d.m_socket.read toRead with ⟨bytes, s1⟩
      rw [hr] at h hl ho
      simp only at h hl ho
      split at h
      · cases h
      · rename_i buf hbuf
        split at h
        · obtain ⟨h1, h2, h3⟩ := ih _ _ _ h
          exact ⟨h1.trans hl, h2.trans ho, h3⟩
        · obtain ⟨h1, h2, h3⟩ := ih _ _ _ h
          exact ⟨h1.trans hl, h2.trans ho, h3⟩

theorem recv_keeps (fuel : Nat) (d : debug_remote) (first n : Nat) (d' : debug_remote)
    (h : recv fuel d first = .ok (n, d')) :
    d'.m_socket.link = d.m_socket.link ∧ d'.m_socket.out = d.m_socket.out ∧
      d'.m_debugger_port = d.m_debugger_port := by
  unfold recv at h
  split at h
  · cases h
  · rename_i second d1 h1
    simp only at h
    split at h
    · cases h
    · rename_i buf hbuf
      split at h
      · cases h
      · rename_i d2 h2
        cases h
        obtain ⟨a1, a2, a3⟩ := get_byte_keeps _ _ _ _ h1
        obtain ⟨b1, b2, b3⟩ := recv_loop_keeps _ _ _ _ _ h2
        exact ⟨b1.trans a1, b2.trans a2, b3.trans a3⟩

/-! ## Reopening -/

theorem link_fields (s s' : emu_file) (h : s'.link = s.link) :
    s'.is_open = s.is_open ∧ s'.listen_ok = s.listen_ok ∧ s'.port = s.port ∧
      s'.opens = s.opens ∧ s'.closes = s.closes := by
  simpa [emu_file.link] using h

theorem zero_frame_of_receives (fuel : Nat) (d : debug_remote) (rest : List Nat)
    (hr : receives d [] rest) (hf : d.m_socket.rsched.length + 2 ≤ fuel) :
    ∃ k, d.m_socket.read 1 = ([0], d.m_socket.after_read 1 1) ∧
      recv fuel { d with m_socket := d.m_socket.after_read 1 1 } 0
        = .ok (0, after_recv d [] (1 + k)) := by
  obtain ⟨hopen, hsched, hlen, hin⟩ := hr
  have hin1 : d.m_socket.inp = 0 :: 0 :: ([] ++ rest) := by
    rw [hin]; rfl
  have h1 := read_first d.m_socket _ _ hin1 hsched
  obtain ⟨k, hk⟩ := recv_ok fuel { d with m_socket := d.m_socket.after_read 1 1 }
    0 0 [] rest (by simp [after_read_inp, hin1]) (by decide) (by decide)
    (by simp only [after_read_rsched_length]; omega)
  refine ⟨k, h1, ?_⟩
  rw [hk]
  simp only [List.length_nil, after_read_after_read, after_recv]

theorem update_socket_reopen (host : Host) (fuel : Nat) (running : Bool) (d : debug_remote)
    (rest : List Nat) (hr : receives d [] rest) (hf : d.m_socket.rsched.length + 2 ≤ fuel) :
    ∃ k, update_socket host fuel running d =
      if d.m_socket.listen_ok = true then
        .ok { after_recv d [] k with
          m_socket := { (after_recv d [] k).m_socket with
            is_open := true, port := some d.m_debugger_port,
            opens := d.m_socket.opens + 1, closes := d.m_socket.closes + 1 } }
      else .error .fatal := by
  obtain ⟨k, h1, h2⟩ := zero_frame_of_receives fuel d rest hr hf
  refine ⟨1 + k, ?_⟩
  unfold update_socket
  rw [h1]
  simp only [hr.1, Bool.true_eq_false, if_false]
  rw [h2]
  simp only [if_true, emu_file.open, emu_file.close]
  have hlo : (after_recv d [] (1 + k)).m_socket.listen_ok = d.m_socket.listen_ok := rfl
  rw [hlo]
  cases hl : d.m_socket.listen_ok with
  | true => rfl
  | false => rfl

theorem not_zero_frame_of_read (fuel : Nat) (d : debug_remote) (bytes : List Nat)
    (s1 : emu_file) (hr : d.m_socket.read 1 = (bytes, s1))
    (h : bytes = [] ∨ ∃ first n d2, bytes = [first] ∧ n ≠ 0 ∧
      recv fuel { d with m_socket := s1 } first = .ok (n, d2)) :
    ¬ zero_frame fuel d := by
  rintro ⟨first, s1', d2, hread, hrecv⟩
  rw [hr] at hread
  simp only [Prod.mk.injEq] at hread
  obtain ⟨hb, hs⟩ := hread
  subst hs
  rcases h with hnil | ⟨f, n, d3, hb2, hn, hrecv2⟩
  · rw [hnil] at hb; cases hb
  · rw [hb2] at hb
    simp only [List.cons.injEq, and_true] at hb
    subst hb
    rw [hrecv] at hrecv2
    simp only [Except.ok.injEq, Prod.mk.injEq] at hrecv2
    exact hn hrecv2.1.symm

/-- What any returning call of `update_socket` on an open socket does to the
socket resource. -/
theorem update_socket_link (host : Host) (fuel : Nat) (running : Bool) (d d1 : debug_remote)
    (hopen : d.m_socket.is_open = true) (h : update_socket host fuel running d = .ok d1) :
    (zero_frame fuel d ∧ d1.m_socket.is_open = true ∧
      d1.m_socket.closes = d.m_socket.closes + 1 ∧ d1.m_socket.opens = d.m_socket.opens + 1 ∧
      d1.m_socket.port = some d.m_debugger_port ∧ d1.m_socket.out = d.m_socket.out) ∨
    (¬ zero_frame fuel d ∧ d1.m_socket.link = d.m_socket.link) := by
  unfold update_socket at h
  rw [if_neg (by rw [hopen]; decide)] at h
  have hlen := read_length_le d.m_socket 1
  have hl := read_link d.m_socket 1
  have ho := read_out d.m_socket 1
  rcases hr : d.m_socket.read 1 with ⟨bytes, s1⟩
  rw [hr] at h hlen hl ho
  simp only at h hlen hl ho
  cases bytes with
  | nil =>
    simp only at h
    cases h
    exact Or.inr ⟨not_zero_frame_of_read fuel d [] s1 hr (Or.inl rfl), hl⟩
  | cons first tl =>
    have htl : tl = [] := by
      cases tl with
      | nil => rfl
      | cons a as => simp at hlen
    subst htl
    simp only at h
    cases hrecv : recv fuel { d with m_socket := s1 } first with
    | error e => rw [hrecv] at h; cases h
    | ok r =>
      obtain ⟨clength, d2⟩ := r
      rw [hrecv] at h
      simp only at h
      obtain ⟨k1, k2, k3⟩ := recv_keeps _ _ _ _ _ hrecv
      simp only at k1 k2 k3
      obtain ⟨l1, l2, l3, l4, l5⟩ := link_fields _ _ (k1.trans hl)
      by_cases hz : clength = 0
      · subst hz
        simp only [if_true, emu_file.open, emu_file.close] at h
        split at h
        · rename_i hlisten
          simp only [Bool.false_eq_true, if_false, Except.ok.injEq] at h
          subst h
          refine Or.inl ⟨⟨first, s1, d2, hr, hrecv⟩, rfl, ?_, ?_, ?_, ?_⟩
          · simp only [l5]
          · simp only [l4]
          · simp only [k3]
          · exact k2.trans ho
        · simp at h
      · rw [if_neg hz] at h
        have hsw := update_socket_switch_link _ _ _ _ _ _ h
        exact Or.inr ⟨not_zero_frame_of_read fuel d [first] s1 hr
          (Or.inr ⟨first, clength, d2, rfl, hz, hrecv⟩), (hsw.trans k1).trans hl⟩

/-- C13 (reopen exactly on a zero-length frame): for one call of
`update_socket` on an open socket that returns, the socket was closed once and
opened once again, on the configured port and without a reply byte, if and
only if a first byte was available and `recv` decoded the frame length 0; in
every other case it was neither closed nor opened; in both cases it is open
afterwards.  When a zero-length frame arrives the call does return, provided
the port can be bound again; if it cannot, the call ends in `fatalerror`. -/
theorem C13_reopen_iff_zero_length (host : Host) (fuel : Nat) (running : Bool)
    (d : debug_remote) (hopen : d.m_socket.is_open = true) :
    (∀ d1, update_socket host fuel running d = .ok d1 →
      d1.m_socket.is_open = true ∧
      ((d1.m_socket.closes = d.m_socket.closes + 1 ∧ d1.m_socket.opens = d.m_socket.opens + 1)
        ↔ zero_frame fuel d) ∧
      (zero_frame fuel d →
        d1.m_socket.port = some d.m_debugger_port ∧ d1.m_socket.out = d.m_socket.out) ∧
      (¬ zero_frame fuel d →
        d1.m_socket.closes = d.m_socket.closes ∧ d1.m_socket.opens = d.m_socket.opens ∧
        d1.m_socket.port = d.m_socket.port)) ∧
    (∀ rest, receives d [] rest → d.m_socket.rsched.length + 2 ≤ fuel →
      zero_frame fuel d ∧
      (d.m_socket.listen_ok = true → ∃ d1, update_socket host fuel running d = .ok d1) ∧
      (d.m_socket.listen_ok = false → update_socket host fuel running d = .error .fatal)) := by
  constructor
  · intro d1 h
    rcases update_socket_link host fuel running d d1 hopen h with
      ⟨hz, h1, h2, h3, h4, h5⟩ | ⟨hnz, hlink⟩
    · exact ⟨h1, ⟨fun _ => hz, fun _ => ⟨h2, h3⟩⟩, fun _ => ⟨h4, h5⟩, fun hn => absurd hz hn⟩
    · obtain ⟨l1, l2, l3, l4, l5⟩ := link_fields _ _ hlink
      refine ⟨l1.trans hopen, ⟨fun hc => ?_, fun hz => absurd hz hnz⟩,
        fun hz => absurd hz hnz, fun _ => ⟨l5, l4, l3⟩⟩
      omega
  · intro rest hr hf
    obtain ⟨k, h1, h2⟩ := zero_frame_of_receives fuel d rest hr hf
    obtain ⟨j, hj⟩ := update_socket_reopen host fuel running d rest hr hf
    refine ⟨⟨0, _, _, h1, h2⟩, ?_, ?_⟩
    · intro hl
      rw [hj, if_pos hl]
      exact ⟨_, rfl⟩
    · intro hl
      rw [hj, if_neg (by rw [hl]; decide)]

/-! ## Status after a reopen -/

/-- The whole effect of a '?' request. -/
theorem update_socket_status_ok (host : Host) (fuel : Nat) (running : Bool) (d : debug_remote)
    (payload rest : List Nat) (hr : receives d payload rest)
    (hop : payload.head? = some 63)
    (hf : d.m_socket.rsched.length + d.m_socket.wsched.length + 2 ≤ fuel) :
    ∃ k k1, update_socket host fuel running d = .ok
      { after_recv d payload k with
        m_socket := (after_recv d payload k).m_socket.after_write (status_reply_spec running) k1 } := by
  obtain ⟨k, hk⟩ := update_socket_frame host fuel running d payload rest hr
    (ne_nil_of_head _ _ hop) (by omega)
  have hop0 := after_recv_buffer_zero d payload k 63 hop
  obtain ⟨k2, hk2⟩ := send_data_ok fuel (after_recv d payload k).m_socket
    (if running then [89, 0] else [78, 0]) 1 (by rw [after_recv_wsched]; omega)
  refine ⟨k, k2, ?_⟩
  rw [hk, switch_status _ _ _ _ _ hop0, case_status, hk2]
  cases running <;> rfl

/-- C14 (status after reopen): when `update_socket` takes a zero-length frame
and the port can be bound again, the call returns with the socket reopened and
nothing written; when the next call finds a '?' frame it returns after writing
exactly the status reply of the specification, 00 01 'Y' or 00 01 'N' according
to `running`; a '?' frame on any other connection (one that was never
reopened) yields the same bytes. -/
theorem C14_status_after_reopen (host : Host) (fuel : Nat) (r1 running : Bool)
    (d other : debug_remote) (payload rest rest2 : List Nat)
    (hr : receives d [] (frame payload ++ rest))
    (hlisten : d.m_socket.listen_ok = true)
    (hop : payload.head? = some 63) (hN : payload.length ≤ 65535)
    (hnext : ∀ d1, update_socket host fuel r1 d = .ok d1 → d1.m_socket.rsched.head? ≠ some 0)
    (hother : receives other payload rest2)
    (hf : d.m_socket.rsched.length + d.m_socket.wsched.length + 2 ≤ fuel)
    (hf2 : other.m_socket.rsched.length + other.m_socket.wsched.length + 2 ≤ fuel) :
    ∃ d1 d2 o2, update_socket host fuel r1 d = .ok d1 ∧
      d1.m_socket.closes = d.m_socket.closes + 1 ∧ d1.m_socket.opens = d.m_socket.opens + 1 ∧
      d1.m_socket.out = d.m_socket.out ∧
      update_socket host fuel running d1 = .ok d2 ∧
      d2.m_socket.out = d1.m_socket.out ++ status_reply_spec running ∧
      update_socket host fuel running other = .ok o2 ∧
      o2.m_socket.out = other.m_socket.out ++ status_reply_spec running ∧
      status_reply_spec running = [0, 1, if running then 89 else 78] := by
  obtain ⟨k, hk⟩ := update_socket_reopen host fuel r1 d (frame payload ++ rest) hr (by omega)
  rw [if_pos hlisten] at hk
  have hhead := hnext _ hk
  have hinp := after_recv_inp d [] (frame payload ++ rest) k hr
  generalize hd1 : ({ after_recv d [] k with
          m_socket := { (after_recv d [] k).m_socket with
            is_open := true, port := some d.m_debugger_port,
            opens := d.m_socket.opens + 1, closes := d.m_socket.closes + 1 } }
      : debug_remote) = d1 at hk hhead
  have hsock : d1.m_socket = { (after_recv d [] k).m_socket with
            is_open := true, port := some d.m_debugger_port,
            opens := d.m_socket.opens + 1, closes := d.m_socket.closes + 1 } := by rw [← hd1]
  have hr1 : receives d1 payload rest := by
    refine ⟨?_, hhead, hN, ?_⟩
    · rw [hsock]
    · rw [hsock]
      exact hinp
  have hf1 : d1.m_socket.rsched.length + d1.m_socket.wsched.length + 2 ≤ fuel := by
    have h3 : d1.m_socket.rsched.length ≤ d.m_socket.rsched.length := by
      rw [hsock]
      exact after_recv_rsched_length d [] k
    have h4 : d1.m_socket.wsched = d.m_socket.wsched := by
      rw [hsock]
      rfl
    rw [h4]
    omega
  obtain ⟨j, j1, h2⟩ := update_socket_status_ok host fuel running d1 payload rest hr1 hop hf1
  obtain ⟨i, i1, h3⟩ := update_socket_status_ok host fuel running other payload rest2 hother
    hop hf2
  refine ⟨d1, _, _, hk, ?_, ?_, ?_, h2, ?_, h3, ?_, ?_⟩
  · rw [hsock]
  · rw [hsock]
  · rw [hsock]
    rfl
  · simp [emu_file.after_write, after_recv_out]
  · simp [emu_file.after_write, after_recv_out]
  · cases running <;> rfl

/-! ## Replies and their headers -/

/-- The whole effect of an 'm' request that parses and translates, for every
length: the `int` handed to `send_space` is the length modulo `2 ^ 32`. -/
theorem update_socket_m_any (host : Host) (fuel : Nat) (running : Bool) (d : debug_remote)
    (payload rest : List Nat) (address length space offset : Nat)
    (hr : receives d payload rest) (hop : payload.head? = some 109)
    (hparse : sscanf_x_x (request_text payload 1) = some (address, length))
    (htr : host.translate AS_PROGRAM Intent.TR_READ (address % 2 ^ 32) = some (space, offset))
    (hw : writes_transfer d.m_socket)
    (hf : d.m_socket.rsched.length + d.m_socket.wsched.length + length % 2 ^ 32 + 2 ≤ fuel) :
    ∃ k k1, update_socket host fuel running d = .ok
      { after_recv d payload k with
        m_socket := (after_recv d payload k).m_socket.after_write
          (u16 (length % 2 ^ 32) ++ space_bytes d.memory space offset (length % 2 ^ 32)) k1,
        calls := d.calls ++ [Call.translate AS_PROGRAM Intent.TR_READ (address % 2 ^ 32)]
          ++ read_calls space offset (length % 2 ^ 32) } := by
  obtain ⟨k, hk⟩ := update_socket_frame host fuel running d payload rest hr
    (ne_nil_of_head _ _ hop) (by omega)
  have hop0 := after_recv_buffer_zero d payload k 109 hop
  have hcs := after_recv_c_str d payload k 1 (length_pos_of_head _ _ hop) hr.2.2.1
  obtain ⟨k1, hk1⟩ := send_space_ok fuel
    { after_recv d payload k with
      calls := (after_recv d payload k).calls
        ++ [Call.translate AS_PROGRAM Intent.TR_READ (address % 2 ^ 32)] }
    space offset (length % 2 ^ 32) hw (by simp only [after_recv_wsched]; omega)
  refine ⟨k, k1, ?_⟩
  rw [hk, switch_m _ _ _ _ _ hop0, case_m, hcs]
  simp only
  rw [hparse]
  simp only
  rw [htr]
  exact hk1

theorem send_view_ok_int (host : Host) (fuel : Nat) (d : debug_remote) (k : ViewKind)
    (x y w h : Int) (hp0 : 0 ≤ wrap32 (w * h)) (hsz : 2 * wrap32 (w * h) ≤ 65535)
    (hwt : writes_transfer d.m_socket)
    (hn : (wrap32 (w * h)).toNat ≤ (host.viewdata k
      { d.view k with visible_size := (w, h), visible_position := (x, y) }).length)
    (hf : d.m_socket.wsched.length < fuel) :
    ∃ j, send_view host fuel d k x y w h = .ok
      { d.set_view k { d.view k with visible_size := (w, h), visible_position := (x, y) } with
        calls := d.calls ++ [Call.set_visible_size k w h, Call.set_visible_position k x y,
          Call.viewdata k],
        m_socket := d.m_socket.after_write (u16 (2 * wrap32 (w * h)).toNat ++ cell_bytes
          ((host.viewdata k { d.view k with visible_size := (w, h), visible_position := (x, y) }).take
            (wrap32 (w * h)).toNat)) j } := by
  have e2 : wrap32 (wrap32 (w * h) * 2) = wrap32 (w * h) * 2 :=
    wrap32_small _ (by omega) (by omega)
  have e3 : (wrap32 (w * h) * 2 % 2 ^ 32).toNat = (2 * wrap32 (w * h)).toNat := by
    congr 1
    omega
  obtain ⟨j1, h1⟩ := send_size_ok fuel d.m_socket (2 * wrap32 (w * h)).toNat hf
  obtain ⟨j2, h2⟩ := send_view_loop_ok (wrap32 (w * h)).toNat
    (d.m_socket.after_write (u16 (2 * wrap32 (w * h)).toNat) j1)
    (host.viewdata k { d.view k with visible_size := (w, h), visible_position := (x, y) })
    (writes_transfer_after_write _ _ _ hwt) hn
  refine ⟨j1 + j2, ?_⟩
  unfold send_view
  simp only [e2, e3, set_view_m_socket, h1, h2, after_write_after_write]

/-- The reply to a 'v' request that is accepted, when the `int` product `w * h`
is not negative and twice the product fits 16 bits. -/
theorem update_socket_v_ok (host : Host) (fuel : Nat) (running : Bool) (d : debug_remote)
    (kind : Nat) (text rest : List Nat) (vk : ViewKind) (x y w h : Int)
    (hr : receives d (118 :: kind :: text) rest)
    (hkind : (kind = 100 ∧ vk = ViewKind.DVT_DISASSEMBLY) ∨ (kind = 115 ∧ vk = ViewKind.DVT_STATE))
    (hparse : sscanf_d_d_d_d (request_text (118 :: kind :: text) 2) = some (x, y, w, h))
    (hp0 : 0 ≤ wrap32 (w * h)) (hsz : 2 * wrap32 (w * h) ≤ 65535)
    (hwt : writes_transfer d.m_socket)
    (hn : (wrap32 (w * h)).toNat ≤ (host.viewdata vk
      { expression := if kind = 100 then "curpc" else (d.view vk).expression,
        visible_size := (w, h), visible_position := (x, y) }).length)
    (hf : d.m_socket.rsched.length + d.m_socket.wsched.length + 2 ≤ fuel) :
    ∃ d1, update_socket host fuel running d = .ok d1 ∧
      d1.m_socket.out = d.m_socket.out ++ (u16 (2 * wrap32 (w * h)).toNat ++ cell_bytes
        ((host.viewdata vk
          { expression := if kind = 100 then "curpc" else (d.view vk).expression,
            visible_size := (w, h), visible_position := (x, y) }).take (wrap32 (w * h)).toNat)) := by
  obtain ⟨k, hk⟩ := update_socket_frame host fuel running d (118 :: kind :: text) rest hr
    (by simp) (by omega)
  have hop0 := after_recv_buffer_zero d (118 :: kind :: text) k 118 rfl
  have hcs := after_recv_c_str d (118 :: kind :: text) k 2 (by simp) hr.2.2.1
  have hb1 := after_recv_buffer_one d 118 kind text k
  rw [hk, switch_v _ _ _ _ _ hop0, case_v, hcs]
  simp only
  rw [hparse]
  simp only [hb1]
  rcases hkind with ⟨hk100, hvk⟩ | ⟨hk115, hvk⟩
  · subst hk100 hvk
    simp only [if_true] at hn ⊢
    obtain ⟨j, hj⟩ := send_view_ok_int host fuel
      { after_recv d (118 :: 100 :: text) k with
        m_disasm_view := { (after_recv d (118 :: 100 :: text) k).m_disasm_view with
          expression := "curpc" },
        calls := (after_recv d (118 :: 100 :: text) k).calls
          ++ [Call.set_expression ViewKind.DVT_DISASSEMBLY "curpc"] }
      ViewKind.DVT_DISASSEMBLY x y w h hp0 hsz hwt hn
      (by simp only [after_recv_wsched]; omega)
    rw [hj]
    refine ⟨_, rfl, ?_⟩
    simp [emu_file.after_write, after_recv_out, debug_remote.view]
  · subst hk115 hvk
    simp only [show (115 : Nat) ≠ 100 by decide, if_false] at hn ⊢
    obtain ⟨j, hj⟩ := send_view_ok_int host fuel (after_recv d (118 :: 115 :: text) k)
      ViewKind.DVT_STATE x y w h hp0 hsz hwt hn
      (by simp only [after_recv_wsched]; omega)
    rw [hj]
    refine ⟨_, rfl, ?_⟩
    simp [emu_file.after_write, after_recv_out, debug_remote.view]
    rfl

theorem cell_bytes_length (cells : List debug_view_char) :
    (cell_bytes cells).length = 2 * cells.length := by
  induction cells with
  | nil => rfl
  | cons c cs ih => rw [cell_bytes_cons]; simp [ih]; omega

/-- C15 (memory read and write retry): `send_space` fetches the byte and
advances the offset before it tries the write, so a zero-byte write loses the
byte.  For 4 bytes from offset 16 of a space holding 17, 18, 19, 20, 21 there,
with the first data write transferring nothing, the peer gets the header 00 04
and then 18 19 20 21, not 17 18 19 20; five `read_byte` calls are made. -/
theorem C15_send_space_skips_bytes :
    space_bytes (sample_state [] [] [1, 1, 0]).memory 1 16 4 = [17, 18, 19, 20] ∧
    observe (send_space 16 (sample_state [] [] [1, 1, 0]) 1 16 4)
      = some ([0, 4, 18, 19, 20, 21], [],
          [Call.read_byte 1 16, Call.read_byte 1 17, Call.read_byte 1 18, Call.read_byte 1 19,
            Call.read_byte 1 20]) ∧
    observe (update_socket sample_host 16 false
        (sample_state [0, 5, 109, 49, 48, 44, 52] [] [1, 1, 0]))
      = some ([0, 4, 18, 19, 20, 21], [],
          [Call.translate 0 Intent.TR_READ 16,
            Call.read_byte 1 16, Call.read_byte 1 17, Call.read_byte 1 18, Call.read_byte 1 19,
            Call.read_byte 1 20]) := by
  decide

/-- C16 (view snapshot and write retry): `send_view` writes the two bytes of
a cell with `m_socket.write` and ignores the result.  For the rectangle
0,0,2,1 over the cells (1,'A'), (2,'B'), with the first cell write
transferring nothing, the peer gets the header 00 04 and then only the three
bytes 41 02 42: the attribute byte 01 is lost. -/
theorem C16_send_view_loses_bytes :
    sample_host.viewdata ViewKind.DVT_DISASSEMBLY
        { expression := "curpc", visible_size := (2, 1), visible_position := (0, 0) }
      = [⟨65, 1⟩, ⟨66, 2⟩] ∧
    observe (send_view sample_host 16 (sample_state [] [] [1, 1, 0])
        ViewKind.DVT_STATE 0 0 2 1)
      = some ([0, 4, 65, 2, 66], [],
          [Call.set_visible_size ViewKind.DVT_STATE 2 1,
            Call.set_visible_position ViewKind.DVT_STATE 0 0,
            Call.viewdata ViewKind.DVT_STATE]) ∧
    observe (update_socket sample_host 16 false
        (sample_state [0, 9, 118, 100, 48, 44, 48, 44, 50, 44, 49] [] [1, 1, 0]))
      = some ([0, 4, 65, 2, 66], [],
          [Call.set_expression ViewKind.DVT_DISASSEMBLY "curpc",
            Call.set_visible_size ViewKind.DVT_DISASSEMBLY 2 1,
            Call.set_visible_position ViewKind.DVT_DISASSEMBLY 0 0,
            Call.viewdata ViewKind.DVT_DISASSEMBLY]) := by
  decide

/-- C17, as stated, fails: the header carries the low 16 bits of an `int`
that the parser does not bound.  The accepted request "vd0,0,-1,1" is answered
with the header FF FE (65534) and no payload byte; the accepted request
"m0,10000" is answered with the header 00 00 followed by 65536 payload
bytes. -/
theorem C17_header_mismatch :
    sscanf_d_d_d_d (request_text [118, 100, 48, 44, 48, 44, 45, 49, 44, 49] 2)
      = some (0, 0, -1, 1) ∧
    observe (update_socket sample_host 16 false
        (sample_state [0, 10, 118, 100, 48, 44, 48, 44, 45, 49, 44, 49] [] []))
      = some ([255, 254], [],
          [Call.set_expression ViewKind.DVT_DISASSEMBLY "curpc",
            Call.set_visible_size ViewKind.DVT_DISASSEMBLY (-1) 1,
            Call.set_visible_position ViewKind.DVT_DISASSEMBLY 0 0,
            Call.viewdata ViewKind.DVT_DISASSEMBLY]) ∧
    sscanf_x_x (request_text [109, 48, 44, 49, 48, 48, 48, 48] 1) = some (0, 65536) ∧
    ∃ d1, update_socket sample_host 65540 false
        (sample_state [0, 8, 109, 48, 44, 49, 48, 48, 48, 48] [] []) = .ok d1 ∧
      d1.m_socket.out.take 2 = [0, 0] ∧ d1.m_socket.out.length = 2 + 65536 := by
  refine ⟨by decide, by decide, by decide, ?_⟩
  have hr : receives (sample_state [0, 8, 109, 48, 44, 49, 48, 48, 48, 48] [] [])
      [109, 48, 44, 49, 48, 48, 48, 48] [] := by
    unfold receives; decide
  obtain ⟨k, k1, h⟩ := update_socket_m_any sample_host 65540 false _
    [109, 48, 44, 49, 48, 48, 48, 48] [] 0 65536 1 0 hr rfl (by decide) (by decide)
    (by unfold writes_transfer; decide) (by decide)
  refine ⟨_, h, ?_, ?_⟩
  · simp only [emu_file.after_write, after_recv_out]
    rfl
  · simp only [emu_file.after_write, after_recv_out, List.length_append, space_bytes_length]
    rfl

/-- C17, amended: on a connection where every write transfers its byte, an
'm' request that parses and translates and whose length, as the 32 bit `int`
handed to `send_space`, is at most 65535 (so every length up to 0xFFFF), and a
'v' request with kind 'd' or 's' whose rectangle parses, whose `int` product
`w * h` is not negative with `2 * w * h ≤ 65535` and whose view renders that
many cells, are answered with a single frame: a header `u16(N)` with
`N ≤ 65535` followed by exactly `N` payload bytes. -/
theorem C17_reply_well_formed (host : Host) (fuel : Nat) (running : Bool) (d : debug_remote)
    (payload rest : List Nat)
    (hr : receives d payload rest) (hwt : writes_transfer d.m_socket)
    (hreq :
      (payload.head? = some 109 ∧ ∃ address length space offset,
        sscanf_x_x (request_text payload 1) = some (address, length) ∧
        host.translate AS_PROGRAM Intent.TR_READ (address % 2 ^ 32) = some (space, offset) ∧
        length % 2 ^ 32 ≤ 65535) ∨
      (∃ kind text vk x y w h, payload = 118 :: kind :: text ∧
        ((kind = 100 ∧ vk = ViewKind.DVT_DISASSEMBLY) ∨ (kind = 115 ∧ vk = ViewKind.DVT_STATE)) ∧
        sscanf_d_d_d_d (request_text payload 2) = some (x, y, w, h) ∧
        0 ≤ wrap32 (w * h) ∧ 2 * wrap32 (w * h) ≤ 65535 ∧
        (wrap32 (w * h)).toNat ≤ (host.viewdata vk
          { expression := if kind = 100 then "curpc" else (d.view vk).expression,
            visible_size := (w, h), visible_position := (x, y) }).length))
    (hf : d.m_socket.rsched.length + d.m_socket.wsched.length + 65537 ≤ fuel) :
    ∃ d1 N data, update_socket host fuel running d = .ok d1 ∧
      d1.m_socket.out = d.m_socket.out ++ (u16 N ++ data) ∧ N ≤ 65535 ∧ data.length = N := by
  rcases hreq with ⟨hop, address, length, space, offset, hparse, htr, hlen⟩ |
    ⟨kind, text, vk, x, y, w, h, hpay, hkind, hparse, hp0, hsz, hn⟩
  · obtain ⟨k, k1, h1⟩ := update_socket_m_any host fuel running d payload rest address length
      space offset hr hop hparse htr hwt (by omega)
    exact ⟨_, length % 2 ^ 32, space_bytes d.memory space offset (length % 2 ^ 32), h1, rfl,
      hlen, space_bytes_length _ _ _ _⟩
  · subst hpay
    obtain ⟨d1, h1, h2⟩ := update_socket_v_ok host fuel running d kind text rest vk x y w h
      hr hkind hparse hp0 hsz hwt hn (by omega)
    refine ⟨d1, (2 * wrap32 (w * h)).toNat, _, h1, h2, by omega, ?_⟩
    rw [cell_bytes_length, List.length_take, Nat.min_eq_left hn]
    omega

/-- C17 amended, at the request "vs0,0,2,1" on the sample views. -/
theorem C17_reply_well_formed_witness :
    receives (sample_state [0, 9, 118, 115, 48, 44, 48, 44, 50, 44, 49] [] [])
      [118, 115, 48, 44, 48, 44, 50, 44, 49] [] ∧
    writes_transfer (sample_state [0, 9, 118, 115, 48, 44, 48, 44, 50, 44, 49] [] []).m_socket ∧
    sscanf_d_d_d_d (request_text [118, 115, 48, 44, 48, 44, 50, 44, 49] 2)
      = some (0, 0, 2, 1) ∧
    ∃ d1 N data, update_socket sample_host 65560 true
        (sample_state [0, 9, 118, 115, 48, 44, 48, 44, 50, 44, 49] [] []) = .ok d1 ∧
      d1.m_socket.out
        = (sample_state [0, 9, 118, 115, 48, 44, 48, 44, 50, 44, 49] [] []).m_socket.out
          ++ (u16 N ++ data) ∧
      N ≤ 65535 ∧ data.length = N :=
  have h : receives (sample_state [0, 9, 118, 115, 48, 44, 48, 44, 50, 44, 49] [] [])
      [118, 115, 48, 44, 48, 44, 50, 44, 49] [] := by
    unfold receives; decide
  have hw : writes_transfer
      (sample_state [0, 9, 118, 115, 48, 44, 48, 44, 50, 44, 49] [] []).m_socket := by
    unfold writes_transfer; decide
  have hp : sscanf_d_d_d_d (request_text [118, 115, 48, 44, 48, 44, 50, 44, 49] 2)
      = some (0, 0, 2, 1) := by decide
  ⟨h, hw, hp, C17_reply_well_formed sample_host 65560 true _
    [118, 115, 48, 44, 48, 44, 50, 44, 49] [] h hw
    (Or.inr ⟨115, [48, 44, 48, 44, 50, 44, 49], ViewKind.DVT_STATE, 0, 0, 2, 1, rfl,
      Or.inr ⟨rfl, rfl⟩, hp, by decide, by decide, by decide⟩)
    (by decide)⟩

/-! ## The command handed to the console -/

theorem send_lines_returns (fuel n i : Nat) (d : debug_remote)
    (hi : i + n ≤ d.textbuf.length) (hf : d.m_socket.wsched.length + 2 ≤ fuel) :
    ∃ bytes k, send_lines fuel n i d = .ok
      { d with m_socket := d.m_socket.after_write bytes k } := by
  induction n generalizing i d with
  | zero =>
    refine ⟨[], 0, ?_⟩
    cases d
    simp [send_lines, after_write_zero]
  | succ m ih =>
    have hlt : i < d.textbuf.length := by omega
    obtain ⟨k1, h1⟩ := send_data_ok fuel d.m_socket d.textbuf[i] (strlen d.textbuf[i] % 2 ^ 32) hf
    obtain ⟨bytes, k2, h2⟩ := ih (i + 1)
      { d with
        m_socket := d.m_socket.after_write
          (u16 (strlen d.textbuf[i] % 2 ^ 32)
            ++ d.textbuf[i].take (strlen d.textbuf[i] % 2 ^ 32)) k1 }
      (by simp only; omega) (by simp only [after_write_wsched_length]; omega)
    refine ⟨(u16 (strlen d.textbuf[i] % 2 ^ 32)
      ++ d.textbuf[i].take (strlen d.textbuf[i] % 2 ^ 32)) ++ bytes, k1 + k2, ?_⟩
    rw [send_lines]
    simp only [List.get?_eq_getElem?, List.getElem?_eq_getElem hlt]
    rw [h1]
    simp only
    rw [h2]
    simp only [after_write_after_write]

/-- C18 (execute forwards the exact command text): when an 'x' frame of
length N ≥ 1 is received, `update_socket` returns; the calls made on the
console are `text_buffer_clear` and then `execute_command` with exactly the
N - 1 bytes at the payload positions 1 .. N - 1, whatever these bytes are (NUL
bytes included, no byte when N = 1); the transcript afterwards holds only what
this command printed. -/
theorem C18_execute_command_text (host : Host) (fuel : Nat) (running : Bool) (d : debug_remote)
    (payload rest : List Nat) (hr : receives d payload rest)
    (hop : payload.head? = some 120)
    (hf : d.m_socket.rsched.length + d.m_socket.wsched.length + 2 ≤ fuel) :
    ∃ d1, update_socket host fuel running d = .ok d1 ∧
      d1.calls = d.calls ++ [Call.text_buffer_clear, Call.execute_command (payload.drop 1)] ∧
      (payload.drop 1).length = payload.length - 1 ∧
      (payload.length = 1 → payload.drop 1 = []) ∧
      d1.textbuf = host.execute_command (payload.drop 1) := by
  obtain ⟨k, hk⟩ := update_socket_frame host fuel running d payload rest hr
    (ne_nil_of_head _ _ hop) (by omega)
  have hop0 := after_recv_buffer_zero d payload k 120 hop
  have hcmd : buffer_slice (after_recv d payload k).buffer 1 (payload.length - 1)
      = payload.drop 1 := buffer_slice_recv _ _ _
  suffices hmain : ∃ d1, update_socket host fuel running d = .ok d1 ∧
      d1.calls = d.calls ++ [Call.text_buffer_clear, Call.execute_command (payload.drop 1)] ∧
      d1.textbuf = host.execute_command (payload.drop 1) by
    obtain ⟨d1, h1, h2, h3⟩ := hmain
    refine ⟨d1, h1, h2, by simp, ?_, h3⟩
    intro h1
    apply List.eq_nil_of_length_eq_zero
    simp [h1]
  rw [hk, switch_x _ _ _ _ _ hop0, case_x]
  simp only [hcmd, List.nil_append]
  have hle : (host.execute_command (payload.drop 1)).length % 2 ^ 32
      ≤ (host.execute_command (payload.drop 1)).length := Nat.mod_le _ _
  split
  · obtain ⟨k1, hk1⟩ := send_size_ok fuel (after_recv d payload k).m_socket
      ((host.execute_command (payload.drop 1)).length % 2 ^ 32)
      (by simp only [after_recv_wsched]; omega)
    rw [hk1]
    simp only
    obtain ⟨bytes, k2, hk2⟩ := send_lines_returns fuel
      ((host.execute_command (payload.drop 1)).length % 2 ^ 32) 0
      { after_recv d payload k with
        m_socket := (after_recv d payload k).m_socket.after_write
          (u16 ((host.execute_command (payload.drop 1)).length % 2 ^ 32)) k1,
        textbuf := host.execute_command (payload.drop 1),
        calls := (after_recv d payload k).calls ++ [Call.text_buffer_clear]
          ++ [Call.execute_command (payload.drop 1)] }
      (by simp only; omega) (by simp only [after_write_wsched_length, after_recv_wsched]; omega)
    rw [hk2]
    refine ⟨_, rfl, ?_, rfl⟩
    simp [after_recv]
  · obtain ⟨k2, hk2⟩ := reply_empty_ok fuel
      { after_recv d payload k with
        textbuf := host.execute_command (payload.drop 1),
        calls := (after_recv d payload k).calls ++ [Call.text_buffer_clear]
          ++ [Call.execute_command (payload.drop 1)] }
      (by simp only [after_recv_wsched]; omega)
    rw [hk2]
    refine ⟨_, rfl, ?_, rfl⟩
    simp [after_recv]

/-! ## The indices `recv` writes -/

theorem buffer_write_outside (buf : Nat → Nat) (offs : Nat) (bytes : List Nat) (i : Nat)
    (h : i < offs ∨ offs + bytes.length ≤ i) : buffer_write buf offs bytes i = buf i := by
  unfold buffer_write
  rw [if_neg (by omega)]

theorem get_byte_bounds (fuel : Nat) (d : debug_remote) :
    get_byte fuel d ≠ .error .oob ∧
    ∀ v d', get_byte fuel d = .ok (v, d') →
      v < 256 ∧ ∀ i, 1 ≤ i → d'.buffer i = d.buffer i := by
  induction fuel generalizing d with
  | zero => simp [get_byte]
  | succ n ih =>
    rw [get_byte]
    have hlen := read_length_le d.m_socket 1
    rcases hr : d.m_socket.read 1 with ⟨bytes, s1⟩
    rw [hr] at hlen
    simp only at hlen ⊢
    have hst : buffer_store d.buffer 0 bytes = .ok (buffer_write d.buffer 0 bytes) := by
      unfold buffer_store
      rw [if_pos (by simp only [BUFFER_SIZE]; omega)]
    rw [hst]
    simp only
    have hout : ∀ i, 1 ≤ i → buffer_write d.buffer 0 bytes i = d.buffer i :=
      fun i hi => buffer_write_outside _ _ _ _ (Or.inr (by omega))
    split
    · obtain ⟨h1, h2⟩ := ih { d with m_socket := s1, buffer := buffer_write d.buffer 0 bytes }
      refine ⟨h1, fun v d' h => ?_⟩
      obtain ⟨hv, hb⟩ := h2 v d' h
      exact ⟨hv, fun i hi => (hb i hi).trans (hout i hi)⟩
    · refine ⟨by simp, fun v d' h => ?_⟩
      simp only [Except.ok.injEq, Prod.mk.injEq] at h
      obtain ⟨hv, hd⟩ := h
      subst hv hd
      exact ⟨Nat.mod_lt _ (by omega), hout⟩

theorem recv_loop_bounds (fuel : Nat) (d : debug_remote) (offs toRead : Nat)
    (hb : offs + toRead ≤ BUFFER_SIZE) :
    recv_loop fuel d offs toRead ≠ .error .oob ∧
    ∀ d', recv_loop fuel d offs toRead = .ok d' →
      ∀ i, i < offs ∨ offs + toRead ≤ i → d'.buffer i = d.buffer i := by
  induction fuel generalizing d offs toRead with
  | zero => simp [recv_loop]
  | succ n ih =>
    rw [recv_loop]
    split
    · refine ⟨by simp, fun d' h => ?_⟩
      simp only [Except.ok.injEq] at h
      subst h
      exact fun _ _ => rfl
    · have hlen := read_length_le d.m_socket toRead
      rcases hr : d.m_socket.read toRead with ⟨bytes, s1⟩
      rw [hr] at hlen
      simp only at hlen ⊢
      have hst : buffer_store d.buffer offs bytes = .ok (buffer_write d.buffer offs bytes) := by
        unfold buffer_store
        rw [if_pos (by omega)]
      rw [hst]
      simp only
      have hout : ∀ i, i < offs ∨ offs + toRead ≤ i →
          buffer_write d.buffer offs bytes i = d.buffer i :=
        fun i hi => buffer_write_outside _ _ _ _ (by omega)
      split
      · obtain ⟨h1, h2⟩ := ih { d with m_socket := s1, buffer := buffer_write d.buffer offs bytes }
          offs toRead hb
        exact ⟨h1, fun d' h i hi => (h2 d' h i hi).trans (hout i hi)⟩
      · obtain ⟨h1, h2⟩ := ih { d with m_socket := s1, buffer := buffer_write d.buffer offs bytes }
          (offs + bytes.length) (toRead - bytes.length) (by omega)
        exact ⟨h1, fun d' h i hi => (h2 d' h i (by omega)).trans (hout i hi)⟩

/-- C19 (receive buffer bounds): under every pattern of reads `recv` never
stores outside the 65536 byte buffer.  When it returns, the length is
`first * 256 + second` for the two length bytes, at most 65535; the terminator
0 stands at index `length`, and no index above `length` has been written.  It
does return with that length once the second length byte and `length` payload
bytes are delivered. -/
theorem C19_recv_buffer_bounds (fuel : Nat) (d : debug_remote) (first : Nat) :
    recv fuel d first ≠ .error .oob ∧
    (∀ length d', recv fuel d first = .ok (length, d') →
      (∃ second, second < 256 ∧ length = first % 256 * 256 + second) ∧
      length ≤ 65535 ∧ length < BUFFER_SIZE ∧
      d'.buffer length = 0 ∧
      ∀ i, length < i → d'.buffer i = d.buffer i) ∧
    (∀ lo payload rest, d.m_socket.inp = lo :: (payload ++ rest) → lo < 256 →
      payload.length = first % 256 * 256 + lo → d.m_socket.rsched.length + 2 ≤ fuel →
      ∃ d', recv fuel d first = .ok (payload.length, d')) := by
  have hg := get_byte_bounds fuel d
  refine ⟨?_, ?_, ?_⟩
  · unfold recv
    split
    · rename_i e he
      intro hc
      simp only [Except.error.injEq] at hc
      subst hc
      exact hg.1 he
    · rename_i second d1 h1
      obtain ⟨hv, _⟩ := hg.2 _ _ h1
      have hfirst := Nat.mod_lt first (show 256 > 0 by omega)
      have hl := length_bytes first second hv
      rw [Nat.mod_eq_of_lt hv] at hl
      simp only
      rw [hl]
      have hst : buffer_store d1.buffer (first % 256 * 256 + second) [0]
          = .ok (buffer_write d1.buffer (first % 256 * 256 + second) [0]) := by
        unfold buffer_store
        rw [if_pos (by simp only [BUFFER_SIZE, List.length_singleton]; omega)]
      rw [hst]
      simp only
      split
      · rename_i e he
        intro hc
        simp only [Except.error.injEq] at hc
        subst hc
        exact (recv_loop_bounds fuel _ 0 _ (by simp only [BUFFER_SIZE]; omega)).1 he
      · simp
  · intro length d' h
    unfold recv at h
    split at h
    · cases h
    · rename_i second d1 h1
      obtain ⟨hv, hb1⟩ := hg.2 _ _ h1
      have hfirst := Nat.mod_lt first (show 256 > 0 by omega)
      have hl := length_bytes first second hv
      rw [Nat.mod_eq_of_lt hv] at hl
      simp only at h
      rw [hl] at h
      have hst : buffer_store d1.buffer (first % 256 * 256 + second) [0]
          = .ok (buffer_write d1.buffer (first % 256 * 256 + second) [0]) := by
        unfold buffer_store
        rw [if_pos (by simp only [BUFFER_SIZE, List.length_singleton]; omega)]
      rw [hst] at h
      simp only at h
      split at h
      · cases h
      · rename_i d2 h2
        simp only [Except.ok.injEq, Prod.mk.injEq] at h
        obtain ⟨hlen, hd⟩ := h
        subst hlen hd
        have hloop := (recv_loop_bounds fuel _ 0 _ (by simp only [BUFFER_SIZE]; omega)).2 _ h2
        refine ⟨⟨second, hv, rfl⟩, by omega, by simp only [BUFFER_SIZE]; omega, ?_, ?_⟩
        · rw [hloop _ (Or.inr (by omega))]
          simp [buffer_write]
        · intro i hi
          rw [hloop _ (Or.inr (by omega))]
          simp only
          rw [buffer_write_outside _ _ _ _ (Or.inr (by simp only [List.length_singleton]; omega))]
          exact hb1 i (by omega)
  · intro lo payload rest hin hlo hlen hf
    obtain ⟨k, hk⟩ := recv_ok fuel d first lo payload rest hin hlo hlen hf
    exact ⟨_, hk⟩

/-! ## The receive buffer and what can be observed -/

theorem set_buffer_m_socket (d : debug_remote) (b : Nat → Nat) :
    (d.set_buffer b).m_socket = d.m_socket := rfl

theorem set_buffer_buffer (d : debug_remote) (b : Nat → Nat) : (d.set_buffer b).buffer = b := rfl

theorem set_buffer_self (d : debug_remote) : d.set_buffer d.buffer = d := by
  cases d; rfl

theorem reply_empty_set_buffer (fuel : Nat) (d : debug_remote) (b : Nat → Nat) :
    reply_empty fuel (d.set_buffer b) = (reply_empty fuel d).map (fun r => r.set_buffer b) := by
  unfold reply_empty
  simp only [set_buffer_m_socket]
  cases send_size fuel d.m_socket 0 <;> rfl

theorem case_status_set_buffer (fuel : Nat) (running : Bool) (d : debug_remote)
    (b : Nat → Nat) :
    case_status fuel running (d.set_buffer b)
      = (case_status fuel running d).map (fun r => r.set_buffer b) := by
  unfold case_status
  simp only [set_buffer_m_socket]
  cases send_data fuel d.m_socket (if running = true then [89, 0] else [78, 0]) 1 <;> rfl

theorem send_space_loop_set_buffer (fuel : Nat) (d : debug_remote) (b : Nat → Nat)
    (space offset size : Nat) :
    send_space_loop fuel (d.set_buffer b) space offset size
      = (send_space_loop fuel d space offset size).map (fun r => r.set_buffer b) := by
  induction fuel generalizing d offset size with
  | zero => rfl
  | succ n ih =>
    rw [send_space_loop, send_space_loop]
    split
    · rfl
    · simp only [read_byte]
      show (match d.m_socket.write [d.memory space (offset % 2 ^ 32)] 1 with
        | (len, s1) =>
          if len = 0 then send_space_loop n
            (({ d with calls := d.calls ++ [Call.read_byte space (offset % 2 ^ 32)],
                       m_socket := s1 } : debug_remote).set_buffer b) space (offset + 1) size
          else send_space_loop n
            (({ d with calls := d.calls ++ [Call.read_byte space (offset % 2 ^ 32)],
                       m_socket := s1 } : debug_remote).set_buffer b) space (offset + 1)
            (size - len))
        = _
      rcases hw : d.m_socket.write [d.memory space (offset % 2 ^ 32)] 1 with ⟨len, s1⟩
      simp only
      split
      · exact ih _ _ _
      · exact ih _ _ _

theorem send_space_set_buffer (fuel : Nat) (d : debug_remote) (b : Nat → Nat)
    (space offset size : Nat) :
    send_space fuel (d.set_buffer b) space offset size
      = (send_space fuel d space offset size).map (fun r => r.set_buffer b) := by
  unfold send_space
  simp only [set_buffer_m_socket]
  cases send_size fuel d.m_socket size with
  | error e => rfl
  | ok s1 => exact send_space_loop_set_buffer fuel { d with m_socket := s1 } b space offset size

theorem recv_space_set_buffer (fuel : Nat) (d : debug_remote) (b : Nat → Nat)
    (space offset size : Nat) :
    recv_space fuel (d.set_buffer b) space offset size
      = (recv_space fuel d space offset size).map (fun r => r.set_buffer b) := by
  induction fuel generalizing d offset size with
  | zero => rfl
  | succ n ih =>
    rw [recv_space, recv_space]
    split
    · rfl
    · show (match d.m_socket.read 1 with
        | (bytes, s1) =>
          match bytes with
          | [] => recv_space n (({ d with m_socket := s1 } : debug_remote).set_buffer b)
              space offset size
          | c :: _ => recv_space n
              ((write_byte { d with m_socket := s1 } space offset c).set_buffer b)
              space (offset + 1) (size - bytes.length))
        = _
      rcases hr : d.m_socket.read 1 with ⟨bytes, s1⟩
      cases bytes with
      | nil => exact ih _ _ _
      | cons c cs => exact ih _ _ _

theorem send_lines_set_buffer (fuel n i : Nat) (d : debug_remote) (b : Nat → Nat) :
    send_lines fuel n i (d.set_buffer b)
      = (send_lines fuel n i d).map (fun r => r.set_buffer b) := by
  induction n generalizing i d with
  | zero => rfl
  | succ m ih =>
    rw [send_lines, send_lines]
    show (match d.textbuf.get? i with
      | none => Except.error Fault.oob
      | some line =>
        match send_data fuel d.m_socket line (strlen line % 2 ^ 32) with
        | Except.error e => Except.error e
        | Except.ok s1 => send_lines fuel m (i + 1)
            (({ d with m_socket := s1 } : debug_remote).set_buffer b))
      = _
    cases d.textbuf.get? i with
    | none => rfl
    | some line =>
      simp only
      cases send_data fuel d.m_socket line (strlen line % 2 ^ 32) with
      | error e => rfl
      | ok s1 => exact ih _ _

theorem send_view_set_buffer (host : Host) (fuel : Nat) (d : debug_remote) (b : Nat → Nat)
    (k : ViewKind) (x y w h : Int) :
    send_view host fuel (d.set_buffer b) k x y w h
      = (send_view host fuel d k x y w h).map (fun r => r.set_buffer b) := by
  unfold send_view
  cases k <;>
  · simp only [debug_remote.set_view, debug_remote.view, debug_remote.set_buffer]
    split
    · rfl
    · split <;> rfl

/-! ### The handlers read the buffer only inside the frame -/

theorem case_x_set_buffer (host : Host) (fuel : Nat) (d : debug_remote) (b : Nat → Nat)
    (n : Nat) (hs : buffer_slice b 1 (n - 1) = buffer_slice d.buffer 1 (n - 1)) :
    case_x host fuel (d.set_buffer b) n
      = (case_x host fuel d n).map (fun r => r.set_buffer b) := by
  unfold case_x
  simp only [set_buffer_buffer, hs]
  split
  · show (match send_size fuel d.m_socket _ with
      | Except.error e => Except.error e
      | Except.ok s1 => send_lines fuel _ 0 _) = _
    cases send_size fuel d.m_socket
      (([] ++ host.execute_command (buffer_slice d.buffer 1 (n - 1))).length % 2 ^ 32) with
    | error e => rfl
    | ok s1 =>
      exact send_lines_set_buffer fuel _ 0
        { d with
          m_socket := s1,
          textbuf := [] ++ host.execute_command (buffer_slice d.buffer 1 (n - 1)),
          calls := d.calls ++ [Call.text_buffer_clear]
            ++ [Call.execute_command (buffer_slice d.buffer 1 (n - 1))] } b
  · exact reply_empty_set_buffer fuel
      { d with
        textbuf := [] ++ host.execute_command (buffer_slice d.buffer 1 (n - 1)),
        calls := d.calls ++ [Call.text_buffer_clear]
          ++ [Call.execute_command (buffer_slice d.buffer 1 (n - 1))] } b

theorem case_m_set_buffer (host : Host) (fuel : Nat) (d : debug_remote) (b : Nat → Nat)
    (hs : c_str b 1 = c_str d.buffer 1) :
    case_m host fuel (d.set_buffer b) = (case_m host fuel d).map (fun r => r.set_buffer b) := by
  unfold case_m
  simp only [set_buffer_buffer, hs]
  cases c_str d.buffer 1 with
  | error e => rfl
  | ok text =>
    simp only
    cases sscanf_x_x text with
    | none => exact reply_empty_set_buffer fuel d b
    | some r =>
      obtain ⟨address, length⟩ := r
      simp only
      cases host.translate AS_PROGRAM Intent.TR_READ (address % 2 ^ 32) with
      | none =>
        exact reply_empty_set_buffer fuel
          { d with
            calls := d.calls ++ [Call.translate AS_PROGRAM Intent.TR_READ (address % 2 ^ 32)] } b
      | some t =>
        obtain ⟨tspace, offset1⟩ := t
        exact send_space_set_buffer fuel
          { d with
            calls := d.calls ++ [Call.translate AS_PROGRAM Intent.TR_READ (address % 2 ^ 32)] }
          b tspace offset1 (length % 2 ^ 32)

theorem case_p_set_buffer (host : Host) (fuel : Nat) (d : debug_remote) (b : Nat → Nat)
    (hs : c_str b 1 = c_str d.buffer 1) :
    case_p host fuel (d.set_buffer b) = (case_p host fuel d).map (fun r => r.set_buffer b) := by
  unfold case_p
  simp only [set_buffer_buffer, hs]
  cases c_str d.buffer 1 with
  | error e => rfl
  | ok text =>
    simp only
    cases sscanf_x_x text with
    | none => exact reply_empty_set_buffer fuel d b
    | some r =>
      obtain ⟨address, length⟩ := r
      simp only
      cases host.translate AS_PROGRAM Intent.TR_READ (address % 2 ^ 32) with
      | none =>
        exact reply_empty_set_buffer fuel
          { d with
            calls := d.calls ++ [Call.translate AS_PROGRAM Intent.TR_READ (address % 2 ^ 32)] } b
      | some t =>
        obtain ⟨tspace, offset1⟩ := t
        simp only [set_buffer_m_socket]
        cases send_size fuel d.m_socket (length % 2 ^ 32) with
        | error e => rfl
        | ok s1 =>
          simp only
          have hrs := recv_space_set_buffer fuel
            { d with
              calls := d.calls ++ [Call.translate AS_PROGRAM Intent.TR_READ (address % 2 ^ 32)],
              m_socket := s1 } b tspace offset1 (length % 2 ^ 32)
          simp only [debug_remote.set_buffer] at hrs ⊢
          rw [hrs]
          cases recv_space fuel
            { d with
              calls := d.calls ++ [Call.translate AS_PROGRAM Intent.TR_READ (address % 2 ^ 32)],
              m_socket := s1 } tspace offset1 (length % 2 ^ 32) with
          | error e => rfl
          | ok d2 => exact reply_empty_set_buffer fuel d2 b

/-- The case 'v' ends in the default branch when the kind byte is 0 and the
string at `buffer + 2` ends inside the array. -/
theorem case_v_kind_zero (host : Host) (fuel : Nat) (d : debug_remote) (hd : d.buffer 1 = 0)
    (hs : ∃ t, c_str d.buffer 2 = .ok t) : case_v host fuel d = reply_empty fuel d := by
  obtain ⟨t, ht⟩ := hs
  unfold case_v
  simp only [hd, ht]
  cases sscanf_d_d_d_d t with
  | none => rfl
  | some r => rfl

theorem case_v_set_buffer (host : Host) (fuel : Nat) (d : debug_remote) (b : Nat → Nat)
    (hs : (c_str b 2 = c_str d.buffer 2 ∧ b 1 = d.buffer 1) ∨
      (b 1 = 0 ∧ d.buffer 1 = 0 ∧ (∃ t, c_str b 2 = .ok t) ∧ (∃ t, c_str d.buffer 2 = .ok t))) :
    case_v host fuel (d.set_buffer b) = (case_v host fuel d).map (fun r => r.set_buffer b) := by
  rcases hs with ⟨h2, h1⟩ | ⟨hb, hd, hsb, hsd⟩
  · unfold case_v
    simp only [set_buffer_buffer, h2, h1]
    cases c_str d.buffer 2 with
    | error e => rfl
    | ok text =>
      simp only
      cases sscanf_d_d_d_d text with
      | none => exact reply_empty_set_buffer fuel d b
      | some r =>
        obtain ⟨x, y, w, h⟩ := r
        simp only
        split
        · exact send_view_set_buffer host fuel
            { d with
              m_disasm_view := { d.m_disasm_view with expression := "curpc" },
              calls := d.calls ++ [Call.set_expression ViewKind.DVT_DISASSEMBLY "curpc"] }
            b ViewKind.DVT_DISASSEMBLY x y w h
        · split
          · exact send_view_set_buffer host fuel d b ViewKind.DVT_STATE x y w h
          · exact reply_empty_set_buffer fuel d b
  · rw [case_v_kind_zero host fuel (d.set_buffer b) hb hsb, case_v_kind_zero host fuel d hd hsd]
    exact reply_empty_set_buffer fuel d b

theorem update_socket_switch_set_buffer (host : Host) (fuel : Nat) (running : Bool)
    (d : debug_remote) (b : Nat → Nat) (n : Nat)
    (h0 : b 0 = d.buffer 0)
    (hx : buffer_slice b 1 (n - 1) = buffer_slice d.buffer 1 (n - 1))
    (h1 : c_str b 1 = c_str d.buffer 1)
    (h2 : d.buffer 0 = 118 → ((c_str b 2 = c_str d.buffer 2 ∧ b 1 = d.buffer 1) ∨
      (b 1 = 0 ∧ d.buffer 1 = 0 ∧ (∃ t, c_str b 2 = .ok t) ∧ (∃ t, c_str d.buffer 2 = .ok t)))) :
    update_socket_switch host fuel running (d.set_buffer b) n
      = (update_socket_switch host fuel running d n).map (fun r => r.set_buffer b) := by
  unfold update_socket_switch
  simp only [set_buffer_buffer, h0]
  split
  · exact case_status_set_buffer fuel running d b
  · split
    · exact case_x_set_buffer host fuel d b n hx
    · split
      · exact case_m_set_buffer host fuel d b h1
      · split
        · exact case_p_set_buffer host fuel d b h1
        · split
          · rename_i hv
            exact case_v_set_buffer host fuel d b (h2 hv)
          · exact reply_empty_set_buffer fuel d b

/-- What `recv` leaves of the buffer: the terminator at the index it
returns, which is inside the array, and the bytes above it as they were. -/
theorem recv_terminator (fuel : Nat) (d : debug_remote) (first length : Nat) (d' : debug_remote)
    (h : recv fuel d first = .ok (length, d')) :
    length < BUFFER_SIZE ∧ d'.buffer length = 0 ∧
      ∀ i, length < i → d'.buffer i = d.buffer i := by
  have hg := get_byte_bounds fuel d
  unfold recv at h
  split at h
  · cases h
  · rename_i second d1 h1
    obtain ⟨hv, hb1⟩ := hg.2 _ _ h1
    have hfirst := Nat.mod_lt first (show 256 > 0 by omega)
    have hl := length_bytes first second hv
    rw [Nat.mod_eq_of_lt hv] at hl
    simp only at h
    rw [hl] at h
    have hst : buffer_store d1.buffer (first % 256 * 256 + second) [0]
        = .ok (buffer_write d1.buffer (first % 256 * 256 + second) [0]) := by
      unfold buffer_store
      rw [if_pos (by simp only [BUFFER_SIZE, List.length_singleton]; omega)]
    rw [hst] at h
    simp only at h
    split at h
    · cases h
    · rename_i d2 h2
      simp only [Except.ok.injEq, Prod.mk.injEq] at h
      obtain ⟨hlen, hd⟩ := h
      subst hlen hd
      have hloop := (recv_loop_bounds fuel _ 0 _ (by simp only [BUFFER_SIZE]; omega)).2 _ h2
      refine ⟨by simp only [BUFFER_SIZE]; omega, ?_, ?_⟩
      · rw [hloop _ (Or.inr (by omega))]
        simp [buffer_write]
      · intro i hi
        rw [hloop _ (Or.inr (by omega))]
        simp only
        rw [buffer_write_outside _ _ _ _ (Or.inr (by simp only [List.length_singleton]; omega))]
        exact hb1 i (by omega)

theorem recv_nul_from (fuel : Nat) (d : debug_remote) (first length : Nat) (d' : debug_remote)
    (h : recv fuel d first = .ok (length, d')) (hn : 2 ≤ length ∨ nul_from d.buffer 2) :
    nul_from d'.buffer 2 := by
  obtain ⟨h1, h2, h3⟩ := recv_terminator fuel d first length d' h
  by_cases hl : 2 ≤ length
  · exact ⟨length, hl, h1, h2⟩
  · rcases hn with hn | ⟨j, hj, hlt, hz⟩
    · exact absurd hn hl
    · exact ⟨j, hj, hlt, by rw [h3 j (by omega)]; exact hz⟩

/-- The handlers leave the buffer as `recv` filled it. -/
theorem update_socket_switch_buffer (host : Host) (fuel : Nat) (running : Bool)
    (d : debug_remote) (n : Nat) (d1 : debug_remote)
    (h : update_socket_switch host fuel running d n = .ok d1) : d1.buffer = d.buffer := by
  have hs := update_socket_switch_set_buffer host fuel running d d.buffer n rfl rfl rfl
    (fun _ => Or.inl ⟨rfl, rfl⟩)
  rw [set_buffer_self, h] at hs
  simp only [Except.map, Except.ok.injEq] at hs
  have hb := congrArg debug_remote.buffer hs
  rw [set_buffer_buffer] at hb
  exact hb

/-- A NUL in the buffer from index 2 on is still there after every call of
`update_socket` that returns. -/
theorem update_socket_nul_from (host : Host) (fuel : Nat) (running : Bool) (d d1 : debug_remote)
    (h : update_socket host fuel running d = .ok d1) (hn : nul_from d.buffer 2) :
    nul_from d1.buffer 2 := by
  unfold update_socket at h
  split at h
  · cases h
    exact hn
  · rcases hr : d.m_socket.read 1 with ⟨bytes, s1⟩
    rw [hr] at h
    simp only at h
    cases bytes with
    | nil =>
      simp only at h
      cases h
      exact hn
    | cons first tl =>
      simp only at h
      cases hrecv : recv fuel { d with m_socket := s1 } first with
      | error e => rw [hrecv] at h; cases h
      | ok r =>
        obtain ⟨clength, d2⟩ := r
        rw [hrecv] at h
        simp only at h
        have h2 := recv_nul_from fuel _ first clength d2 hrecv (Or.inr hn)
        split at h
        · split at h
          · cases h
          · cases h
            exact h2
        · rw [← update_socket_switch_buffer host fuel running d2 clength d1 h] at h2
          exact h2

/-- A call of `update_socket` that takes a frame of two bytes or more leaves
a NUL in the buffer from index 2 on: the terminator of that frame. -/
theorem update_socket_frame_nul_from (host : Host) (fuel : Nat) (running : Bool)
    (d d1 : debug_remote) (payload rest : List Nat)
    (hr : receives d payload rest) (h2 : 2 ≤ payload.length)
    (hf : d.m_socket.rsched.length + 2 ≤ fuel)
    (h : update_socket host fuel running d = .ok d1) : nul_from d1.buffer 2 := by
  obtain ⟨k, hk⟩ := update_socket_frame host fuel running d payload rest hr
    (by intro hc; rw [hc] at h2; simp at h2) hf
  rw [hk] at h
  rw [update_socket_switch_buffer host fuel running _ _ d1 h]
  exact recv_buffer_nul_from d.buffer _ payload hr.2.2.1 (Or.inl h2)

/-! ## The later theorems at sample inputs -/

/-- C12 at a frame with the opcode 'z'. -/
theorem C12_unknown_opcode_witness :
    receives (sample_state [0, 2, 122, 49] [] [0, 1]) [122, 49] [] ∧
    ∃ d1, update_socket sample_host 8 true (sample_state [0, 2, 122, 49] [] [0, 1]) = .ok d1 ∧
      d1.m_socket.out = (sample_state [0, 2, 122, 49] [] [0, 1]).m_socket.out ++ [0, 0] ∧
      d1.calls = (sample_state [0, 2, 122, 49] [] [0, 1]).calls ∧
      d1.memory = (sample_state [0, 2, 122, 49] [] [0, 1]).memory ∧
      d1.textbuf = (sample_state [0, 2, 122, 49] [] [0, 1]).textbuf ∧
      d1.m_disasm_view = (sample_state [0, 2, 122, 49] [] [0, 1]).m_disasm_view ∧
      d1.m_register_view = (sample_state [0, 2, 122, 49] [] [0, 1]).m_register_view ∧
      d1.m_socket.is_open = true ∧
      d1.m_socket.closes = (sample_state [0, 2, 122, 49] [] [0, 1]).m_socket.closes ∧
      d1.m_socket.opens = (sample_state [0, 2, 122, 49] [] [0, 1]).m_socket.opens :=
  have h : receives (sample_state [0, 2, 122, 49] [] [0, 1]) [122, 49] [] := by
    unfold receives; decide
  ⟨h, C12_unknown_opcode sample_host 8 true _ [122, 49] [] 122 h rfl (by decide) (by decide)⟩

/-- C13 at a socket on which a zero-length frame arrives. -/
theorem C13_reopen_iff_zero_length_witness :
    (sample_state [0, 0] [1, 0, 1] []).m_socket.is_open = true ∧
    receives (sample_state [0, 0] [1, 0, 1] []) [] [] ∧
    (∀ d1, update_socket sample_host 8 false (sample_state [0, 0] [1, 0, 1] []) = .ok d1 →
      d1.m_socket.is_open = true ∧
      ((d1.m_socket.closes = (sample_state [0, 0] [1, 0, 1] []).m_socket.closes + 1 ∧
          d1.m_socket.opens = (sample_state [0, 0] [1, 0, 1] []).m_socket.opens + 1)
        ↔ zero_frame 8 (sample_state [0, 0] [1, 0, 1] [])) ∧
      (zero_frame 8 (sample_state [0, 0] [1, 0, 1] []) →
        d1.m_socket.port = some (sample_state [0, 0] [1, 0, 1] []).m_debugger_port ∧
        d1.m_socket.out = (sample_state [0, 0] [1, 0, 1] []).m_socket.out) ∧
      (¬ zero_frame 8 (sample_state [0, 0] [1, 0, 1] []) →
        d1.m_socket.closes = (sample_state [0, 0] [1, 0, 1] []).m_socket.closes ∧
        d1.m_socket.opens = (sample_state [0, 0] [1, 0, 1] []).m_socket.opens ∧
        d1.m_socket.port = (sample_state [0, 0] [1, 0, 1] []).m_socket.port)) ∧
    (∀ rest, receives (sample_state [0, 0] [1, 0, 1] []) [] rest →
      (sample_state [0, 0] [1, 0, 1] []).m_socket.rsched.length + 2 ≤ 8 →
      zero_frame 8 (sample_state [0, 0] [1, 0, 1] []) ∧
      ((sample_state [0, 0] [1, 0, 1] []).m_socket.listen_ok = true →
        ∃ d1, update_socket sample_host 8 false (sample_state [0, 0] [1, 0, 1] []) = .ok d1) ∧
      ((sample_state [0, 0] [1, 0, 1] []).m_socket.listen_ok = false →
        update_socket sample_host 8 false (sample_state [0, 0] [1, 0, 1] [])
          = .error .fatal)) :=
  have h : receives (sample_state [0, 0] [1, 0, 1] []) [] [] := by
    unfold receives; decide
  ⟨rfl, h, C13_reopen_iff_zero_length sample_host 8 false (sample_state [0, 0] [1, 0, 1] []) rfl⟩

/-- C14 at a zero-length frame followed by a '?' frame. -/
theorem C14_status_after_reopen_witness :
    receives (sample_state [0, 0, 0, 1, 63] [1, 0, 1, 2, 0, 1] []) [] (frame [63] ++ []) ∧
    receives (sample_state [0, 1, 63] [] []) [63] [] ∧
    (∀ d1, update_socket sample_host 16 false
        (sample_state [0, 0, 0, 1, 63] [1, 0, 1, 2, 0, 1] []) = .ok d1 →
      d1.m_socket.rsched.head? ≠ some 0) ∧
    ∃ d1 d2 o2, update_socket sample_host 16 false
        (sample_state [0, 0, 0, 1, 63] [1, 0, 1, 2, 0, 1] []) = .ok d1 ∧
      d1.m_socket.closes
        = (sample_state [0, 0, 0, 1, 63] [1, 0, 1, 2, 0, 1] []).m_socket.closes + 1 ∧
      d1.m_socket.opens
        = (sample_state [0, 0, 0, 1, 63] [1, 0, 1, 2, 0, 1] []).m_socket.opens + 1 ∧
      d1.m_socket.out = (sample_state [0, 0, 0, 1, 63] [1, 0, 1, 2, 0, 1] []).m_socket.out ∧
      update_socket sample_host 16 true d1 = .ok d2 ∧
      d2.m_socket.out = d1.m_socket.out ++ status_reply_spec true ∧
      update_socket sample_host 16 true (sample_state [0, 1, 63] [] []) = .ok o2 ∧
      o2.m_socket.out = (sample_state [0, 1, 63] [] []).m_socket.out ++ status_reply_spec true ∧
      status_reply_spec true = [0, 1, if true = true then 89 else 78] :=
  have h : receives (sample_state [0, 0, 0, 1, 63] [1, 0, 1, 2, 0, 1] []) []
      (frame [63] ++ []) := by
    unfold receives; decide
  have ho : receives (sample_state [0, 1, 63] [] []) [63] [] := by
    unfold receives; decide
  have hleft : reads_left (update_socket sample_host 16 false
      (sample_state [0, 0, 0, 1, 63] [1, 0, 1, 2, 0, 1] [])) = some [2, 0, 1] := by
    decide
  have hn : ∀ d1, update_socket sample_host 16 false
      (sample_state [0, 0, 0, 1, 63] [1, 0, 1, 2, 0, 1] []) = .ok d1 →
      d1.m_socket.rsched.head? ≠ some 0 := by
    intro d1 h1
    rw [h1] at hleft
    simp only [reads_left, Option.some.injEq] at hleft
    rw [hleft]
    decide
  ⟨h, ho, hn, C14_status_after_reopen sample_host 16 false true _ (sample_state [0, 1, 63] [] [])
    [63] [] [] h rfl rfl (by decide) hn ho (by decide) (by decide)⟩

/-- C18 at a command whose text holds a NUL byte. -/
theorem C18_execute_command_text_witness :
    receives (sample_state [0, 4, 120, 103, 0, 111] [] []) [120, 103, 0, 111] [] ∧
    ∃ d1, update_socket sample_host 8 false (sample_state [0, 4, 120, 103, 0, 111] [] [])
        = .ok d1 ∧
      d1.calls = (sample_state [0, 4, 120, 103, 0, 111] [] []).calls
        ++ [Call.text_buffer_clear,
          Call.execute_command (([120, 103, 0, 111] : List Nat).drop 1)] ∧
      (([120, 103, 0, 111] : List Nat).drop 1).length
        = ([120, 103, 0, 111] : List Nat).length - 1 ∧
      (([120, 103, 0, 111] : List Nat).length = 1 → ([120, 103, 0, 111] : List Nat).drop 1 = []) ∧
      d1.textbuf = sample_host.execute_command (([120, 103, 0, 111] : List Nat).drop 1) :=
  have h : receives (sample_state [0, 4, 120, 103, 0, 111] [] []) [120, 103, 0, 111] [] := by
    unfold receives; decide
  ⟨h, C18_execute_command_text sample_host 8 false _ [120, 103, 0, 111] [] h rfl (by decide)⟩

/-- C19 at a frame of three bytes whose second length byte arrives after a
zero-byte read. -/
theorem C19_recv_buffer_bounds_witness :
    recv 8 (sample_state [3, 1, 2, 3, 9] [0, 2] []) 0 ≠ .error .oob ∧
    ∃ d1, recv 8 (sample_state [3, 1, 2, 3, 9] [0, 2] []) 0
      = .ok (([1, 2, 3] : List Nat).length, d1) :=
  ⟨(C19_recv_buffer_bounds 8 (sample_state [3, 1, 2, 3, 9] [0, 2] []) 0).1,
    (C19_recv_buffer_bounds 8 (sample_state [3, 1, 2, 3, 9] [0, 2] []) 0).2.2 3 [1, 2, 3] [9]
      rfl (by decide) (by decide) (by decide)⟩

end osd
